import Mathlib

/-!
TheAcidKit: the score parser and step resolver of `AcidComposer`, the envelopes of
`AcidStation`

A shallow embedding of `src/src/AcidComposer.cpp` (class `StepAttributes`,
`AcidComposer::noteToCv`, `clearSeq`, `parseSeq`, `initRun`, `process`), of
`src/src/header_regex.cpp` (`header_search`) and of `src/src/AcidStation.cpp`
(`Envelope3Generator`, the envelope and accent part of `AcidStation::process`),
followed by their properties.

Modelling conventions

* A `std::string` is a `List Char`, one `Char` per byte.
* `float` values are exact rationals (`ℚ`): `2.0 / 12.0` is `2 / 12` and
  `transpose * SEMITONE` is an exact product. Infinities and NaN are not values of the
  model: the envelope is modelled for time constants other than zero, where its
  quotients are finite. Rounding is left out where a property holds up to rounding;
  where the rounding decides (the length of an attack), the envelope is modelled a
  second time with every operation rounded to binary32 (`process32`).
* `unsigned short` is a `Nat` reduced `% 65536` after every assignment; the
  operand `~MASK` is the 32-bit complement of the promoted `int`.
* Only bank 0 of `notes`, `octaves`, `attributes`, `transposes`, `letters` and
  `lengths` is ever used by the source; the model keeps that bank, each array
  of 16 steps as a function on `Fin 16`.
* What can stop `parseSeq` other than a `return` is a `Fault`: the exceptions
  of `std::string::at` and `std::stoi` (nothing in the module catches them), and
  a subscript `[0][step]` with `step` outside the 16 steps of the bank
  (undefined behaviour in C++; a real build lands in the next bank).
* `DEBUG(...)` lines only log; they are left out, the closing loop over
  `i < length` included.
* `AcidComposer::process` reads `attributes[0][16]` on every pass through step 0
  (its look-behind subscript); the read lands on `attributes[1][0]`, which the
  model carries as a value of its own that no claim constrains. A cursor
  outside 0..16 is a `Fault`.
* Code outside the repository enters as an input of the sample: what the
  Schmitt-trigger detectors of the Rack SDK and of slime answer, the engine's
  sample rate, the output of the wave-digital slide filter, `std::pow(10, x)`.
-/

namespace AcidKit

/-! ## Faults -/

/-- What ends `parseSeq` without a return value. -/
inductive Fault where
  /-- Model of `std::out_of_range` thrown by `std::string::at (pos)` on a string of `size` bytes. -/
  | at_out_of_range (pos size : Nat)
  /-- Model of `std::invalid_argument` thrown by `std::stoi`. -/
  | stoi_invalid_argument
  /-- Model of `std::out_of_range` thrown by `std::stoi`. -/
  | stoi_out_of_range
  /-- A subscript `[0][step]` with `16 ≤ step`. -/
  | step_out_of_bounds (step : Nat)
  /-- A subscript `[0][stepIndexRun]` of `process` whose cursor is not on a step of the bank. -/
  | cursor_out_of_bounds (stepIndexRun : Int)
  deriving DecidableEq, Repr

/-- Model of `line.at(pos)`. -/
def charAt (line : List Char) (idx : Nat) : Except Fault Char :=
  match (line)[idx]? with
  | some c => .ok c
  | none => .error (.at_out_of_range idx line.length)

/-- Model of `array[0][step] = v`. -/
def store {α : Type} (array : Fin 16 → α) (step : Nat) (v : α) : Except Fault (Fin 16 → α) :=
  if h : step < 16 then .ok (Function.update array ⟨step, h⟩ v)
  else .error (.step_out_of_bounds step)

/-- Model of `array[0][step]` updated in place by `f` (`array[0][step] += x`, `array[0][step].setGate(..)`). -/
def modify {α : Type} (array : Fin 16 → α) (step : Nat) (f : α → α) : Except Fault (Fin 16 → α) :=
  if h : step < 16 then .ok (Function.update array ⟨step, h⟩ (f (array ⟨step, h⟩)))
  else .error (.step_out_of_bounds step)

/-! ## `class StepAttributes` -/

/-- The per-step bit field. -/
structure StepAttributes where
  attributes : Nat
  deriving DecidableEq, Repr

namespace StepAttributes

/-- Bit of the Gate flag. -/
def ATT_ST_GATE : Nat := 0x01

/-- Bit of the Accent flag. -/
def ATT_ST_ACCENT : Nat := 0x04

/-- Bit of the Slide flag. -/
def ATT_ST_SLIDE : Nat := 0x08

/-- Bit of the Tie flag. -/
def ATT_ST_TIED : Nat := 0x10

/-- Initial value: Gate only. -/
def ATT_ST_INIT : Nat := ATT_ST_GATE

/-- The operand `~mask`: `mask` promoted to a 32-bit `int` and complemented. -/
def bitNot (mask : Nat) : Nat := 0xFFFFFFFF - mask

/-- Model of `attributes &= ~mask;` -/
def andNot (s : StepAttributes) (mask : Nat) : StepAttributes :=
  ⟨(s.attributes &&& bitNot mask) % 65536⟩

/-- Model of `attributes |= mask;` -/
def orWith (s : StepAttributes) (mask : Nat) : StepAttributes :=
  ⟨(s.attributes ||| mask) % 65536⟩

/-- Method `clear()`: `attributes = 0u`. -/
def clear (_s : StepAttributes) : StepAttributes := ⟨0⟩

/-- Method `init()`: `attributes = ATT_ST_INIT`. -/
def init (_s : StepAttributes) : StepAttributes := ⟨ATT_ST_INIT⟩

/-- Method `getGate()`. -/
def getGate (s : StepAttributes) : Bool := (s.attributes &&& ATT_ST_GATE) != 0

/-- Method `getAccent()`. -/
def getAccent (s : StepAttributes) : Bool := (s.attributes &&& ATT_ST_ACCENT) != 0

/-- Method `getSlide()`. -/
def getSlide (s : StepAttributes) : Bool := (s.attributes &&& ATT_ST_SLIDE) != 0

/-- Method `getTie()`. -/
def getTie (s : StepAttributes) : Bool := (s.attributes &&& ATT_ST_TIED) != 0

/-- Method `getAttribute()`. -/
def getAttribute (s : StepAttributes) : Nat := s.attributes

/-- Method `setGate(gateState)`: clear the bit, then set it when asked. -/
def setGate (s : StepAttributes) (gateState : Bool) : StepAttributes :=
  let s := s.andNot ATT_ST_GATE
  if gateState then s.orWith ATT_ST_GATE else s

/-- Method `setAccent(accentState)`. -/
def setAccent (s : StepAttributes) (accentState : Bool) : StepAttributes :=
  let s := s.andNot ATT_ST_ACCENT
  if accentState then s.orWith ATT_ST_ACCENT else s

/-- Method `setSlide(slideState)`. -/
def setSlide (s : StepAttributes) (slideState : Bool) : StepAttributes :=
  let s := s.andNot ATT_ST_SLIDE
  if slideState then s.orWith ATT_ST_SLIDE else s

/-- Method `setTie(tiedState)`: clear the bit; when asked, set it and clear Gate, Accent and
Slide. -/
def setTie (s : StepAttributes) (tiedState : Bool) : StepAttributes :=
  let s := s.andNot ATT_ST_TIED
  if tiedState then
    let s := s.orWith ATT_ST_TIED
    s.andNot (ATT_ST_GATE ||| ATT_ST_ACCENT ||| ATT_ST_SLIDE)
  else s

end StepAttributes

/-! ## `header_regex.cpp` -/

/-- The class `[A-Z]`. -/
def isUpperAZ (c : Char) : Bool := decide ('A'.toNat ≤ c.toNat ∧ c.toNat ≤ 'Z'.toNat)

/-- The class `[0-9]`. -/
def isDigit09 (c : Char) : Bool := decide ('0'.toNat ≤ c.toNat ∧ c.toNat ≤ '9'.toNat)

/-- The class `\s` for `char` in the "C" locale: space, `\t`, `\n`, `\v`, `\f`, `\r`. -/
def isSpaceClass (c : Char) : Bool := decide (c.toNat = 32 ∨ (9 ≤ c.toNat ∧ c.toNat ≤ 13))

/-- The class `[+-]`. -/
def isSign (c : Char) : Bool := decide (c = '+' ∨ c = '-')

/-- The loop `([+-]{1}[0-9]{1,2})*`: greedy iterations from the current position;
`last` is what the third group captured in the latest completed iteration. An
iteration consumes at least two characters, so `fuel` equal to the length of the
input is never used up. -/
def transposeGroup : Nat → List Char → List Char → List Char
  | 0, _, last => last
  | fuel + 1, s :: d1 :: tl, last =>
    if isSign s && isDigit09 d1 then
      match tl with
      | d2 :: tl2 =>
        if isDigit09 d2 then transposeGroup fuel tl2 [s, d1, d2]
        else transposeGroup fuel (d2 :: tl2) [s, d1]
      | [] => [s, d1]
    else last
  | _ + 1, _, last => last

/-- The sub-matches `m.str(1)`, `m.str(2)`, `m.str(3)` of a successful search. -/
structure cmatch where
  str1 : List Char
  str2 : List Char
  str3 : List Char
  deriving DecidableEq, Repr

/-- What `c_str()` shows of a string: the bytes before the first NUL. -/
def c_str (s : List Char) : List Char := s.takeWhile (fun c => c.toNat ≠ 0)

/-- Model of `std::regex_search(str, *cm, re)` for
`re = ^([A-Z])\s+([0-9]+)\s*([+-]{1}[0-9]{1,2})*`. The anchor `^` ties the match to the
first byte. Every quantifier is greedy and no shorter choice can rescue a failed attempt
(a space is not a digit, and the tail may match empty), so the search is this single
left-to-right pass. -/
def header_search (str : List Char) : Option cmatch :=
  match str with
  | [] => none
  | l :: r1 =>
    if isUpperAZ l then
      let ws := r1.takeWhile isSpaceClass
      let r2 := r1.dropWhile isSpaceClass
      if ws.isEmpty then none
      else
        let ds := r2.takeWhile isDigit09
        let r3 := r2.dropWhile isDigit09
        if ds.isEmpty then none
        else
          let r4 := r3.dropWhile isSpaceClass
          some ⟨[l], ds, transposeGroup r4.length r4 []⟩
    else none

/-! ## `std::stoi` -/

/-- Value of a run of decimal digits, most significant first. -/
def decimalValue (ds : List Char) : Nat :=
  ds.foldl (fun acc c => 10 * acc + (c.toNat - '0'.toNat)) 0

/-- Model of `std::stoi(str)`: leading white space, an optional sign, then the longest run of
digits; throws when there is no digit or the value does not fit an `int`. -/
def stoi (str : List Char) : Except Fault Int :=
  let s := str.dropWhile isSpaceClass
  let neg := s.head? == some '-'
  let s := if s.head? == some '-' || s.head? == some '+' then s.tail else s
  let ds := s.takeWhile isDigit09
  if ds.isEmpty then .error .stoi_invalid_argument
  else
    let v : Int := if neg then -(decimalValue ds : Int) else (decimalValue ds : Int)
    if v < -2147483648 ∨ 2147483647 < v then .error .stoi_out_of_range else .ok v

/-! ## `struct AcidComposer` -/

/-- The five strings of the textual score. -/
structure ComposerSequence where
  headerStr : List Char
  notesStr : List Char
  octaveStr : List Char
  slideAccentStr : List Char
  timeStr : List Char
  dirty : Bool

/-- Bank 0 of the pattern, with the score it is parsed from. -/
structure AcidComposer where
  sequence : ComposerSequence
  notes : Fin 16 → ℚ
  octaves : Fin 16 → ℚ
  transposes : ℚ
  letters : Char
  lengths : Nat
  attributes : Fin 16 → StepAttributes

/-- Model of `float SEMITONE = (1.0/12.0);` -/
def SEMITONE : ℚ := 1 / 12

/-- Model of `AcidComposer::noteToCv`. -/
def noteToCv (ch : Char) : ℚ :=
  if ch = 'c' ∨ ch = 'C' then 0
  else if ch = 'd' ∨ ch = 'D' then 2 / 12
  else if ch = 'e' ∨ ch = 'E' then 4 / 12
  else if ch = 'f' ∨ ch = 'F' then 5 / 12
  else if ch = 'g' ∨ ch = 'G' then 7 / 12
  else if ch = 'a' ∨ ch = 'A' then 9 / 12
  else if ch = 'b' ∨ ch = 'B' then 11 / 12
  else 0

/-- Model of `AcidComposer::clearSeq`: the loop `for (i = 0; i < 16; ++i)` resets every step. -/
def clearSeq (m : AcidComposer) : AcidComposer :=
  { m with
    notes := fun _ => 0
    octaves := fun _ => 0
    attributes := fun i => (m.attributes i).clear }

/-- Body of the notes loop of `parseSeq`. -/
def notesStep (line : List Char) (step : Nat) (notes : Fin 16 → ℚ) :
    Except Fault (Fin 16 → ℚ) := do
  let c0 ← charAt line (step * 2)
  if c0 ≠ ' ' then
    let cv := noteToCv c0
    let notes ← store notes step cv
    let c1 ← charAt line (step * 2 + 1)
    let notes ← if c1 = '#' then modify notes step (fun x => x + SEMITONE) else pure notes
    if c1 = 'b' then modify notes step (fun x => x - SEMITONE) else pure notes
  else store notes step 0

/-- Body of the octave loop of `parseSeq`. -/
def octaveStep (line : List Char) (step : Nat) (octaves : Fin 16 → ℚ) :
    Except Fault (Fin 16 → ℚ) := do
  let c ← charAt line step
  if c = 'U' ∨ c = 'u' then store octaves step 1
  else if c = 'D' ∨ c = 'd' then store octaves step (-1)
  else store octaves step 0

/-- Body of the slide/accent loop of `parseSeq`. -/
def slideAccentStep (line : List Char) (step : Nat) (attributes : Fin 16 → StepAttributes) :
    Except Fault (Fin 16 → StepAttributes) := do
  let c0 ← charAt line (step * 2)
  if c0 ≠ ' ' then
    let c1 ← charAt line (step * 2 + 1)
    let attributes ←
      if c1 = 'S' ∨ c1 = 's' ∨ c0 = 'S' ∨ c0 = 's' then
        modify attributes step (fun a => a.setSlide true)
      else pure attributes
    if c1 = 'A' ∨ c1 = 'a' ∨ c0 = 'A' ∨ c0 = 'a' then
      modify attributes step (fun a => a.setAccent true)
    else pure attributes
  else pure attributes

/-- The loop `for (; step < length && step < (int)line.size(); ++step) body`, entered at
`step` with `n` iterations left. -/
def forSteps {σ : Type} (body : Nat → σ → Except Fault σ) : Nat → Nat → σ → Except Fault σ
  | 0, _, s => .ok s
  | n + 1, step, s =>
    match body step s with
    | .ok s1 => forSteps body n (step + 1) s1
    | .error e => .error e

/-- The time loop of `parseSeq`, entered at `step` with `n` iterations left. The first
component is `some code` when the loop ends in `return code;`. -/
def timeLoop (line : List Char) :
    Nat → Nat → (Fin 16 → StepAttributes) → Except Fault (Option Int × (Fin 16 → StepAttributes))
  | 0, _, attributes => .ok (none, attributes)
  | n + 1, step, attributes =>
    match charAt line step with
    | .error e => .error e
    | .ok c =>
      if c = 'O' ∨ c = 'o' then
        match modify attributes step (fun a => a.setGate true) with
        | .ok attributes => timeLoop line n (step + 1) attributes
        | .error e => .error e
      else if c = '_' then
        match modify attributes step (fun a => a.setTie true) with
        | .ok attributes => timeLoop line n (step + 1) attributes
        | .error e => .error e
      else if c = ' ' ∨ c = '-' then
        match modify attributes step (fun a => a.clear) with
        | .ok attributes => timeLoop line n (step + 1) attributes
        | .error e => .error e
      else
        match modify attributes step (fun a => a.clear) with
        | .ok attributes => .ok (some (-4), attributes)
        | .error e => .error e

/-- Number of iterations of `for (step = 0; step < length && step < (int)line.size(); ++step)`. -/
def loopCount (length : Int) (line : List Char) : Nat := min length.toNat line.length

/-- The initialiser `m.str(3).size() ? std::stoi(m.str(3)) : 0` of `transpose` in `parseSeq`. -/
def transposeOf (cm : cmatch) : Except Fault Int :=
  if cm.str3.length ≠ 0 then stoi cm.str3 else .ok 0

/-- Model of `AcidComposer::parseSeq`. After a successful search `m.size()` is 4, so the
inner `else return -2;` is never taken. -/
def parseSeq (m : AcidComposer) : Except Fault (Int × AcidComposer) :=
  let m := clearSeq m
  match header_search (c_str m.sequence.headerStr) with
  | none => .ok (-2, m)
  | some cm => do
    let letter := cm.str1.take 1
    let length ← stoi cm.str2
    let transpose ← transposeOf cm
    let line := m.sequence.notesStr
    let notes ← forSteps (notesStep line) (loopCount length line) 0 m.notes
    let line := m.sequence.octaveStr
    let octaves ← forSteps (octaveStep line) (loopCount length line) 0 m.octaves
    let line := m.sequence.slideAccentStr
    let attributes ← forSteps (slideAccentStep line) (loopCount length line) 0 m.attributes
    let line := m.sequence.timeStr
    let r ← timeLoop line (loopCount length line) 0 attributes
    let m := { m with notes := notes, octaves := octaves, attributes := r.2 }
    match r.1 with
    | some code => pure (code, m)
    | none =>
      let l0 ← charAt letter 0
      pure (0, { m with
        letters := l0
        lengths := (length % 256).toNat
        transposes := (transpose : ℚ) * SEMITONE })

/-! ## Effect of the loops, entry by entry -/

/-- The byte of `line` at `idx`, a blank beyond the end. -/
def peek (line : List Char) (idx : Nat) : Char := ((line)[idx]?).getD ' '

/-- The array `a` with `f` applied to entry `step` (unchanged when `16 ≤ step`). -/
def applyAt {α : Type} (a : Fin 16 → α) (step : Nat) (f : α → α) : Fin 16 → α :=
  fun i => if i.val = step then f (a i) else a i

/-- The array `a` with `g k` applied to every entry `k` of `s ≤ k < s + n`. -/
def applyRange {α : Type} (a : Fin 16 → α) (s n : Nat) (g : Nat → α → α) : Fin 16 → α :=
  fun i => if s ≤ i.val ∧ i.val < s + n then g i.val (a i) else a i

/-- What the notes loop leaves in `notes[0][step]` for the cell `c0 c1`. -/
def noteCell (c0 c1 : Char) : ℚ :=
  if c0 ≠ ' ' then
    (noteToCv c0 + if c1 = '#' then SEMITONE else 0) - if c1 = 'b' then SEMITONE else 0
  else 0

/-- What the octave loop leaves in `octaves[0][step]` for the character `c`. -/
def octaveCell (c : Char) : ℚ :=
  if c = 'U' ∨ c = 'u' then 1 else if c = 'D' ∨ c = 'd' then -1 else 0

/-- Effect of the slide/accent loop on `attributes[0][step]` for the cell `c0 c1`. -/
def slideAccentCell (c0 c1 : Char) (x : StepAttributes) : StepAttributes :=
  if c0 ≠ ' ' then
    let x1 := if c1 = 'S' ∨ c1 = 's' ∨ c0 = 'S' ∨ c0 = 's' then x.setSlide true else x
    if c1 = 'A' ∨ c1 = 'a' ∨ c0 = 'A' ∨ c0 = 'a' then x1.setAccent true else x1
  else x

/-- Effect of the time loop on `attributes[0][step]` for the character `c`. -/
def timeCell (c : Char) (x : StepAttributes) : StepAttributes :=
  if c = 'O' ∨ c = 'o' then x.setGate true
  else if c = '_' then x.setTie true
  else x.clear

/-- The characters the time loop accepts. -/
def validTime (c : Char) : Prop := c = 'O' ∨ c = 'o' ∨ c = '_' ∨ c = ' ' ∨ c = '-'

instance (c : Char) : Decidable (validTime c) := by unfold validTime; infer_instance

/-- Iteration `step` of the notes loop completes. -/
def notesOk (line : List Char) (step : Nat) : Prop :=
  step < 16 ∧ step * 2 < line.length ∧ (peek line (step * 2) ≠ ' ' → step * 2 + 1 < line.length)

/-- Iteration `step` of the octave loop completes. -/
def octaveOk (line : List Char) (step : Nat) : Prop := step < 16 ∧ step < line.length

/-- The slide test of the slide/accent loop on the cell `c0 c1`. -/
def wantsSlide (c0 c1 : Char) : Prop := c1 = 'S' ∨ c1 = 's' ∨ c0 = 'S' ∨ c0 = 's'

/-- The accent test of the slide/accent loop on the cell `c0 c1`. -/
def wantsAccent (c0 c1 : Char) : Prop := c1 = 'A' ∨ c1 = 'a' ∨ c0 = 'A' ∨ c0 = 'a'

instance (c0 c1 : Char) : Decidable (wantsSlide c0 c1) := by unfold wantsSlide; infer_instance

instance (c0 c1 : Char) : Decidable (wantsAccent c0 c1) := by unfold wantsAccent; infer_instance

/-- Iteration `step` of the slide/accent loop completes. -/
def slideAccentOk (line : List Char) (step : Nat) : Prop :=
  step * 2 < line.length ∧
    (peek line (step * 2) ≠ ' ' →
      step * 2 + 1 < line.length ∧
        (wantsSlide (peek line (step * 2)) (peek line (step * 2 + 1)) ∨
          wantsAccent (peek line (step * 2)) (peek line (step * 2 + 1)) → step < 16))

/-- Iteration `step` of the time loop reads and writes in range. -/
def timeOk (line : List Char) (step : Nat) : Prop := step < line.length ∧ step < 16

/-- The pattern when the loops of `parseSeq` are done: the cleared state with the three arrays. -/
def afterLoops (m : AcidComposer) (ns os : Fin 16 → ℚ) (as : Fin 16 → StepAttributes) :
    AcidComposer :=
  { clearSeq m with notes := ns, octaves := os, attributes := as }

/-- The pattern at `return 0;`. -/
def afterHeader (m : AcidComposer) (l0 : Char) (length transpose : Int) : AcidComposer :=
  { m with letters := l0, lengths := (length % 256).toNat, transposes := (transpose : ℚ) * SEMITONE }

/-- The five stages of `parseSeq` after a header match `cm`, with their results. -/
structure Stages (m : AcidComposer) (cm : cmatch) (length transpose : Int)
    (ns os : Fin 16 → ℚ) (as : Fin 16 → StepAttributes)
    (r : Option Int × (Fin 16 → StepAttributes)) : Prop where
  header : header_search (c_str m.sequence.headerStr) = some cm
  length_eq : stoi cm.str2 = .ok length
  transpose_eq : transposeOf cm = .ok transpose
  notes_eq : forSteps (notesStep m.sequence.notesStr) (loopCount length m.sequence.notesStr) 0
    (fun _ => 0) = .ok ns
  octaves_eq : forSteps (octaveStep m.sequence.octaveStr) (loopCount length m.sequence.octaveStr) 0
    (fun _ => 0) = .ok os
  slideAccent_eq : forSteps (slideAccentStep m.sequence.slideAccentStr)
    (loopCount length m.sequence.slideAccentStr) 0 (fun _ => ⟨0⟩) = .ok as
  time_eq : timeLoop m.sequence.timeStr (loopCount length m.sequence.timeStr) 0 as = .ok r

/-- A captured transpose: nothing, or a sign and one or two digits. -/
def IsTranspose (tr : List Char) : Prop :=
  tr = [] ∨ ∃ s d1, isSign s = true ∧ isDigit09 d1 = true ∧
    (tr = [s, d1] ∨ ∃ d2, isDigit09 d2 = true ∧ tr = [s, d1, d2])

/-- Boolean test of `IsTranspose`. -/
def isTransposeText : List Char → Bool
  | [] => true
  | [s, d1] => isSign s && isDigit09 d1
  | [s, d1, d2] => isSign s && isDigit09 d1 && isDigit09 d2
  | _ => false

instance (tr : List Char) : Decidable (IsTranspose tr) :=
  decidable_of_iff (isTransposeText tr = true) (by
    unfold IsTranspose
    match tr with
    | [] => simp [isTransposeText]
    | [a] => simp [isTransposeText]
    | [s, d1] =>
      simp only [isTransposeText, Bool.and_eq_true]
      constructor
      · rintro ⟨h1, h2⟩
        exact Or.inr ⟨s, d1, h1, h2, Or.inl rfl⟩
      · rintro (h | ⟨s1, e1, h1, h2, h | ⟨d2, _, h⟩⟩)
        · cases h
        · cases h
          exact ⟨h1, h2⟩
        · cases h
    | [s, d1, d2] =>
      simp only [isTransposeText, Bool.and_eq_true]
      constructor
      · rintro ⟨⟨h1, h2⟩, h3⟩
        exact Or.inr ⟨s, d1, h1, h2, Or.inr ⟨d2, h3, rfl⟩⟩
      · rintro (h | ⟨s1, e1, h1, h2, h | ⟨e2, h3, h⟩⟩)
        · cases h
        · cases h
        · cases h
          exact ⟨⟨h1, h2⟩, h3⟩
    | a :: b :: c :: d :: tl =>
      simp only [isTransposeText, Bool.false_eq_true, false_iff]
      rintro (h | ⟨s1, e1, h1, h2, h | ⟨e2, h3, h⟩⟩) <;> cases h)

/-- The integer a transpose text `±D` stands for, `0` for no text. -/
def signedValue : List Char → Int
  | [] => 0
  | s :: dd => if s = '-' then -(decimalValue dd : Int) else (decimalValue dd : Int)

/-- The result of `parseSeq m` read in a state `m1` holding the same score: identical
on success, and with the header fields of `m1` otherwise. -/
def transfer (m1 : AcidComposer) (r : Int × AcidComposer) : Int × AcidComposer :=
  (r.1, if r.1 = 0 then r.2
    else { r.2 with transposes := m1.transposes, letters := m1.letters, lengths := m1.lengths })

/-! ## Vocabulary of the claims -/

/-- Both characters of every step that a loop over `length` steps visits exist in the
two-character track `line`: twice the number of iterations is at most its size. The fixed
widths 64 (set by the constructor) and 32 (kept by the text fields) satisfy it for every
`length ≤ 16`. -/
def holdsCells (length : Int) (line : List Char) : Prop :=
  2 * loopCount length line ≤ line.length

instance (length : Int) (line : List Char) : Decidable (holdsCells length line) := by
  unfold holdsCells
  infer_instance

/-- The header grammar in words: an uppercase letter, white space, digits, then anything
(the optional signed transpose may match nothing). -/
def MatchesHeaderGrammar (h : List Char) : Prop :=
  ∃ L ws ds rest, h = L :: (ws ++ (ds ++ rest)) ∧ isUpperAZ L = true ∧
    ws ≠ [] ∧ (∀ c ∈ ws, isSpaceClass c = true) ∧ ds ≠ [] ∧ (∀ c ∈ ds, isDigit09 c = true)

/-- The per-character mapping of the time track onto the attributes of a step. -/
def TimeMapping (c : Char) (x : StepAttributes) : Prop :=
  ((c = 'o' ∨ c = 'O') → x.getGate = true ∧ x.getTie = false) ∧
  (c = '_' → x.getTie = true ∧ x.getGate = false ∧ x.getAccent = false ∧ x.getSlide = false) ∧
  ((c = ' ' ∨ c = '-') → x.getAttribute = 0)

/-- The semitone table of the notes track: C=0, D=2, E=4, F=5, G=7, A=9, B=11, either case,
0 for any other character. -/
def semitoneTable (c : Char) : ℚ :=
  if c = 'C' ∨ c = 'c' then 0
  else if c = 'D' ∨ c = 'd' then 2
  else if c = 'E' ∨ c = 'e' then 4
  else if c = 'F' ∨ c = 'f' then 5
  else if c = 'G' ∨ c = 'g' then 7
  else if c = 'A' ∨ c = 'a' then 9
  else if c = 'B' ∨ c = 'b' then 11
  else 0

/-! ## Example scores and pattern states -/

/-- A run of `n` blanks. -/
def blank (n : Nat) : List Char := List.replicate n ' '

/-- Some pattern state left by earlier activity, holding the given score. -/
def priorState (s : ComposerSequence) : AcidComposer :=
  { sequence := s
    notes := fun _ => 5 / 12
    octaves := fun _ => 1
    transposes := 7 / 12
    letters := 'Z'
    lengths := 3
    attributes := fun _ => ⟨0x1D⟩ }

/-- The list `s` padded with blanks to `n` characters. -/
def padTo (n : Nat) (s : List Char) : List Char := s ++ blank (n - s.length)

/-- A textual score with every track padded to the fixed width of 64 characters. -/
def score (header notes octave slideAccent time : String) : ComposerSequence :=
  { headerStr := header.toList
    notesStr := padTo 64 notes.toList
    octaveStr := padTo 64 octave.toList
    slideAccentStr := padTo 64 slideAccent.toList
    timeStr := padTo 64 time.toList
    dirty := true }

/-- A textual score with the tracks exactly as given. -/
def rawScore (header notes octave slideAccent time : String) : ComposerSequence :=
  { headerStr := header.toList
    notesStr := notes.toList
    octaveStr := octave.toList
    slideAccentStr := slideAccent.toList
    timeStr := time.toList
    dirty := true }

/-- Another earlier pattern state holding the given score. -/
def otherPriorState (s : ComposerSequence) : AcidComposer :=
  { sequence := s
    notes := fun _ => 0
    octaves := fun _ => -1
    transposes := 0
    letters := 'Q'
    lengths := 9
    attributes := fun _ => ⟨0x10⟩ }

/-! ## `AcidComposer::process`: run button, clock, reset and the step resolver -/

/-- The whole of `struct AcidComposer` that `process` works on: the pattern with its score
(`composer`), the latched values, the run state and the three output ports.
`attributes_1_0` is the element `attributes[1][0]`, which lies right behind row 0 of
`attributes[16][16]`; only a parse with a header length above 16 could store there, and
the model ends such a parse in a `Fault`. -/
structure ComposerModule where
  composer : AcidComposer
  attributes_1_0 : StepAttributes
  currentCv : ℚ
  currentAccent : Bool
  currentSlide : Bool
  running : Bool
  stepIndexRun : Int
  clockIgnoreOnReset : Int
  resetLight : ℚ
  resetOnRun : Bool
  cvOutput : ℚ
  gateOutput : ℚ
  accentOutput : ℚ

/-- What one call of `process` takes from outside the module: the answers of the three
`dsp::SchmittTrigger` detectors of the Rack SDK (`clockTrigger` is only asked while running
outside the ignore window), the clock voltage, the engine's sample rate and what
`slideFilter.processSample` (chowdsp_wdf) leaves in `slideFilter.lastSample`. -/
structure Sample where
  runningTrigger : Bool
  clockTrigger : Bool
  resetTrigger : Bool
  clockVoltage : ℚ
  sampleRate : ℚ
  lastSample : ℚ

/-- Model of the conversion `(long) x` of a `float`: the fraction is dropped. -/
def toLong (x : ℚ) : Int := if 0 ≤ x then Int.floor x else Int.ceil x

namespace ComposerModule

/-- Model of `clockIgnoreOnResetDuration = 0.001f`. -/
def clockIgnoreOnResetDuration : ℚ := 1 / 1000

/-- Model of `AcidComposer::initRun`. -/
def initRun (m : ComposerModule) (sampleRate : ℚ) : ComposerModule :=
  { m with
    clockIgnoreOnReset := toLong (clockIgnoreOnResetDuration * sampleRate)
    stepIndexRun := 0 }

/-- The block `if (sequence.dirty) { ... parseSeq(); ... sequence.dirty = false; }` of
`process`; the result code is only logged. -/
def reparse (m : ComposerModule) : Except Fault ComposerModule :=
  if m.composer.sequence.dirty then do
    let r ← parseSeq m.composer
    pure { m with composer := { r.2 with sequence := { r.2.sequence with dirty := false } } }
  else pure m

/-- The block `// Run button` of `process`. -/
def runButton (m : ComposerModule) (s : Sample) : ComposerModule :=
  if s.runningTrigger then
    let m := { m with running := !m.running }
    if m.running then
      let m := { m with
        stepIndexRun := 0
        clockIgnoreOnReset := toLong (clockIgnoreOnResetDuration * s.sampleRate) }
      if m.resetOnRun then initRun m s.sampleRate else m
    else m
  else m

/-- The block `// Clock` of `process`. -/
def clock (m : ComposerModule) (s : Sample) : ComposerModule :=
  if m.running && m.clockIgnoreOnReset == 0 then
    if s.clockTrigger then
      let m := { m with stepIndexRun := m.stepIndexRun + 1 }
      if m.stepIndexRun ≥ 16 then { m with stepIndexRun := 0 } else m
    else m
  else m

/-- The block `// Reset` of `process` (`clockTrigger.reset()` acts on the detector). -/
def resetButton (m : ComposerModule) (s : Sample) : ComposerModule :=
  if s.resetTrigger then { initRun m s.sampleRate with resetLight := 1 } else m

/-- Model of a read `array[0][idx]` of `notes` or `octaves` in `process`. -/
def readStep {α : Type} (array : Fin 16 → α) (idx : Int) : Except Fault α :=
  if h : 0 ≤ idx ∧ idx < 16 then .ok (array ⟨idx.toNat, by omega⟩)
  else .error (.cursor_out_of_bounds idx)

/-- Model of a read `attributes[0][idx]` in `process`. The subscript 16 leaves row 0 and
lands on `attributes[1][0]`, the next element of the array. -/
def readAttributes (m : ComposerModule) (idx : Int) : Except Fault StepAttributes :=
  if h : 0 ≤ idx ∧ idx < 16 then .ok (m.composer.attributes ⟨idx.toNat, by omega⟩)
  else if idx = 16 then .ok m.attributes_1_0
  else .error (.cursor_out_of_bounds idx)

/-- The subscript `(stepIndexRun - 1 < 0 ? 16 : stepIndexRun - 1)`. -/
def previousIndex (stepIndexRun : Int) : Int :=
  if stepIndexRun - 1 < 0 then 16 else stepIndexRun - 1

/-- The subscript `(stepIndexRun + 1 >= 16 ? 0 : stepIndexRun + 1)`. -/
def nextIndex (stepIndexRun : Int) : Int :=
  if stepIndexRun + 1 ≥ 16 then 0 else stepIndexRun + 1

/-- The three `if`s of `process` that settle `bool gate`, from `bool gate = false;` on. -/
def resolveGate (isGate isTie isSlide previousIsGate previousIsTie previousIsSlide
    nextIsTie nextIsSlide clock : Bool) : Bool :=
  let gate := false
  let gate :=
    if (isGate && (!nextIsTie || !nextIsSlide)) || (isTie && previousIsTie && !nextIsTie)
    then clock else gate
  let gate :=
    if (isGate && (nextIsTie || nextIsSlide)) || (isTie && previousIsTie && nextIsTie)
      || (isSlide && previousIsSlide && nextIsSlide)
    then true else gate
  let gate :=
    if isTie && previousIsGate then (if nextIsTie || nextIsSlide then true else clock)
    else gate
  gate

/-- The three latch statements of `process`, each under
`if (attributes[0][stepIndexRun].getGate())`; the element is read once here. -/
def latch (m : ComposerModule) : Except Fault ComposerModule := do
  let a ← readAttributes m m.stepIndexRun
  let m ← if a.getGate then do
      let n ← readStep m.composer.notes m.stepIndexRun
      let o ← readStep m.composer.octaves m.stepIndexRun
      pure { m with currentCv := n + o + m.composer.transposes }
    else pure m
  let m := if a.getGate then { m with currentAccent := a.getAccent } else m
  let m := if a.getGate then { m with currentSlide := a.getSlide } else m
  pure m

/-- The block `if (running) { ... } else { ... }` of `process`: latch, gate and the outputs. -/
def resolve (m : ComposerModule) (s : Sample) : Except Fault ComposerModule :=
  if m.running then do
    let m ← latch m
    let previousIsGate := (← readAttributes m (previousIndex m.stepIndexRun)).getGate
    let nextIsTie := (← readAttributes m (nextIndex m.stepIndexRun)).getTie
    let previousIsTie := (← readAttributes m (previousIndex m.stepIndexRun)).getTie
    let nextIsSlide := (← readAttributes m (nextIndex m.stepIndexRun)).getSlide
    let previousIsSlide := (← readAttributes m (previousIndex m.stepIndexRun)).getSlide
    let isTie := (← readAttributes m m.stepIndexRun).getTie
    let isGate := (← readAttributes m m.stepIndexRun).getGate
    let isSlide := (← readAttributes m m.stepIndexRun).getSlide
    let clock := decide (s.clockVoltage > 1 / 10)
    let gate := resolveGate isGate isTie isSlide previousIsGate previousIsTie previousIsSlide
      nextIsTie nextIsSlide clock
    let accent := m.currentAccent
    let cv := if m.currentSlide then s.lastSample else m.currentCv
    pure { m with
      cvOutput := cv
      gateOutput := if gate && m.clockIgnoreOnReset == 0 then 10 else 0
      accentOutput := if accent then 10 else 0 }
  else
    pure { m with cvOutput := 0, gateOutput := 0 }

/-- The end of `process`: `resetLight = 0.0f;` and the countdown of `clockIgnoreOnReset`. -/
def countdown (m : ComposerModule) : ComposerModule :=
  let m := { m with resetLight := 0 }
  if m.clockIgnoreOnReset > 0 then { m with clockIgnoreOnReset := m.clockIgnoreOnReset - 1 }
  else m

/-- The state in which `process` reaches the step resolver: after the run button, the clock
and the reset. -/
def advance (m : ComposerModule) (s : Sample) : ComposerModule :=
  resetButton (clock (runButton m s) s) s

/-- Model of `AcidComposer::process`. The slide filter's parameters and the two lights are
left out. -/
def process (m : ComposerModule) (s : Sample) : Except Fault ComposerModule := do
  let m ← reparse m
  let m ← resolve (advance m s) s
  pure (countdown m)

/-- The element the resolver reads as the previous step with the cursor on step `i`: step
`i - 1`, and for `i = 0` the element `attributes[1][0]` that subscript 16 lands on. -/
def lookBehind (m : ComposerModule) (i : Fin 16) : StepAttributes :=
  if i.val = 0 then m.attributes_1_0 else m.composer.attributes (i - 1)

/-- The `bool gate` of `process` with the cursor on step `i`, for a clock level. -/
def gateAt (m : ComposerModule) (i : Fin 16) (clock : Bool) : Bool :=
  resolveGate (m.composer.attributes i).getGate (m.composer.attributes i).getTie
    (m.composer.attributes i).getSlide (lookBehind m i).getGate (lookBehind m i).getTie
    (lookBehind m i).getSlide (m.composer.attributes (i + 1)).getTie
    (m.composer.attributes (i + 1)).getSlide clock

/-- The state after the three latch statements with the cursor on step `i`. -/
def latched (m : ComposerModule) (i : Fin 16) : ComposerModule :=
  if (m.composer.attributes i).getGate = true then
    { m with
      currentCv := m.composer.notes i + m.composer.octaves i + m.composer.transposes
      currentAccent := (m.composer.attributes i).getAccent
      currentSlide := (m.composer.attributes i).getSlide }
  else m

/-- The clock level the resolver sees: `inputs[CLOCK_INPUT].getVoltage() > 0.1`. -/
def clockHigh (s : Sample) : Bool := decide (s.clockVoltage > 1 / 10)

end ComposerModule

/-- A rest, in the words of the gate rules: none of Gate, Tie and Slide is set. -/
def IsRest (x : StepAttributes) : Prop :=
  x.getGate = false ∧ x.getTie = false ∧ x.getSlide = false

/-- A Tie step as `setTie(true)` leaves it: Tie set, Gate, Accent and Slide clear. -/
def IsTieStep (x : StepAttributes) : Prop :=
  x.getTie = true ∧ x.getGate = false ∧ x.getAccent = false ∧ x.getSlide = false

instance (x : StepAttributes) : Decidable (IsRest x) := by
  unfold IsRest
  infer_instance

instance (x : StepAttributes) : Decidable (IsTieStep x) := by
  unfold IsTieStep
  infer_instance

/-! ## Example states of the module -/

/-- A pattern whose first steps carry the given attribute words (0 on the other steps), with
note `i/12` on step `i`, octave 1, transpose `1/12` and a clean score. -/
def patternOf (attributes : List Nat) : AcidComposer :=
  { sequence := { score "A 16 +0" "" "" "" "" with dirty := false }
    notes := fun i => (i.val : ℚ) / 12
    octaves := fun _ => 1
    transposes := 1 / 12
    letters := 'A'
    lengths := 16
    attributes := fun i => ⟨attributes.getD i.val 0⟩ }

/-- A running module on the pattern `c` with its cursor on `step`, outside the ignore window,
holding the latched values of some earlier step. -/
def playing (c : AcidComposer) (step : Int) : ComposerModule :=
  { composer := c
    attributes_1_0 := ⟨0x1D⟩
    currentCv := 1 / 4
    currentAccent := true
    currentSlide := false
    running := true
    stepIndexRun := step
    clockIgnoreOnReset := 0
    resetLight := 0
    resetOnRun := true
    cvOutput := 1 / 4
    gateOutput := 0
    accentOutput := 10 }

/-- A sample without a run-button or reset trigger. -/
def tick (clockTrigger : Bool) (clockVoltage : ℚ) : Sample :=
  { runningTrigger := false
    clockTrigger := clockTrigger
    resetTrigger := false
    clockVoltage := clockVoltage
    sampleRate := 44100
    lastSample := 0 }

/-! ## `struct Envelope3Generator` (`AcidStation.cpp`) -/

/-- Model of `enum class Stage`. -/
inductive Stage where
  | IDLE
  | ATTACK
  | DECAY
  | RELEASE
  deriving DecidableEq, Repr

/-- Model of `struct Envelope3Generator`, with the initial values of its members. -/
structure Envelope3Generator where
  attack_time : ℚ := 1 / 2
  decay_time : ℚ := 1
  value : ℚ := 0
  stage : Stage := Stage.IDLE
  target : ℚ := 0
  attack_triggered : Bool := false
  decay_triggered : Bool := false

namespace Envelope3Generator

/-- Model of `OVERSHOOT = 1.15f`. -/
def OVERSHOOT : ℚ := 115 / 100

/-- Model of `COEFF = 2.03688192726f`. -/
def COEFF : ℚ := 203688192726 / 100000000000

/-- Model of `IDLE_EPS = 0.0f`. -/
def IDLE_EPS : ℚ := 0

/-- Model of `Envelope3Generator::reset`. -/
def reset (e : Envelope3Generator) : Envelope3Generator :=
  { e with
    stage := Stage.IDLE
    target := 0
    attack_triggered := false
    decay_triggered := false
    value := 0 }

/-- Model of `Envelope3Generator::trigger`. -/
def trigger (e : Envelope3Generator) : Envelope3Generator :=
  if e.stage = Stage.ATTACK then e
  else { e with target := OVERSHOOT, stage := Stage.ATTACK, attack_triggered := true }

/-- Model of `Envelope3Generator::release`. -/
def release (e : Envelope3Generator) : Envelope3Generator :=
  { e with stage := Stage.RELEASE }

/-- Model of `Envelope3Generator::process` in exact arithmetic: the envelope after the call
(the value returned is 0 in `IDLE` and the new `value` otherwise). The quotient is the
program's for a time constant other than zero; at zero the program gets an infinity or a NaN
(the sign of the zero decides), which is no value of the model, and the properties of
`process` are stated away from it. -/
def process (e : Envelope3Generator) (delta_time : ℚ) : Envelope3Generator :=
  if e.stage = Stage.IDLE then e
  else if e.stage = Stage.ATTACK then
    let e := { e with value := e.value + COEFF * delta_time * (e.target - e.value) / e.attack_time }
    if e.value > 1 then
      { e with value := 1, target := 1 - OVERSHOOT, stage := Stage.DECAY, decay_triggered := true }
    else e
  else if e.stage = Stage.DECAY ∨ e.stage = Stage.RELEASE then
    let e := { e with
      value := e.value + COEFF * delta_time * (e.target - e.value)
        / (if e.stage = Stage.DECAY then e.decay_time else 6 / 1000) }
    if e.value < IDLE_EPS then { e with value := 0, stage := Stage.IDLE }
    else e
  else e

/-- Model of `Envelope3Generator::isIdle`. -/
def isIdle (e : Envelope3Generator) : Bool := decide (e.stage = Stage.IDLE)

/-- The envelope after `n` calls of `process(delta_time)`. -/
def processN (delta_time : ℚ) : Nat → Envelope3Generator → Envelope3Generator
  | 0, e => e
  | n + 1, e => processN delta_time n (process e delta_time)

end Envelope3Generator

/-- The attack curve in closed form: the value after `n` calls of `process` in `ATTACK`
from value 0 when none of them crosses 1.0, where `k` is `COEFF * delta_time / attack_time`. -/
def attackCurve (k : ℚ) (n : Nat) : ℚ := Envelope3Generator.OVERSHOOT * (1 - (1 - k) ^ n)

/-! ## `struct AcidStation` (`AcidStation.cpp`): the envelopes and the accent latch -/

/-- The members of `struct AcidStation` that its envelopes and its accent latch use, with
their initial values (`drive` as `onReset` sets it). The filter bank, the level meter, the
lights and the audio path (slime and Rack library code) are left out. -/
structure AcidStation where
  eg1_decay : ℚ := 1000000
  eg2_decay : ℚ := 1000000
  eg2_memory : ℚ := 0
  eg2_memory_last : ℚ := 0
  eg2_memory_intensity : ℚ := 999 / 1000
  eg1 : Envelope3Generator := {}
  eg2 : Envelope3Generator := {}
  drive : ℚ := 95 / 10
  accent : Bool := false

/-- What one call of `AcidStation::process` takes from outside: whether `param_divider` fires,
the answers of the three `slime::cv::SchmittTrigger` detectors (`hold_filter`,
`trigger1_filter` on the gate input, `trigger2_filter` on the accent input) after they have
seen this sample, three knobs and the sample period. -/
structure StationSample where
  paramDivider : Bool
  holdRising : Bool
  holdFalling : Bool
  holdHigh : Bool
  gateRising : Bool
  gateFalling : Bool
  accentRising : Bool
  accentHigh : Bool
  VCA_DECAY_PARAM : ℚ
  VCF_DECAY_PARAM : ℚ
  DRIVE_PARAM : ℚ
  sampleTime : ℚ

namespace AcidStation

/-- The three `if`s on `hold_filter` in the parameter block of `process`: the decay of
envelope 1. `pow10 x` stands for `std::pow(10.0f, x)`. -/
def updateHold (pow10 : ℚ → ℚ) (m : AcidStation) (s : StationSample) : AcidStation :=
  let m := if s.holdRising then
      let m := { m with eg1_decay := 1 }
      { m with eg1 := { m.eg1 with decay_time := pow10 m.eg1_decay } }
    else m
  let m := if s.holdFalling then
      let m := { m with eg1_decay := s.VCA_DECAY_PARAM }
      { m with eg1 := { m.eg1 with decay_time := pow10 m.eg1_decay } }
    else m
  if !s.holdHigh then
    if m.eg1_decay ≠ s.VCA_DECAY_PARAM then
      let m := { m with eg1_decay := s.VCA_DECAY_PARAM }
      { m with eg1 := { m.eg1 with decay_time := pow10 m.eg1_decay } }
    else m
  else m

/-- The block `if (param_divider.process()) { ... }` of `process`, without the resonance of
the filters: the hold switch, the decay of envelope 2 and the drive. -/
def updateParams (pow10 : ℚ → ℚ) (m : AcidStation) (s : StationSample) : AcidStation :=
  let m := updateHold pow10 m s
  let m := if m.eg2_decay ≠ s.VCF_DECAY_PARAM ∧ m.accent = false then
      let m := { m with eg2_decay := s.VCF_DECAY_PARAM }
      { m with eg2 := { m.eg2 with decay_time := pow10 m.eg2_decay } }
    else m
  { m with drive := 95 / 10 - 9 * s.DRIVE_PARAM }

/-- The block `if (trigger1_filter.isRising()) { ... }` of `process`. -/
def gateRise (pow10 : ℚ → ℚ) (m : AcidStation) (s : StationSample) : AcidStation :=
  let m := if s.accentRising && !m.accent then
      let m := { m with accent := true, eg2_decay := -7 / 10 }
      { m with eg2 := { m.eg2 with decay_time := pow10 m.eg2_decay } }
    else m
  let m := if !s.accentHigh && m.accent then
      let m := { m with accent := false, eg2 := m.eg2.release, eg2_decay := s.VCF_DECAY_PARAM }
      { m with eg2 := { m.eg2 with decay_time := pow10 m.eg2_decay } }
    else m
  { m with eg1 := m.eg1.trigger, eg2 := m.eg2.trigger }

/-- The block `if (trigger1_filter.isFalling()) { ... }` of `process`. -/
def gateFall (m : AcidStation) (s : StationSample) : AcidStation :=
  let m := if !s.holdHigh then { m with eg1 := m.eg1.release } else m
  if !m.accent && !s.holdHigh then { m with eg2 := m.eg2.release } else m

/-- The three blocks of `process` that come before the envelopes are advanced: the
parameter update, the gate rising edge and the gate falling edge. -/
def edges (pow10 : ℚ → ℚ) (m : AcidStation) (s : StationSample) : AcidStation :=
  let m := if s.paramDivider then updateParams pow10 m s else m
  let m := if s.gateRising then gateRise pow10 m s else m
  if s.gateFalling then gateFall m s else m

/-- Model of `AcidStation::process` up to `eg2_memory_last = eg2_memory;`. -/
def process (pow10 : ℚ → ℚ) (m : AcidStation) (s : StationSample) : AcidStation :=
  let m := edges pow10 m s
  let m := { m with eg1 := m.eg1.process s.sampleTime, eg2 := m.eg2.process s.sampleTime }
  let m := { m with
    eg2_memory := (m.eg2.value * (if m.accent then 1 else 0)) * (1 - m.eg2_memory_intensity)
      + m.eg2_memory_last * m.eg2_memory_intensity }
  { m with eg2_memory_last := m.eg2_memory }

/-- The module after the samples of a list, one call of `process` each. -/
def processAll (pow10 : ℚ → ℚ) (m : AcidStation) : List StationSample → AcidStation
  | [] => m
  | s :: ss => processAll pow10 (process pow10 m s) ss

end AcidStation

/-- A sample on which the gate rises while the accent input is not high: the edge that
clears the accent. -/
def ClearsAccent (s : StationSample) : Prop := s.gateRising = true ∧ s.accentHigh = false

instance (s : StationSample) : Decidable (ClearsAccent s) := by
  unfold ClearsAccent
  infer_instance

/-! ## The header grammar of the spec -/

/-- The optional group `([+-][0-9]{1,2})?` of the spec's grammar at the head of a text: a
sign and one or two digits when they are there (two when both follow), else nothing. -/
def grammarTranspose : List Char → List Char
  | s :: d1 :: d2 :: _ =>
    if isSign s && isDigit09 d1 then (if isDigit09 d2 then [s, d1, d2] else [s, d1]) else []
  | [s, d1] => if isSign s && isDigit09 d1 then [s, d1] else []
  | _ => []

/-- The text at which the third group of either expression starts: what follows the
letter, the white space, the digits and the optional white space. -/
def transposeInput (str : List Char) : List Char :=
  ((str.tail.dropWhile isSpaceClass).dropWhile isDigit09).dropWhile isSpaceClass

/-- The header grammar as the spec words it, `^([A-Z])\s+([0-9]+)\s*([+-][0-9]{1,2})?`,
matched from the first character with the usual greedy reading: one uppercase letter, the
whole run of white space (at least one), the whole run of digits (at least one), any white
space, and then the signed number once if it is there. The three captures are the letter,
the digits and the signed number (empty when absent). -/
def grammar_search (str : List Char) : Option cmatch :=
  match str with
  | [] => none
  | l :: rest =>
    let (ws, rest) := rest.span isSpaceClass
    let (ds, rest) := rest.span isDigit09
    let (_, rest) := rest.span isSpaceClass
    if isUpperAZ l && !ws.isEmpty && !ds.isEmpty then some ⟨[l], ds, grammarTranspose rest⟩
    else none

/-! ## The worked scenario of the step resolver -/

/-- The score of the worked scenario with its five strings exactly as the scenario writes
them, four characters in each track. -/
def scenarioAsWritten : ComposerSequence :=
  rawScore "A 4 +0" "C   " "    " "    " "o-o-"

/-- The score of the worked scenario with every track padded with blanks to the fixed
width of 64 characters. -/
def scenarioPadded : ComposerSequence :=
  score "A 4 +0" "C   " "    " "    " "o-o-"

namespace ComposerModule

/-- The module after the samples of a list, one call of `process` each. -/
def processAll : ComposerModule → List Sample → Except Fault ComposerModule
  | m, [] => .ok m
  | m, s :: ss =>
    match process m s with
    | .ok m1 => processAll m1 ss
    | .error e => .error e

end ComposerModule

/-- The pattern the padded scenario parses into: every note and octave 0, transpose 0, Gate
alone on steps 0 and 2, the other steps empty. -/
def ScenarioPattern (c : AcidComposer) : Prop :=
  (∀ i, c.notes i = 0) ∧ (∀ i, c.octaves i = 0) ∧ c.transposes = 0 ∧
    ∀ i : Fin 16, c.attributes i = ⟨if i.val = 0 ∨ i.val = 2 then 1 else 0⟩

/-- A module holding the parsed scenario which, when it runs, has its cursor on a step and
holds the latched values of the scenario's gated steps. -/
def PlaysScenario (m : ComposerModule) : Prop :=
  m.composer.sequence.dirty = false ∧ ScenarioPattern m.composer ∧
    (m.running = true → 0 ≤ m.stepIndexRun ∧ m.stepIndexRun ≤ 15 ∧ m.currentCv = 0 ∧
      m.currentAccent = false ∧ m.currentSlide = false)

/-- What the scenario expects of the outputs after a sample that left the module running,
`window` being the value of `clockIgnoreOnReset` the outputs were computed with: CV 0,
Accent 0, and outside the ignore window the Gate at 10 V exactly on steps 0 and 2 with the
clock above 0.1 V, else at 0. -/
def ScenarioOutputs (window : Int) (s : Sample) (m : ComposerModule) : Prop :=
  m.running = true →
    m.cvOutput = 0 ∧ m.accentOutput = 0 ∧ (m.gateOutput = 10 ∨ m.gateOutput = 0) ∧
    (window = 0 →
      (m.gateOutput = 10 ↔
        (m.stepIndexRun = 0 ∨ m.stepIndexRun = 2) ∧ s.clockVoltage > 1 / 10))

/-! ## Example samples of the voice module -/

/-- A stand-in for `std::pow(10.0f, x)` in the examples: 1/5 at -0.7 (`10^-0.7` is about
0.2) and 1 elsewhere. -/
def pow10Table (x : ℚ) : ℚ := if x = -7 / 10 then 1 / 5 else 1

/-- A sample of the voice module on which the parameter divider fires, the hold switch is
off and the gate does not fall; the gate and accent detectors and the VCF-decay knob are
as given. -/
def gateSample (gateRising accentRising accentHigh : Bool) (knob : ℚ) : StationSample :=
  { paramDivider := true
    holdRising := false
    holdFalling := false
    holdHigh := false
    gateRising := gateRising
    gateFalling := false
    accentRising := accentRising
    accentHigh := accentHigh
    VCA_DECAY_PARAM := 0
    VCF_DECAY_PARAM := knob
    DRIVE_PARAM := 0
    sampleTime := 1 / 48000 }

/-! ## Sequences of calls on an envelope -/

namespace Envelope3Generator

end Envelope3Generator

/-- The three shapes of the attributes of a parsed step, in the words of the claim: empty (a
rest), Tie only, or Gate with a choice of Accent and of Slide. -/
inductive StepShape
  | empty
  | tieOnly
  | gate (accent slide : Bool)
  deriving DecidableEq, Repr

/-- The attribute word of a shape. -/
def StepShape.word : StepShape → Nat
  | .empty => 0
  | .tieOnly => StepAttributes.ATT_ST_TIED
  | .gate accent slide =>
      StepAttributes.ATT_ST_GATE ||| (if accent then StepAttributes.ATT_ST_ACCENT else 0)
        ||| (if slide then StepAttributes.ATT_ST_SLIDE else 0)

/-- The attributes have exactly one of the three shapes. -/
def HasOneShape (x : StepAttributes) : Prop := ∃! s : StepShape, x.getAttribute = s.word

/-- No Tie together with Gate, Accent or Slide, and no Accent or Slide without Gate. -/
def FlagsConsistent (x : StepAttributes) : Prop :=
  (x.getTie = true → x.getGate = false ∧ x.getAccent = false ∧ x.getSlide = false) ∧
    (x.getAccent = true ∨ x.getSlide = true → x.getGate = true)

instance (x : StepAttributes) : Decidable (FlagsConsistent x) := by
  unfold FlagsConsistent
  infer_instance

/-! ## Binary floating-point rounding (IEEE 754) -/

/-- The integer nearest to `y`, the even one of the two when `y` lies halfway between them:
the rounding of IEEE 754 arithmetic (round to nearest, ties to even). -/
def roundHalfEven (y : ℚ) : Int :=
  if y - ⌊y⌋ < 1 / 2 then ⌊y⌋
  else if 1 / 2 < y - ⌊y⌋ then ⌊y⌋ + 1
  else if ⌊y⌋ % 2 = 0 then ⌊y⌋ else ⌊y⌋ + 1

/-- The exponent of the binade of `x` in a binary format whose least normal exponent is
`emin`: `⌊log2 |x|⌋`, and `emin` throughout the subnormal range. -/
def binadeOf (emin : Int) (x : ℚ) : Int := max (Int.log 2 |x|) emin

/-- The spacing of the numbers of the format with `p` significant bits around `x`. -/
def spacingOf (p : Nat) (emin : Int) (x : ℚ) : ℚ := (2 : ℚ) ^ (binadeOf emin x - ((p : Int) - 1))

/-- Model of the rounding of an exact result `x` to the binary format with `p` significant
bits and least normal exponent `emin`: the multiple of the spacing nearest to `x`, ties to
even. Results at or beyond the overflow threshold, which the program turns into an infinity,
are not represented. -/
def roundTo (p : Nat) (emin : Int) (x : ℚ) : ℚ :=
  (roundHalfEven (x / spacingOf p emin x) : ℚ) * spacingOf p emin x

/-- Rounding to `float` (binary32: 24 significant bits, least normal exponent -126). -/
def binary32 (x : ℚ) : ℚ := roundTo 24 (-126) x

/-- Rounding to `double` (binary64: 53 significant bits, least normal exponent -1022). -/
def binary64 (x : ℚ) : ℚ := roundTo 53 (-1022) x

/-! ## `struct Envelope3Generator` in binary32 arithmetic -/

namespace Envelope3Generator

/-- Model of `Envelope3Generator::trigger` with the constant `OVERSHOOT = 1.15f` as the
`float` it is. -/
def trigger32 (e : Envelope3Generator) : Envelope3Generator :=
  if e.stage = Stage.ATTACK then e
  else { e with target := binary32 OVERSHOOT, stage := Stage.ATTACK, attack_triggered := true }

/-- Model of `Envelope3Generator::process` with every operation rounded as the program rounds
it: `COEFF * delta_time * (target - value) / attack_time` is evaluated from the left in
`float`, and `value +=` adds in `float`; in `DECAY` and `RELEASE` the divisor
`(stage == Stage::DECAY ? decay_time : 6e-3)` is a `double`, so the quotient and the sum are
formed in `double` and the sum is converted to `float`. The fields and `delta_time` are taken
to hold `float` values. -/
def process32 (e : Envelope3Generator) (delta_time : ℚ) : Envelope3Generator :=
  if e.stage = Stage.IDLE then e
  else if e.stage = Stage.ATTACK then
    let e := { e with
      value := binary32 (e.value
        + binary32 (binary32 (binary32 (binary32 COEFF * delta_time)
            * binary32 (e.target - e.value)) / e.attack_time)) }
    if e.value > 1 then
      { e with
        value := 1
        target := binary32 (1 - binary32 OVERSHOOT)
        stage := Stage.DECAY
        decay_triggered := true }
    else e
  else if e.stage = Stage.DECAY ∨ e.stage = Stage.RELEASE then
    let e := { e with
      value := binary32 (binary64 (e.value
        + binary64 (binary32 (binary32 (binary32 COEFF * delta_time)
            * binary32 (e.target - e.value))
          / (if e.stage = Stage.DECAY then e.decay_time else binary64 (6 / 1000))))) }
    if e.value < IDLE_EPS then { e with value := 0, stage := Stage.IDLE }
    else e
  else e

/-- The envelope after `n` calls of `process(delta_time)` in binary32 arithmetic. -/
def processN32 (delta_time : ℚ) : Nat → Envelope3Generator → Envelope3Generator
  | 0, e => e
  | n + 1, e => processN32 delta_time n (process32 e delta_time)

end Envelope3Generator

/-! ## Flags of a `StepAttributes` value -/

namespace StepAttributes

theorem land_two_pow_bne_zero (a k : Nat) : ((a &&& 2 ^ k) != 0) = a.testBit k := by
  rw [Bool.eq_iff_iff]
  simp only [bne_iff_ne, ne_eq]
  constructor
  · intro h
    by_contra hb
    apply h
    apply Nat.eq_of_testBit_eq
    intro i
    simp only [Nat.testBit_and, Nat.zero_testBit, Nat.testBit_two_pow]
    by_cases hik : k = i
    · subst hik; simp [hb]
    · simp [hik]
  · intro hb h
    have := congrArg (fun x => x.testBit k) h
    simp [hb, Nat.testBit_two_pow] at this

theorem getGate_eq (s : StepAttributes) : s.getGate = s.attributes.testBit 0 := by
  simpa [getGate, ATT_ST_GATE] using land_two_pow_bne_zero s.attributes 0

theorem getAccent_eq (s : StepAttributes) : s.getAccent = s.attributes.testBit 2 := by
  simpa [getAccent, ATT_ST_ACCENT] using land_two_pow_bne_zero s.attributes 2

theorem getSlide_eq (s : StepAttributes) : s.getSlide = s.attributes.testBit 3 := by
  simpa [getSlide, ATT_ST_SLIDE] using land_two_pow_bne_zero s.attributes 3

theorem getTie_eq (s : StepAttributes) : s.getTie = s.attributes.testBit 4 := by
  simpa [getTie, ATT_ST_TIED] using land_two_pow_bne_zero s.attributes 4

theorem testBit_andNot (s : StepAttributes) (mask i : Nat) :
    (s.andNot mask).attributes.testBit i
      = (decide (i < 16) && (s.attributes.testBit i && (0xFFFFFFFF - mask).testBit i)) := by
  have : (65536 : Nat) = 2 ^ 16 := by norm_num
  simp only [andNot, bitNot, this, Nat.testBit_mod_two_pow, Nat.testBit_and]

theorem testBit_orWith (s : StepAttributes) (mask i : Nat) :
    (s.orWith mask).attributes.testBit i
      = (decide (i < 16) && (s.attributes.testBit i || mask.testBit i)) := by
  have : (65536 : Nat) = 2 ^ 16 := by norm_num
  simp only [orWith, this, Nat.testBit_mod_two_pow, Nat.testBit_or]

theorem setGate_flags (s : StepAttributes) (b : Bool) :
    (s.setGate b).getGate = b ∧ (s.setGate b).getAccent = s.getAccent ∧
      (s.setGate b).getSlide = s.getSlide ∧ (s.setGate b).getTie = s.getTie := by
  cases b <;>
  simp only [getGate_eq, getTie_eq, getSlide_eq, getAccent_eq, setGate, testBit_andNot,
    testBit_orWith, ATT_ST_TIED, ATT_ST_GATE, ATT_ST_ACCENT, ATT_ST_SLIDE, Bool.false_eq_true,
    if_false, if_true] <;>
  simp [Nat.testBit_to_div_mod]

theorem setAccent_flags (s : StepAttributes) (b : Bool) :
    (s.setAccent b).getGate = s.getGate ∧ (s.setAccent b).getAccent = b ∧
      (s.setAccent b).getSlide = s.getSlide ∧ (s.setAccent b).getTie = s.getTie := by
  cases b <;>
  simp only [getGate_eq, getTie_eq, getSlide_eq, getAccent_eq, setAccent, testBit_andNot,
    testBit_orWith, ATT_ST_TIED, ATT_ST_GATE, ATT_ST_ACCENT, ATT_ST_SLIDE, Bool.false_eq_true,
    if_false, if_true] <;>
  simp [Nat.testBit_to_div_mod]

theorem setSlide_flags (s : StepAttributes) (b : Bool) :
    (s.setSlide b).getGate = s.getGate ∧ (s.setSlide b).getAccent = s.getAccent ∧
      (s.setSlide b).getSlide = b ∧ (s.setSlide b).getTie = s.getTie := by
  cases b <;>
  simp only [getGate_eq, getTie_eq, getSlide_eq, getAccent_eq, setSlide, testBit_andNot,
    testBit_orWith, ATT_ST_TIED, ATT_ST_GATE, ATT_ST_ACCENT, ATT_ST_SLIDE, Bool.false_eq_true,
    if_false, if_true] <;>
  simp [Nat.testBit_to_div_mod]

theorem setTie_true_flags (s : StepAttributes) :
    (s.setTie true).getGate = false ∧ (s.setTie true).getAccent = false ∧
      (s.setTie true).getSlide = false ∧ (s.setTie true).getTie = true := by
  simp only [getGate_eq, getTie_eq, getSlide_eq, getAccent_eq, setTie, testBit_andNot,
    testBit_orWith, ATT_ST_TIED, ATT_ST_GATE, ATT_ST_ACCENT, ATT_ST_SLIDE, if_true]
  simp [Nat.testBit_to_div_mod]

theorem setTie_false_flags (s : StepAttributes) :
    (s.setTie false).getGate = s.getGate ∧ (s.setTie false).getAccent = s.getAccent ∧
      (s.setTie false).getSlide = s.getSlide ∧ (s.setTie false).getTie = false := by
  simp only [getGate_eq, getTie_eq, getSlide_eq, getAccent_eq, setTie, testBit_andNot,
    testBit_orWith, ATT_ST_TIED, ATT_ST_GATE, ATT_ST_ACCENT, ATT_ST_SLIDE, Bool.false_eq_true,
    if_false]
  simp [Nat.testBit_to_div_mod]

theorem clear_flags (s : StepAttributes) :
    s.clear.getGate = false ∧ s.clear.getAccent = false ∧
      s.clear.getSlide = false ∧ s.clear.getTie = false := by
  simp [clear, getGate, getAccent, getSlide, getTie]

end StepAttributes

open StepAttributes

/-! ## Single array accesses -/

theorem charAt_eq_ok {line : List Char} {idx : Nat} (h : idx < line.length) :
    charAt line idx = .ok (peek line idx) := by
  simp [charAt, peek, List.getElem?_eq_getElem h]

theorem charAt_eq_error {line : List Char} {idx : Nat} (h : line.length ≤ idx) :
    charAt line idx = .error (.at_out_of_range idx line.length) := by
  simp [charAt, List.getElem?_eq_none h]

theorem peek_eq_of_getElem? {line : List Char} {idx : Nat} {c : Char}
    (h : (line)[idx]? = some c) : peek line idx = c := by
  simp [peek, h]

theorem update_eq_applyAt {α : Type} (a : Fin 16 → α) {step : Nat} (h : step < 16) (f : α → α) :
    Function.update a ⟨step, h⟩ (f (a ⟨step, h⟩)) = applyAt a step f := by
  funext i
  by_cases hi : i = ⟨step, h⟩
  · subst hi; simp [applyAt]
  · have : i.val ≠ step := fun hv => hi (Fin.ext hv)
    simp [applyAt, Function.update, hi, this]

theorem store_eq_ok {α : Type} (a : Fin 16 → α) {step : Nat} (h : step < 16) (v : α) :
    store a step v = .ok (applyAt a step (fun _ => v)) := by
  rw [← update_eq_applyAt a h (fun _ => v)]
  simp [store, h]

theorem modify_eq_ok {α : Type} (a : Fin 16 → α) {step : Nat} (h : step < 16) (f : α → α) :
    modify a step f = .ok (applyAt a step f) := by
  rw [← update_eq_applyAt a h f]
  simp [modify, h]

theorem store_eq_error {α : Type} (a : Fin 16 → α) {step : Nat} (h : 16 ≤ step) (v : α) :
    store a step v = .error (.step_out_of_bounds step) := by
  simp [store, Nat.not_lt.mpr h]

theorem modify_eq_error {α : Type} (a : Fin 16 → α) {step : Nat} (h : 16 ≤ step) (f : α → α) :
    modify a step f = .error (.step_out_of_bounds step) := by
  simp [modify, Nat.not_lt.mpr h]

theorem applyAt_applyAt {α : Type} (a : Fin 16 → α) (step : Nat) (f g : α → α) :
    applyAt (applyAt a step f) step g = applyAt a step (fun x => g (f x)) := by
  funext i
  by_cases hi : i.val = step <;> simp [applyAt, hi]

theorem applyRange_zero {α : Type} (a : Fin 16 → α) (s : Nat) (g : Nat → α → α) :
    applyRange a s 0 g = a := by
  funext i
  have h : ¬ (s ≤ i.val ∧ i.val < s + 0) := by omega
  simp only [applyRange, h, if_false]

theorem applyRange_succ {α : Type} (a : Fin 16 → α) (s n : Nat) (g : Nat → α → α) :
    applyRange (applyAt a s (g s)) (s + 1) n g = applyRange a s (n + 1) g := by
  funext i
  by_cases h1 : i.val = s
  · have h2 : ¬ (s + 1 ≤ i.val ∧ i.val < s + 1 + n) := by omega
    have h3 : s ≤ i.val ∧ i.val < s + (n + 1) := by omega
    simp only [applyRange, applyAt, if_neg h2, if_pos h3, if_pos h1]
    rw [h1]
  · by_cases h2 : s + 1 ≤ i.val ∧ i.val < s + 1 + n
    · have h3 : s ≤ i.val ∧ i.val < s + (n + 1) := by omega
      simp only [applyRange, applyAt, h2, h3, if_false, if_true, h1, and_self]
    · have h3 : ¬ (s ≤ i.val ∧ i.val < s + (n + 1)) := by omega
      simp only [applyRange, applyAt, h2, h3, if_false, if_true, h1]

/-! ## The counted loop -/

theorem forSteps_iff {α : Type} (body : Nat → (Fin 16 → α) → Except Fault (Fin 16 → α))
    (C : Nat → Prop) (g : Nat → α → α)
    (hbody : ∀ step a a1, body step a = .ok a1 ↔ C step ∧ a1 = applyAt a step (g step)) :
    ∀ (n s : Nat) (a a1 : Fin 16 → α),
      forSteps body n s a = .ok a1 ↔
        (∀ k, s ≤ k → k < s + n → C k) ∧ a1 = applyRange a s n g := by
  intro n
  induction n with
  | zero =>
    intro s a a1
    simp only [forSteps, applyRange_zero, Except.ok.injEq]
    constructor
    · intro h
      exact ⟨fun k h1 h2 => absurd h2 (by omega), h.symm⟩
    · intro h
      exact h.2.symm
  | succ n ih =>
    intro s a a1
    simp only [forSteps]
    cases hb : body s a with
    | error e =>
      constructor
      · intro h
        cases h
      rintro ⟨hC, -⟩
      have := (hbody s a (applyAt a s (g s))).mpr ⟨hC s (le_refl _) (by omega), rfl⟩
      rw [hb] at this
      cases this
    | ok a2 =>
      obtain ⟨hCs, ha2⟩ := (hbody s a a2).mp hb
      simp only [ih, ha2, applyRange_succ]
      constructor
      · rintro ⟨h1, h2⟩
        refine ⟨fun k hk1 hk2 => ?_, h2⟩
        by_cases hks : k = s
        · subst hks; exact hCs
        · exact h1 k (by omega) (by omega)
      · rintro ⟨h1, h2⟩
        exact ⟨fun k hk1 hk2 => h1 k (by omega) (by omega), h2⟩

/-! ## The loop bodies of `parseSeq` -/

theorem applyAt_id {α : Type} (a : Fin 16 → α) (step : Nat) (f : α → α) (hf : ∀ x, f x = x) :
    applyAt a step f = a := by
  funext i
  by_cases hi : i.val = step <;> simp [applyAt, hi, hf]

theorem notesStep_iff (line : List Char) (step : Nat) (a a1 : Fin 16 → ℚ) :
    notesStep line step a = .ok a1 ↔
      notesOk line step ∧
        a1 = applyAt a step (fun _ => noteCell (peek line (step * 2)) (peek line (step * 2 + 1))) := by
  unfold notesStep notesOk
  by_cases h0 : step * 2 < line.length
  · rw [charAt_eq_ok h0]
    generalize peek line (step * 2) = c0
    by_cases hs : step < 16
    · by_cases hc : c0 = ' '
      · simp [bind, Except.bind, hc, store_eq_ok _ hs, hs, h0, noteCell, eq_comm]
      · by_cases h1 : step * 2 + 1 < line.length
        · rw [charAt_eq_ok h1]
          generalize peek line (step * 2 + 1) = c1
          by_cases hsharp : c1 = '#'
          · simp [bind, Except.bind, hc, store_eq_ok _ hs, modify_eq_ok _ hs, hs, h0, h1,
              noteCell, hsharp, eq_comm, pure, Except.pure, applyAt_applyAt]
          · by_cases hflat : c1 = 'b'
            · simp [bind, Except.bind, hc, store_eq_ok _ hs, modify_eq_ok _ hs, hs, h0, h1,
                noteCell, hflat, eq_comm, pure, Except.pure, applyAt_applyAt]
            · simp [bind, Except.bind, hc, store_eq_ok _ hs, modify_eq_ok _ hs, hs, h0, h1,
                noteCell, hsharp, hflat, eq_comm, pure, Except.pure]
        · rw [charAt_eq_error (Nat.le_of_not_lt h1)]
          simp [bind, Except.bind, hc, store_eq_ok _ hs, hs, h0, h1]
    · have hs1 : 16 ≤ step := Nat.le_of_not_lt hs
      by_cases hc : c0 = ' '
      · simp [bind, Except.bind, hc, store_eq_error _ hs1, hs]
      · simp [bind, Except.bind, hc, store_eq_error _ hs1, hs]
  · rw [charAt_eq_error (Nat.le_of_not_lt h0)]
    simp [bind, Except.bind, h0]

theorem octaveStep_iff (line : List Char) (step : Nat) (a a1 : Fin 16 → ℚ) :
    octaveStep line step a = .ok a1 ↔
      octaveOk line step ∧ a1 = applyAt a step (fun _ => octaveCell (peek line step)) := by
  unfold octaveStep octaveOk
  by_cases h0 : step < line.length
  · rw [charAt_eq_ok h0]
    generalize peek line step = c
    by_cases hs : step < 16
    · by_cases hu : c = 'U' ∨ c = 'u'
      · simp [bind, Except.bind, hu, store_eq_ok _ hs, hs, h0, octaveCell, eq_comm]
      · by_cases hd : c = 'D' ∨ c = 'd'
        · simp [bind, Except.bind, hu, hd, store_eq_ok _ hs, hs, h0, octaveCell, eq_comm]
        · simp [bind, Except.bind, hu, hd, store_eq_ok _ hs, hs, h0, octaveCell, eq_comm]
    · have hs1 : 16 ≤ step := Nat.le_of_not_lt hs
      by_cases hu : c = 'U' ∨ c = 'u'
      · simp [bind, Except.bind, hu, store_eq_error _ hs1, hs]
      · by_cases hd : c = 'D' ∨ c = 'd'
        · simp [bind, Except.bind, hu, hd, store_eq_error _ hs1, hs]
        · simp [bind, Except.bind, hu, hd, store_eq_error _ hs1, hs]
  · rw [charAt_eq_error (Nat.le_of_not_lt h0)]
    simp [bind, Except.bind, h0]

theorem slideAccentCell_eq (c0 c1 : Char) (x : StepAttributes) :
    slideAccentCell c0 c1 x =
      if c0 ≠ ' ' then
        if wantsSlide c0 c1 then
          if wantsAccent c0 c1 then (x.setSlide true).setAccent true else x.setSlide true
        else if wantsAccent c0 c1 then x.setAccent true else x
      else x := by
  unfold slideAccentCell wantsSlide wantsAccent
  by_cases hc : c0 = ' '
  · simp [hc]
  · by_cases hS : c1 = 'S' ∨ c1 = 's' ∨ c0 = 'S' ∨ c0 = 's' <;>
    by_cases hA : c1 = 'A' ∨ c1 = 'a' ∨ c0 = 'A' ∨ c0 = 'a' <;>
    simp only [hc, hS, hA, ne_eq, not_false_eq_true, if_true, if_false]

theorem slideAccentStep_iff (line : List Char) (step : Nat) (a a1 : Fin 16 → StepAttributes) :
    slideAccentStep line step a = .ok a1 ↔
      slideAccentOk line step ∧
        a1 = applyAt a step (slideAccentCell (peek line (step * 2)) (peek line (step * 2 + 1))) := by
  unfold slideAccentStep slideAccentOk
  by_cases h0 : step * 2 < line.length
  · rw [charAt_eq_ok h0]
    generalize peek line (step * 2) = c0
    by_cases hc : c0 = ' '
    · have hid : applyAt a step (slideAccentCell c0 (peek line (step * 2 + 1))) = a :=
        applyAt_id _ _ _ (fun x => by simp [slideAccentCell, hc])
      rw [hid]
      simp [bind, Except.bind, hc, h0, pure, Except.pure, eq_comm]
    · by_cases h1 : step * 2 + 1 < line.length
      · rw [charAt_eq_ok h1]
        generalize peek line (step * 2 + 1) = c1
        have e := slideAccentCell_eq c0 c1
        by_cases hS : c1 = 'S' ∨ c1 = 's' ∨ c0 = 'S' ∨ c0 = 's'
        · have hS1 : wantsSlide c0 c1 := hS
          by_cases hA : c1 = 'A' ∨ c1 = 'a' ∨ c0 = 'A' ∨ c0 = 'a'
          · have hA1 : wantsAccent c0 c1 := hA
            have e1 : slideAccentCell c0 c1 = fun x => (x.setSlide true).setAccent true := by
              funext x; simp [e, hc, hS1, hA1]
            by_cases hs : step < 16
            · simp [bind, Except.bind, hc, hS, hA, hS1, hA1, modify_eq_ok _ hs, applyAt_applyAt,
                e1, h0, h1, hs, eq_comm]
            · have hs1 : 16 ≤ step := Nat.le_of_not_lt hs
              simp [bind, Except.bind, hc, hS, hA, hS1, hA1, modify_eq_error _ hs1, h0, h1, hs]
          · have hA1 : ¬ wantsAccent c0 c1 := hA
            have e1 : slideAccentCell c0 c1 = fun x => x.setSlide true := by
              funext x; simp [e, hc, hS1, hA1]
            by_cases hs : step < 16
            · simp [bind, Except.bind, hc, hS, hA, hS1, hA1, modify_eq_ok _ hs, pure, Except.pure,
                e1, h0, h1, hs, eq_comm]
            · have hs1 : 16 ≤ step := Nat.le_of_not_lt hs
              simp [bind, Except.bind, hc, hS, hA, hS1, hA1, modify_eq_error _ hs1, h0, h1, hs]
        · have hS1 : ¬ wantsSlide c0 c1 := hS
          by_cases hA : c1 = 'A' ∨ c1 = 'a' ∨ c0 = 'A' ∨ c0 = 'a'
          · have hA1 : wantsAccent c0 c1 := hA
            have e1 : slideAccentCell c0 c1 = fun x => x.setAccent true := by
              funext x; simp [e, hc, hS1, hA1]
            by_cases hs : step < 16
            · simp [bind, Except.bind, hc, hS, hA, hS1, hA1, modify_eq_ok _ hs, pure, Except.pure,
                e1, h0, h1, hs, eq_comm]
            · have hs1 : 16 ≤ step := Nat.le_of_not_lt hs
              simp [bind, Except.bind, hc, hS, hA, hS1, hA1, modify_eq_error _ hs1, h0, h1, hs,
                pure, Except.pure]
          · have hA1 : ¬ wantsAccent c0 c1 := hA
            have e1 : applyAt a step (slideAccentCell c0 c1) = a :=
              applyAt_id _ _ _ (fun x => by simp [e, hc, hS1, hA1])
            rw [e1]
            simp [bind, Except.bind, hc, hS, hA, hS1, hA1, pure, Except.pure, h0, h1, eq_comm]
      · rw [charAt_eq_error (Nat.le_of_not_lt h1)]
        simp [bind, Except.bind, hc, h0, h1]
  · rw [charAt_eq_error (Nat.le_of_not_lt h0)]
    simp [bind, Except.bind, h0]

/-! ## The time loop -/

theorem timeCell_invalid {c : Char} (h : ¬ validTime c) (x : StepAttributes) :
    timeCell c x = x.clear := by
  unfold validTime at h
  unfold timeCell
  have h1 : ¬ (c = 'O' ∨ c = 'o') := by tauto
  have h2 : ¬ c = '_' := by tauto
  simp only [h1, h2, if_false]

theorem timeLoop_succ_ok (line : List Char) (n s : Nat) (a : Fin 16 → StepAttributes)
    (h : timeOk line s) :
    timeLoop line (n + 1) s a =
      if validTime (peek line s) then
        timeLoop line n (s + 1) (applyAt a s (timeCell (peek line s)))
      else .ok (some (-4), applyAt a s (timeCell (peek line s))) := by
  obtain ⟨h0, hs⟩ := h
  conv_lhs => rw [timeLoop]
  rw [charAt_eq_ok h0]
  generalize peek line s = c
  by_cases h1 : c = 'O' ∨ c = 'o'
  · have hv : validTime c := by unfold validTime; tauto
    have e : timeCell c = fun x => x.setGate true := by funext x; simp [timeCell, h1]
    simp only [h1, hv, modify_eq_ok _ hs, e, if_true]
  · by_cases h2 : c = '_'
    · have hv : validTime c := by unfold validTime; tauto
      have e : timeCell c = fun x => x.setTie true := by funext x; simp [timeCell, h1, h2]
      rw [e]
      simp only [h1, hv, if_true, if_false]
      simp only [h2, modify_eq_ok _ hs, if_true]
    · have e : timeCell c = fun x => x.clear := by funext x; simp [timeCell, h1, h2]
      by_cases h3 : c = ' ' ∨ c = '-'
      · have hv : validTime c := by unfold validTime; tauto
        simp only [h1, h2, h3, hv, modify_eq_ok _ hs, e, if_true, if_false]
      · have hv : ¬ validTime c := by unfold validTime; tauto
        simp only [h1, h2, h3, hv, modify_eq_ok _ hs, e, if_false]

theorem timeLoop_succ_error (line : List Char) (n s : Nat) (a : Fin 16 → StepAttributes)
    (h : ¬ timeOk line s) : ∃ e, timeLoop line (n + 1) s a = .error e := by
  rw [timeLoop]
  by_cases h0 : s < line.length
  · have hs : 16 ≤ s := by
      unfold timeOk at h
      omega
    rw [charAt_eq_ok h0]
    generalize peek line s = c
    refine ⟨Fault.step_out_of_bounds s, ?_⟩
    simp only [modify_eq_error _ hs]
    split_ifs <;> rfl
  · rw [charAt_eq_error (Nat.le_of_not_lt h0)]
    exact ⟨_, rfl⟩

theorem timeLoop_none_iff (line : List Char) :
    ∀ (n s : Nat) (a a1 : Fin 16 → StepAttributes),
      timeLoop line n s a = .ok (none, a1) ↔
        (∀ k, s ≤ k → k < s + n → timeOk line k ∧ validTime (peek line k)) ∧
          a1 = applyRange a s n (fun k => timeCell (peek line k)) := by
  intro n
  induction n with
  | zero =>
    intro s a a1
    simp only [timeLoop, applyRange_zero, Except.ok.injEq, Prod.mk.injEq, true_and]
    constructor
    · intro h
      exact ⟨fun k h1 h2 => absurd h2 (by omega), h.symm⟩
    · intro h
      exact h.2.symm
  | succ n ih =>
    intro s a a1
    by_cases hok : timeOk line s
    · rw [timeLoop_succ_ok line n s a hok]
      by_cases hv : validTime (peek line s)
      · simp only [hv, if_true, ih]
        rw [applyRange_succ a s n (fun k => timeCell (peek line k))]
        constructor
        · rintro ⟨h1, h2⟩
          refine ⟨fun k hk1 hk2 => ?_, h2⟩
          by_cases hks : k = s
          · subst hks; exact ⟨hok, hv⟩
          · exact h1 k (by omega) (by omega)
        · rintro ⟨h1, h2⟩
          exact ⟨fun k hk1 hk2 => h1 k (by omega) (by omega), h2⟩
      · simp only [hv, if_false]
        constructor
        · intro h
          cases h
        · rintro ⟨h1, -⟩
          exact absurd (h1 s (le_refl _) (by omega)).2 hv
    · obtain ⟨e, he⟩ := timeLoop_succ_error line n s a hok
      rw [he]
      constructor
      · intro h
        cases h
      · rintro ⟨h1, -⟩
        exact absurd (h1 s (le_refl _) (by omega)).1 hok

theorem timeLoop_some_iff (line : List Char) :
    ∀ (n s : Nat) (a a1 : Fin 16 → StepAttributes) (code : Int),
      timeLoop line n s a = .ok (some code, a1) ↔
        code = -4 ∧ ∃ k, s ≤ k ∧ k < s + n ∧
          (∀ j, s ≤ j → j < k → timeOk line j ∧ validTime (peek line j)) ∧
          timeOk line k ∧ ¬ validTime (peek line k) ∧
          a1 = applyRange a s (k + 1 - s) (fun k => timeCell (peek line k)) := by
  intro n
  induction n with
  | zero =>
    intro s a a1 code
    simp only [timeLoop, Except.ok.injEq, Prod.mk.injEq]
    constructor
    · rintro ⟨h, -⟩
      cases h
    · rintro ⟨-, k, h1, h2, -⟩
      omega
  | succ n ih =>
    intro s a a1 code
    by_cases hok : timeOk line s
    · rw [timeLoop_succ_ok line n s a hok]
      by_cases hv : validTime (peek line s)
      · simp only [hv, if_true, ih]
        constructor
        · rintro ⟨hc, k, h1, h2, h3, h4, h5, h6⟩
          refine ⟨hc, k, by omega, by omega, fun j hj1 hj2 => ?_, h4, h5, ?_⟩
          · by_cases hjs : j = s
            · subst hjs; exact ⟨hok, hv⟩
            · exact h3 j (by omega) hj2
          · have e : k + 1 - (s + 1) + 1 = k + 1 - s := by omega
            rw [h6, applyRange_succ a s (k + 1 - (s + 1)) (fun k => timeCell (peek line k)), e]
        · rintro ⟨hc, k, h1, h2, h3, h4, h5, h6⟩
          have hks : k ≠ s := by
            rintro rfl
            exact h5 hv
          refine ⟨hc, k, by omega, by omega, fun j hj1 hj2 => h3 j (by omega) hj2, h4, h5, ?_⟩
          have e : k + 1 - (s + 1) + 1 = k + 1 - s := by omega
          rw [h6, applyRange_succ a s (k + 1 - (s + 1)) (fun k => timeCell (peek line k)), e]
      · simp only [hv, if_false, Except.ok.injEq, Prod.mk.injEq, Option.some.injEq]
        constructor
        · rintro ⟨hc, ha⟩
          refine ⟨hc.symm, s, le_refl _, by omega, fun j hj1 hj2 => absurd hj2 (by omega), hok, hv, ?_⟩
          rw [← ha]
          have : s + 1 - s = 0 + 1 := by omega
          rw [this, ← applyRange_succ a s 0 (fun k => timeCell (peek line k)), applyRange_zero]
        · rintro ⟨hc, k, h1, h2, h3, h4, h5, h6⟩
          have hks : k = s := by
            by_contra hne
            exact hv (h3 s (le_refl _) (by omega)).2
          subst hks
          refine ⟨hc.symm, ?_⟩
          rw [h6]
          have : k + 1 - k = 0 + 1 := by omega
          rw [this, ← applyRange_succ a k 0 (fun k => timeCell (peek line k)), applyRange_zero]
    · obtain ⟨e, he⟩ := timeLoop_succ_error line n s a hok
      rw [he]
      constructor
      · intro h
        cases h
      · rintro ⟨-, k, h1, h2, h3, h4, -⟩
        by_cases hks : k = s
        · subst hks; exact absurd h4 hok
        · exact absurd (h3 s (le_refl _) (by omega)).1 hok

/-! ## `parseSeq`, stage by stage -/

theorem parseSeq_of_no_match (m : AcidComposer)
    (h : header_search (c_str m.sequence.headerStr) = none) :
    parseSeq m = .ok (-2, clearSeq m) := by
  unfold parseSeq
  simp only [clearSeq] at h ⊢
  rw [h]

theorem parseSeq_of_stages {m : AcidComposer} {cm : cmatch} {length transpose : Int}
    {ns os : Fin 16 → ℚ} {as : Fin 16 → StepAttributes}
    {r : Option Int × (Fin 16 → StepAttributes)}
    (h : Stages m cm length transpose ns os as r) :
    parseSeq m =
      match r.1 with
      | some code => .ok (code, afterLoops m ns os r.2)
      | none =>
        match charAt (cm.str1.take 1) 0 with
        | .ok l0 => .ok (0, afterHeader (afterLoops m ns os r.2) l0 length transpose)
        | .error e => .error e := by
  obtain ⟨h1, h2, h3, h4, h5, h6, h7⟩ := h
  unfold parseSeq
  simp only [clearSeq, StepAttributes.clear] at h1 h4 h5 h6 h7 ⊢
  simp only [h1, h2, h3, h4, h5, h6, h7, bind, Except.bind, pure, Except.pure]
  cases hr : r.1 with
  | some code => rfl
  | none =>
    simp only []
    cases charAt (List.take 1 cm.str1) 0 <;> rfl

theorem stages_of_parseSeq {m m1 : AcidComposer} {code : Int}
    (h : parseSeq m = .ok (code, m1))
    (hm : header_search (c_str m.sequence.headerStr) ≠ none) :
    ∃ cm length transpose ns os as r, Stages m cm length transpose ns os as r := by
  cases h1 : header_search (c_str m.sequence.headerStr) with
  | none => exact absurd h1 hm
  | some cm =>
    unfold parseSeq at h
    simp only [clearSeq, StepAttributes.clear] at h h1
    simp only [h1, bind, Except.bind, pure, Except.pure] at h
    cases h2 : stoi cm.str2 with
    | error e => simp [h2] at h
    | ok length =>
      simp only [h2] at h
      cases h3 : transposeOf cm with
      | error e => simp [h3] at h
      | ok transpose =>
        simp only [h3] at h
        cases h4 : forSteps (notesStep m.sequence.notesStr)
            (loopCount length m.sequence.notesStr) 0 (fun _ => 0) with
        | error e => simp [h4] at h
        | ok ns =>
          simp only [h4] at h
          cases h5 : forSteps (octaveStep m.sequence.octaveStr)
              (loopCount length m.sequence.octaveStr) 0 (fun _ => 0) with
          | error e => simp [h5] at h
          | ok os =>
            simp only [h5] at h
            cases h6 : forSteps (slideAccentStep m.sequence.slideAccentStr)
                (loopCount length m.sequence.slideAccentStr) 0 (fun _ => ⟨0⟩) with
            | error e => simp [h6] at h
            | ok as =>
              simp only [h6] at h
              cases h7 : timeLoop m.sequence.timeStr (loopCount length m.sequence.timeStr) 0 as with
              | error e => simp [h7] at h
              | ok r =>
                exact ⟨cm, length, transpose, ns, os, as, r,
                  ⟨by simpa [clearSeq] using h1, h2, h3, h4, h5, h6, h7⟩⟩

/-! ## The header: `header_search` and `std::stoi` -/

theorem isSign_iff (c : Char) : isSign c = true ↔ c = '+' ∨ c = '-' := by
  simp [isSign]

theorem not_space_of_digit {c : Char} (h : isDigit09 c = true) : ¬ isSpaceClass c = true := by
  simp only [isDigit09, isSpaceClass, decide_eq_true_eq] at h ⊢
  have h0 : '0'.toNat = 48 := by decide
  have h9 : '9'.toNat = 57 := by decide
  omega

theorem not_digit_of_space {c : Char} (h : isSpaceClass c = true) : ¬ isDigit09 c = true :=
  fun hd => not_space_of_digit hd h

theorem not_space_of_sign {c : Char} (h : isSign c = true) : ¬ isSpaceClass c = true := by
  rcases (isSign_iff c).mp h with rfl | rfl <;> decide

theorem not_digit_of_sign {c : Char} (h : isSign c = true) : ¬ isDigit09 c = true := by
  rcases (isSign_iff c).mp h with rfl | rfl <;> decide

theorem digit_toNat {c : Char} (h : isDigit09 c = true) : 48 ≤ c.toNat ∧ c.toNat ≤ 57 := by
  simp only [isDigit09, decide_eq_true_eq] at h
  have h0 : '0'.toNat = 48 := by decide
  have h9 : '9'.toNat = 57 := by decide
  omega

theorem transposeGroup_shape :
    ∀ (fuel : Nat) (l last : List Char), IsTranspose last → IsTranspose (transposeGroup fuel l last) := by
  intro fuel
  induction fuel with
  | zero =>
    intro l last h
    simpa [transposeGroup] using h
  | succ n ih =>
    intro l last h
    cases l with
    | nil => simpa [transposeGroup] using h
    | cons s l1 =>
      cases l1 with
      | nil => simpa [transposeGroup] using h
      | cons d1 tl =>
        by_cases hs : isSign s = true
        · by_cases hd : isDigit09 d1 = true
          · cases tl with
            | nil =>
              simp only [transposeGroup, hs, hd, Bool.and_self, if_true]
              exact Or.inr ⟨s, d1, hs, hd, Or.inl rfl⟩
            | cons d2 tl2 =>
              by_cases hd2 : isDigit09 d2 = true
              · simp only [transposeGroup, hs, hd, hd2, Bool.and_self, if_true]
                exact ih _ _ (Or.inr ⟨s, d1, hs, hd, Or.inr ⟨d2, hd2, rfl⟩⟩)
              · simp only [transposeGroup, hs, hd, hd2, Bool.and_self, if_true, if_false]
                exact ih _ _ (Or.inr ⟨s, d1, hs, hd, Or.inl rfl⟩)
          · simp only [transposeGroup, hs, hd, Bool.and_false, Bool.false_eq_true, if_false]
            exact h
        · simp only [transposeGroup, hs, Bool.false_and, Bool.false_eq_true, if_false]
          exact h

theorem decimalValue_one (d : Char) : decimalValue [d] = d.toNat - 48 := by
  simp [decimalValue]

theorem decimalValue_two (d1 d2 : Char) :
    decimalValue [d1, d2] = 10 * (d1.toNat - 48) + (d2.toNat - 48) := by
  simp [decimalValue]

theorem stoi_transpose {tr : List Char} (h : IsTranspose tr) (hne : tr ≠ []) :
    stoi tr = .ok (signedValue tr) := by
  rcases h with rfl | ⟨s, d1, hs, hd, rfl | ⟨d2, hd2, rfl⟩⟩
  · exact absurd rfl hne
  · have b1 := digit_toNat hd
    have hv : decimalValue [d1] ≤ 9 := by rw [decimalValue_one]; omega
    rcases (isSign_iff s).mp hs with rfl | rfl
    · have e : stoi ['+', d1] = .ok (decimalValue [d1] : Int) := by
        simp only [stoi]
        simp [isSpaceClass, hd]
        omega
      simpa [signedValue] using e
    · have e : stoi ['-', d1] = .ok (-(decimalValue [d1] : Int)) := by
        simp only [stoi]
        simp [isSpaceClass, hd]
        omega
      simpa [signedValue] using e
  · have b1 := digit_toNat hd
    have b2 := digit_toNat hd2
    have hv : decimalValue [d1, d2] ≤ 99 := by rw [decimalValue_two]; omega
    rcases (isSign_iff s).mp hs with rfl | rfl
    · have e : stoi ['+', d1, d2] = .ok (decimalValue [d1, d2] : Int) := by
        simp only [stoi]
        simp [isSpaceClass, hd, hd2]
        omega
      simpa [signedValue] using e
    · have e : stoi ['-', d1, d2] = .ok (-(decimalValue [d1, d2] : Int)) := by
        simp only [stoi]
        simp [isSpaceClass, hd, hd2]
        omega
      simpa [signedValue] using e

theorem transposeOf_of_transpose {cm : cmatch} (h : IsTranspose cm.str3) :
    transposeOf cm = .ok (signedValue cm.str3) := by
  unfold transposeOf
  by_cases hne : cm.str3 = []
  · simp [hne, signedValue]
  · have : cm.str3.length ≠ 0 := by
      simpa [List.length_eq_zero] using hne
    simp only [this, ne_eq, not_false_eq_true, if_true]
    exact stoi_transpose h hne

theorem stoi_digits {ds : List Char} (hne : ds ≠ []) (hd : ∀ c ∈ ds, isDigit09 c = true)
    (hv : decimalValue ds ≤ 2147483647) : stoi ds = .ok (decimalValue ds : Int) := by
  obtain ⟨d, tl, rfl⟩ := List.exists_cons_of_ne_nil hne
  have hdd : isDigit09 d = true := hd d (List.mem_cons_self _ _)
  have hsp : ¬ isSpaceClass d = true := not_space_of_digit hdd
  have hm : d ≠ '-' := by
    rintro rfl
    exact absurd hdd (by decide)
  have hp : d ≠ '+' := by
    rintro rfl
    exact absurd hdd (by decide)
  have htl : List.takeWhile isDigit09 tl = tl :=
    List.takeWhile_eq_self_iff.mpr (fun c hc => hd c (List.mem_cons_of_mem _ hc))
  simp only [stoi]
  simp [hsp, hm, hp, hdd, htl]
  omega

theorem header_search_shape {str : List Char} {cm : cmatch} (h : header_search str = some cm) :
    (∃ l, cm.str1 = [l] ∧ str.head? = some l ∧ isUpperAZ l = true) ∧ IsTranspose cm.str3 := by
  cases str with
  | nil => simp [header_search] at h
  | cons l r1 =>
    simp only [header_search] at h
    split_ifs at h with hl hws hds
    simp only [Option.some.injEq] at h
    subst h
    exact ⟨⟨l, rfl, rfl, hl⟩, transposeGroup_shape _ _ _ (Or.inl rfl)⟩

theorem transposeGroup_of_not_sign :
    ∀ (fuel : Nat) (l last : List Char), (∀ c, l.head? = some c → isSign c = false) →
      transposeGroup fuel l last = last := by
  intro fuel l last h
  cases fuel with
  | zero => rfl
  | succ n =>
    cases l with
    | nil => rfl
    | cons s l1 =>
      cases l1 with
      | nil => rfl
      | cons d1 tl =>
        have hs : isSign s = false := h s rfl
        simp only [transposeGroup, hs, Bool.false_and, Bool.false_eq_true, if_false]

theorem transposeGroup_fuel :
    ∀ (fuel fuel1 : Nat) (l last : List Char), l.length ≤ fuel → l.length ≤ fuel1 →
      transposeGroup fuel l last = transposeGroup fuel1 l last := by
  intro fuel
  induction fuel with
  | zero =>
    intro fuel1 l last h _
    have hl : l = [] := List.length_eq_zero.mp (Nat.le_zero.mp h)
    subst hl
    cases fuel1 <;> rfl
  | succ n ih =>
    intro fuel1 l last h h1
    cases l with
    | nil => cases fuel1 <;> rfl
    | cons s l1 =>
      cases l1 with
      | nil =>
        cases fuel1 with
        | zero => simp at h1
        | succ n1 => rfl
      | cons d1 tl =>
        cases fuel1 with
        | zero => simp at h1
        | succ n1 =>
          simp only [List.length_cons] at h h1
          cases tl with
          | nil => simp only [transposeGroup]
          | cons d2 tl2 =>
            simp only [List.length_cons] at h h1
            simp only [transposeGroup]
            rw [ih n1 tl2 [s, d1, d2] (by omega) (by omega),
              ih n1 (d2 :: tl2) [s, d1] (by simp only [List.length_cons]; omega)
                (by simp only [List.length_cons]; omega)]

theorem transposeGroup_padded {tr pad : List Char} (h : IsTranspose tr)
    (hpad : ∀ c ∈ pad, isSpaceClass c = true) :
    transposeGroup (List.dropWhile isSpaceClass (tr ++ pad)).length
      (List.dropWhile isSpaceClass (tr ++ pad)) [] = tr := by
  have hns : ∀ c, pad.head? = some c → isSign c = false := by
    intro c hc
    have hmem : c ∈ pad := by
      cases pad with
      | nil => cases hc
      | cons p tl =>
        have : p = c := Option.some.inj hc
        subst this
        exact List.mem_cons_self _ _
    have hsp := hpad c hmem
    cases hsg : isSign c with
    | false => rfl
    | true => exact absurd hsp (not_space_of_sign hsg)
  rcases h with rfl | ⟨s, d1, hs, hd, rfl | ⟨d2, hd2, rfl⟩⟩
  · have : List.dropWhile isSpaceClass ([] ++ pad) = [] := by
      rw [List.nil_append]
      exact List.dropWhile_eq_nil_iff.mpr hpad
    rw [this]
    rfl
  · have e : List.dropWhile isSpaceClass ([s, d1] ++ pad) = s :: d1 :: pad :=
      List.dropWhile_cons_of_neg (not_space_of_sign hs)
    rw [e]
    cases pad with
    | nil => simp [transposeGroup, hs, hd]
    | cons p tl =>
      have hp : isDigit09 p = false := by
        cases hpd : isDigit09 p with
        | false => rfl
        | true => exact absurd (hpad p (List.mem_cons_self _ _)) (not_space_of_digit hpd)
      simp only [List.length_cons, transposeGroup, hs, hd, hp, Bool.and_self, if_true,
        Bool.false_eq_true, if_false]
      exact transposeGroup_of_not_sign _ _ _ hns
  · have e : List.dropWhile isSpaceClass ([s, d1, d2] ++ pad) = s :: d1 :: d2 :: pad :=
      List.dropWhile_cons_of_neg (not_space_of_sign hs)
    rw [e]
    simp only [List.length_cons, transposeGroup, hs, hd, hd2, Bool.and_self, if_true]
    exact transposeGroup_of_not_sign _ _ _ hns

theorem header_search_of_form (L : Char) (ws ds ws2 tr pad : List Char)
    (hL : isUpperAZ L = true) (hws : ws ≠ []) (hws1 : ∀ c ∈ ws, isSpaceClass c = true)
    (hds : ds ≠ []) (hds1 : ∀ c ∈ ds, isDigit09 c = true)
    (hws2 : ∀ c ∈ ws2, isSpaceClass c = true) (htr : IsTranspose tr)
    (hpad : ∀ c ∈ pad, isSpaceClass c = true) :
    header_search (L :: (ws ++ (ds ++ (ws2 ++ (tr ++ pad))))) = some ⟨[L], ds, tr⟩ := by
  have hnd : ∀ c, (ws2 ++ (tr ++ pad)).head? = some c → ¬ isDigit09 c = true := by
    intro c hc
    cases ws2 with
    | cons w _ =>
      have : w = c := Option.some.inj hc
      subst this
      exact not_digit_of_space (hws2 w (List.mem_cons_self _ _))
    | nil =>
      rw [List.nil_append] at hc
      rcases htr with rfl | ⟨s, d1, hs, hd, rfl | ⟨d2, hd2, rfl⟩⟩
      · rw [List.nil_append] at hc
        cases pad with
        | nil => cases hc
        | cons p _ =>
          have : p = c := Option.some.inj hc
          subst this
          exact not_digit_of_space (hpad p (List.mem_cons_self _ _))
      · have : s = c := Option.some.inj hc
        subst this
        exact not_digit_of_sign hs
      · have : s = c := Option.some.inj hc
        subst this
        exact not_digit_of_sign hs
  have h_t2 : List.takeWhile isDigit09 (ws2 ++ (tr ++ pad)) = [] := by
    cases hx : ws2 ++ (tr ++ pad) with
    | nil => rfl
    | cons x _ =>
      exact List.takeWhile_cons_of_neg (hnd x (by rw [hx]; rfl))
  have h_d2 : List.dropWhile isDigit09 (ws2 ++ (tr ++ pad)) = ws2 ++ (tr ++ pad) := by
    cases hx : ws2 ++ (tr ++ pad) with
    | nil => rfl
    | cons x _ =>
      exact List.dropWhile_cons_of_neg (hnd x (by rw [hx]; rfl))
  obtain ⟨d, dtl, rfl⟩ := List.exists_cons_of_ne_nil hds
  have hd_sp : ¬ isSpaceClass d = true := not_space_of_digit (hds1 d (List.mem_cons_self _ _))
  have h1 : List.takeWhile isSpaceClass (ws ++ (d :: dtl ++ (ws2 ++ (tr ++ pad)))) = ws := by
    rw [List.takeWhile_append_of_pos hws1]
    simp [List.takeWhile_cons_of_neg hd_sp]
  have h2 : List.dropWhile isSpaceClass (ws ++ (d :: dtl ++ (ws2 ++ (tr ++ pad))))
      = d :: dtl ++ (ws2 ++ (tr ++ pad)) := by
    rw [List.dropWhile_append_of_pos hws1]
    exact List.dropWhile_cons_of_neg hd_sp
  have h3 : List.takeWhile isDigit09 (d :: dtl ++ (ws2 ++ (tr ++ pad))) = d :: dtl := by
    rw [List.takeWhile_append_of_pos hds1, h_t2, List.append_nil]
  have h4 : List.dropWhile isDigit09 (d :: dtl ++ (ws2 ++ (tr ++ pad))) = ws2 ++ (tr ++ pad) := by
    rw [List.dropWhile_append_of_pos hds1, h_d2]
  have h5 : List.dropWhile isSpaceClass (ws2 ++ (tr ++ pad))
      = List.dropWhile isSpaceClass (tr ++ pad) := by
    rw [List.dropWhile_append_of_pos hws2]
  have hws_e : ws.isEmpty = false := by
    cases ws with
    | nil => exact absurd rfl hws
    | cons _ _ => rfl
  simp only [header_search, hL, if_true, h1, h2, h3, h4, h5, hws_e, List.isEmpty_cons,
    Bool.false_eq_true, if_false, transposeGroup_padded htr hpad]

/-- The third group stands under `*`: of several signed numbers in a row the last one is
captured. -/
theorem header_search_repeated_transpose :
    header_search ['A', ' ', '1', '6', ' ', '+', '1', '-', '2']
      = some ⟨['A'], ['1', '6'], ['-', '2']⟩ := by
  decide

theorem c_str_of_no_nul {s : List Char} (h : ∀ c ∈ s, c.toNat ≠ 0) : c_str s = s := by
  unfold c_str
  exact List.takeWhile_eq_self_iff.mpr (fun c hc => by simpa using h c hc)

/-! ## The loops of `parseSeq` from step 0 -/

theorem notesLoop_iff (line : List Char) (n : Nat) (a a1 : Fin 16 → ℚ) :
    forSteps (notesStep line) n 0 a = .ok a1 ↔
      (∀ k, k < n → notesOk line k) ∧
        a1 = applyRange a 0 n (fun k _ => noteCell (peek line (k * 2)) (peek line (k * 2 + 1))) := by
  rw [forSteps_iff (notesStep line) (notesOk line)
    (fun k _ => noteCell (peek line (k * 2)) (peek line (k * 2 + 1)))
    (fun step a a1 => notesStep_iff line step a a1) n 0 a a1]
  simp only [Nat.zero_le, true_implies, Nat.zero_add]

theorem octaveLoop_iff (line : List Char) (n : Nat) (a a1 : Fin 16 → ℚ) :
    forSteps (octaveStep line) n 0 a = .ok a1 ↔
      (∀ k, k < n → octaveOk line k) ∧
        a1 = applyRange a 0 n (fun k _ => octaveCell (peek line k)) := by
  rw [forSteps_iff (octaveStep line) (octaveOk line) (fun k _ => octaveCell (peek line k))
    (fun step a a1 => octaveStep_iff line step a a1) n 0 a a1]
  simp only [Nat.zero_le, true_implies, Nat.zero_add]

theorem slideAccentLoop_iff (line : List Char) (n : Nat) (a a1 : Fin 16 → StepAttributes) :
    forSteps (slideAccentStep line) n 0 a = .ok a1 ↔
      (∀ k, k < n → slideAccentOk line k) ∧
        a1 = applyRange a 0 n
          (fun k => slideAccentCell (peek line (k * 2)) (peek line (k * 2 + 1))) := by
  rw [forSteps_iff (slideAccentStep line) (slideAccentOk line)
    (fun k => slideAccentCell (peek line (k * 2)) (peek line (k * 2 + 1)))
    (fun step a a1 => slideAccentStep_iff line step a a1) n 0 a a1]
  simp only [Nat.zero_le, true_implies, Nat.zero_add]

theorem timeLoop_total (line : List Char) :
    ∀ (n s : Nat) (a : Fin 16 → StepAttributes),
      (∀ k, s ≤ k → k < s + n → timeOk line k) → ∃ r, timeLoop line n s a = .ok r := by
  intro n
  induction n with
  | zero =>
    intro s a _
    exact ⟨_, rfl⟩
  | succ n ih =>
    intro s a h
    rw [timeLoop_succ_ok line n s a (h s (le_refl _) (by omega))]
    by_cases hv : validTime (peek line s)
    · simp only [hv, if_true]
      exact ih (s + 1) _ (fun k h1 h2 => h k (by omega) (by omega))
    · simp only [hv, if_false]
      exact ⟨_, rfl⟩

theorem applyRange_apply_of_lt {α : Type} (a : Fin 16 → α) (n : Nat) (g : Nat → α → α)
    (i : Fin 16) (h : i.val < n) : applyRange a 0 n g i = g i.val (a i) := by
  have : 0 ≤ i.val ∧ i.val < 0 + n := by omega
  simp only [applyRange, this, and_self, if_true]

theorem applyRange_apply_of_ge {α : Type} (a : Fin 16 → α) (n : Nat) (g : Nat → α → α)
    (i : Fin 16) (h : n ≤ i.val) : applyRange a 0 n g i = a i := by
  have : ¬ (0 ≤ i.val ∧ i.val < 0 + n) := by omega
  simp only [applyRange, this, if_false]

/-! ## Sizes that keep every access in range -/

theorem loopCount_le_length (length : Int) (line : List Char) :
    loopCount length line ≤ line.length := by
  unfold loopCount
  omega

theorem loopCount_le_of_le {length : Int} (line : List Char) (h : length ≤ 16) :
    loopCount length line ≤ 16 := by
  unfold loopCount
  omega

theorem lt_loopCount {length : Int} {line : List Char} {i : Nat}
    (h1 : (i : Int) < length) (h2 : i < line.length) : i < loopCount length line := by
  unfold loopCount
  omega

theorem notesOk_of_size {length : Int} {line : List Char} (h16 : length ≤ 16)
    (hsize : holdsCells length line) :
    ∀ k, k < loopCount length line → notesOk line k := by
  intro k hk
  unfold holdsCells at hsize
  have := loopCount_le_of_le line h16
  refine ⟨by omega, by omega, fun _ => by omega⟩

theorem octaveOk_of_size {length : Int} {line : List Char} (h16 : length ≤ 16) :
    ∀ k, k < loopCount length line → octaveOk line k := by
  intro k hk
  have := loopCount_le_of_le line h16
  have := loopCount_le_length length line
  exact ⟨by omega, by omega⟩

theorem slideAccentOk_of_size {length : Int} {line : List Char} (h16 : length ≤ 16)
    (hsize : holdsCells length line) :
    ∀ k, k < loopCount length line → slideAccentOk line k := by
  intro k hk
  unfold holdsCells at hsize
  have := loopCount_le_of_le line h16
  refine ⟨by omega, fun _ => ⟨by omega, fun _ => by omega⟩⟩

theorem timeOk_of_size {length : Int} {line : List Char} (h16 : length ≤ 16) :
    ∀ k, k < loopCount length line → timeOk line k := by
  intro k hk
  have := loopCount_le_of_le line h16
  have := loopCount_le_length length line
  exact ⟨by omega, by omega⟩

theorem stages_exist {m : AcidComposer} {cm : cmatch} {length : Int}
    (h1 : header_search (c_str m.sequence.headerStr) = some cm)
    (h2 : stoi cm.str2 = .ok length) (h16 : length ≤ 16)
    (hn : holdsCells length m.sequence.notesStr)
    (hs : holdsCells length m.sequence.slideAccentStr) :
    ∃ ns os as r, Stages m cm length (signedValue cm.str3) ns os as r := by
  have h3 := transposeOf_of_transpose (header_search_shape h1).2
  have h4 := (notesLoop_iff m.sequence.notesStr (loopCount length m.sequence.notesStr)
    (fun _ => 0) _).mpr ⟨notesOk_of_size h16 hn, rfl⟩
  have h5 := (octaveLoop_iff m.sequence.octaveStr (loopCount length m.sequence.octaveStr)
    (fun _ => 0) _).mpr ⟨octaveOk_of_size h16, rfl⟩
  have h6 := (slideAccentLoop_iff m.sequence.slideAccentStr
    (loopCount length m.sequence.slideAccentStr) (fun _ => ⟨0⟩) _).mpr
    ⟨slideAccentOk_of_size h16 hs, rfl⟩
  obtain ⟨r, h7⟩ := timeLoop_total m.sequence.timeStr (loopCount length m.sequence.timeStr) 0
    (applyRange (fun _ => ⟨0⟩) 0 (loopCount length m.sequence.slideAccentStr)
      (fun k => slideAccentCell (peek m.sequence.slideAccentStr (k * 2))
        (peek m.sequence.slideAccentStr (k * 2 + 1))))
    (fun k _ hk => timeOk_of_size h16 k (by omega))
  exact ⟨_, _, _, r, ⟨h1, h2, h3, h4, h5, h6, h7⟩⟩

/-! ## What `parseSeq` returns, from its stages -/

theorem stages_congr {m m1 : AcidComposer} (hseq : m1.sequence = m.sequence) {cm : cmatch}
    {length transpose : Int} {ns os : Fin 16 → ℚ} {as : Fin 16 → StepAttributes}
    {r : Option Int × (Fin 16 → StepAttributes)}
    (h : Stages m cm length transpose ns os as r) :
    Stages m1 cm length transpose ns os as r := by
  obtain ⟨a1, a2, a3, a4, a5, a6, a7⟩ := h
  exact ⟨by rw [hseq]; exact a1, a2, a3, by rw [hseq]; exact a4, by rw [hseq]; exact a5,
    by rw [hseq]; exact a6, by rw [hseq]; exact a7⟩

theorem stages_code {m : AcidComposer} {cm : cmatch} {length transpose : Int}
    {ns os : Fin 16 → ℚ} {as : Fin 16 → StepAttributes}
    {r : Option Int × (Fin 16 → StepAttributes)}
    (h : Stages m cm length transpose ns os as r) {code : Int} (hr : r.1 = some code) :
    code = -4 := by
  have h7 := h.time_eq
  have e : r = (some code, r.2) := by rw [← hr]
  rw [e] at h7
  exact ((timeLoop_some_iff _ _ _ _ _ _).mp h7).1

theorem parseSeq_of_stages_some {m : AcidComposer} {cm : cmatch} {length transpose : Int}
    {ns os : Fin 16 → ℚ} {as : Fin 16 → StepAttributes}
    {r : Option Int × (Fin 16 → StepAttributes)}
    (h : Stages m cm length transpose ns os as r) {code : Int} (hr : r.1 = some code) :
    parseSeq m = .ok (-4, afterLoops m ns os r.2) := by
  have hc := stages_code h hr
  subst hc
  rw [parseSeq_of_stages h, hr]

theorem parseSeq_of_stages_none {m : AcidComposer} {cm : cmatch} {length transpose : Int}
    {ns os : Fin 16 → ℚ} {as : Fin 16 → StepAttributes}
    {r : Option Int × (Fin 16 → StepAttributes)}
    (h : Stages m cm length transpose ns os as r) (hr : r.1 = none) :
    ∃ l0, cm.str1 = [l0] ∧ (c_str m.sequence.headerStr).head? = some l0 ∧
      parseSeq m = .ok (0, afterHeader (afterLoops m ns os r.2) l0 length transpose) := by
  obtain ⟨⟨l0, hl, hhead, -⟩, -⟩ := header_search_shape h.header
  refine ⟨l0, hl, hhead, ?_⟩
  rw [parseSeq_of_stages h, hr, hl]
  rfl

theorem parseSeq_sequence {m m1 : AcidComposer} {code : Int} (h : parseSeq m = .ok (code, m1)) :
    m1.sequence = m.sequence := by
  by_cases hm : header_search (c_str m.sequence.headerStr) = none
  · rw [parseSeq_of_no_match m hm] at h
    cases h
    rfl
  · obtain ⟨cm, length, transpose, ns, os, as, r, hst⟩ := stages_of_parseSeq h hm
    cases hr : r.1 with
    | some c =>
      rw [parseSeq_of_stages_some hst hr] at h
      cases h
      rfl
    | none =>
      obtain ⟨l0, -, -, hp⟩ := parseSeq_of_stages_none hst hr
      rw [hp] at h
      cases h
      rfl

theorem parseSeq_error_congr {m m1 : AcidComposer} (hseq : m1.sequence = m.sequence) {e : Fault}
    (h : parseSeq m = .error e) : parseSeq m1 = .error e := by
  unfold parseSeq at h ⊢
  simp only [clearSeq, hseq] at h ⊢
  cases h1 : header_search (c_str m.sequence.headerStr) with
  | none => simp [h1] at h
  | some cm =>
    simp only [h1, bind, Except.bind, pure, Except.pure] at h ⊢
    cases h2 : stoi cm.str2 with
    | error e1 => simpa [h2] using h
    | ok length =>
      simp only [h2] at h ⊢
      cases h3 : transposeOf cm with
      | error e1 => simpa [h3] using h
      | ok transpose =>
        simp only [h3] at h ⊢
        cases h4 : forSteps (notesStep m.sequence.notesStr)
            (loopCount length m.sequence.notesStr) 0 (fun _ => 0) with
        | error e1 => simpa [h4] using h
        | ok ns =>
          simp only [h4] at h ⊢
          cases h5 : forSteps (octaveStep m.sequence.octaveStr)
              (loopCount length m.sequence.octaveStr) 0 (fun _ => 0) with
          | error e1 => simpa [h5] using h
          | ok os =>
            simp only [h5] at h ⊢
            cases h6 : forSteps (slideAccentStep m.sequence.slideAccentStr)
                (loopCount length m.sequence.slideAccentStr) 0
                (fun _ => StepAttributes.clear ⟨0⟩) with
            | error e1 =>
              simp only [StepAttributes.clear] at h6 h ⊢
              simpa [h6] using h
            | ok as =>
              simp only [StepAttributes.clear] at h6 h ⊢
              simp only [h6] at h ⊢
              cases h7 : timeLoop m.sequence.timeStr (loopCount length m.sequence.timeStr) 0 as with
              | error e1 => simpa [h7] using h
              | ok r =>
                simp only [h7] at h ⊢
                cases hr : r.1 with
                | some c => simp [hr] at h
                | none =>
                  simp only [hr] at h ⊢
                  cases h8 : charAt (List.take 1 cm.str1) 0 with
                  | error e1 => simpa [h8] using h
                  | ok l0 => simp [h8] at h

theorem parseSeq_ok_congr {m m1 : AcidComposer} (hseq : m1.sequence = m.sequence) {r : Int × AcidComposer}
    (h : parseSeq m = .ok r) : parseSeq m1 = .ok (transfer m1 r) := by
  obtain ⟨code, m2⟩ := r
  by_cases hm : header_search (c_str m.sequence.headerStr) = none
  · have hm1 : header_search (c_str m1.sequence.headerStr) = none := by rw [hseq]; exact hm
    rw [parseSeq_of_no_match m hm] at h
    cases h
    rw [parseSeq_of_no_match m1 hm1]
    simp [transfer, clearSeq, hseq, StepAttributes.clear]
  · obtain ⟨cm, length, transpose, ns, os, as, r, hst⟩ := stages_of_parseSeq h hm
    have hst1 := stages_congr hseq hst
    cases hr : r.1 with
    | some c =>
      rw [parseSeq_of_stages_some hst hr] at h
      cases h
      rw [parseSeq_of_stages_some hst1 hr]
      simp [transfer, afterLoops, clearSeq, hseq]
    | none =>
      obtain ⟨l0, hl, -, hp⟩ := parseSeq_of_stages_none hst hr
      obtain ⟨l1, hl1, -, hp1⟩ := parseSeq_of_stages_none hst1 hr
      have : l1 = l0 := by
        rw [hl] at hl1
        exact (List.cons.inj hl1).1.symm
      subst this
      rw [hp] at h
      cases h
      rw [hp1]
      simp [transfer, afterHeader, afterLoops, clearSeq, hseq]

/-! ## Auxiliary facts for the claims -/

theorem matches_of_header_search {str : List Char} {cm : cmatch}
    (h : header_search str = some cm) : MatchesHeaderGrammar str := by
  cases str with
  | nil => simp [header_search] at h
  | cons l r1 =>
    simp only [header_search] at h
    split_ifs at h with hl hws hds
    refine ⟨l, List.takeWhile isSpaceClass r1,
      List.takeWhile isDigit09 (List.dropWhile isSpaceClass r1),
      List.dropWhile isDigit09 (List.dropWhile isSpaceClass r1), ?_, hl, ?_, ?_, ?_, ?_⟩
    · rw [List.takeWhile_append_dropWhile, List.takeWhile_append_dropWhile]
    · intro he
      exact hws (by rw [he]; rfl)
    · intro c hc
      exact (List.mem_takeWhile_imp hc)
    · intro he
      exact hds (by rw [he]; rfl)
    · intro c hc
      exact (List.mem_takeWhile_imp hc)

theorem header_search_of_matches {str : List Char} (h : MatchesHeaderGrammar str) :
    ∃ cm, header_search str = some cm := by
  obtain ⟨L, ws, ds, rest, rfl, hL, hws, hws1, hds, hds1⟩ := h
  obtain ⟨d, dtl, rfl⟩ := List.exists_cons_of_ne_nil hds
  obtain ⟨w, wtl, rfl⟩ := List.exists_cons_of_ne_nil hws
  have hd_sp : ¬ isSpaceClass d = true := not_space_of_digit (hds1 d (List.mem_cons_self _ _))
  have h1 : List.takeWhile isSpaceClass (w :: wtl ++ (d :: dtl ++ rest)) = w :: wtl := by
    rw [List.takeWhile_append_of_pos hws1]
    simp [List.takeWhile_cons_of_neg hd_sp]
  have h2 : List.dropWhile isSpaceClass (w :: wtl ++ (d :: dtl ++ rest))
      = d :: dtl ++ rest := by
    rw [List.dropWhile_append_of_pos hws1]
    exact List.dropWhile_cons_of_neg hd_sp
  have h3 : List.takeWhile isDigit09 (d :: dtl ++ rest)
      = d :: (dtl ++ List.takeWhile isDigit09 rest) := by
    rw [List.takeWhile_append_of_pos hds1]
    rfl
  simp only [header_search, hL, if_true, h1, h2, h3, List.isEmpty_cons, Bool.false_eq_true,
    if_false]
  exact ⟨_, rfl⟩

/-- The search succeeds exactly on the headers of the grammar. -/
theorem header_search_isSome_iff (str : List Char) :
    (∃ cm, header_search str = some cm) ↔ MatchesHeaderGrammar str :=
  ⟨fun ⟨_, h⟩ => matches_of_header_search h, header_search_of_matches⟩

theorem peek_mem {line : List Char} {k : Nat} (h : k < line.length) : peek line k ∈ line := by
  unfold peek
  rw [List.getElem?_eq_getElem h]
  exact List.getElem_mem h

theorem lt_length_of_getElem? {line : List Char} {k : Nat} {c : Char}
    (h : (line)[k]? = some c) : k < line.length := by
  by_contra hk
  rw [List.getElem?_eq_none (Nat.le_of_not_lt hk)] at h
  cases h

theorem peek_eq_iff {line : List Char} {k : Nat} {c : Char} (hc : c ≠ ' ') :
    peek line k = c ↔ (line)[k]? = some c := by
  unfold peek
  cases h : (line)[k]? with
  | none => simp [Ne.symm hc]
  | some d => simp

theorem slideAccentCell_flags (c0 c1 : Char) (x : StepAttributes) :
    (slideAccentCell c0 c1 x).getGate = x.getGate ∧ (slideAccentCell c0 c1 x).getTie = x.getTie ∧
    ((slideAccentCell c0 c1 x).getSlide = true ↔
      (c0 ≠ ' ' ∧ wantsSlide c0 c1) ∨ x.getSlide = true) ∧
    ((slideAccentCell c0 c1 x).getAccent = true ↔
      (c0 ≠ ' ' ∧ wantsAccent c0 c1) ∨ x.getAccent = true) := by
  rw [slideAccentCell_eq]
  by_cases hc : c0 = ' '
  · simp [hc]
  · by_cases hS : wantsSlide c0 c1 <;> by_cases hA : wantsAccent c0 c1 <;>
    simp [hc, hS, hA, (setSlide_flags _ true).1, (setSlide_flags _ true).2.1,
      (setSlide_flags _ true).2.2.1, (setSlide_flags _ true).2.2.2,
      (setAccent_flags _ true).1, (setAccent_flags _ true).2.1,
      (setAccent_flags _ true).2.2.1, (setAccent_flags _ true).2.2.2]

theorem zero_flags : (⟨0⟩ : StepAttributes).getGate = false ∧ (⟨0⟩ : StepAttributes).getAccent = false ∧
    (⟨0⟩ : StepAttributes).getSlide = false ∧ (⟨0⟩ : StepAttributes).getTie = false := by
  decide

theorem timeMapping_timeCell {c : Char} {x : StepAttributes} (hx : x.getTie = false) :
    TimeMapping c (timeCell c x) := by
  unfold TimeMapping timeCell
  by_cases h1 : c = 'O' ∨ c = 'o'
  · have hg := setGate_flags x true
    simp only [h1, if_true]
    refine ⟨fun _ => ⟨hg.1, by rw [hg.2.2.2]; exact hx⟩, ?_, ?_⟩
    · rintro rfl
      exact absurd h1 (by decide)
    · rintro (rfl | rfl) <;> exact absurd h1 (by decide)
  · by_cases h2 : c = '_'
    · have ht := setTie_true_flags x
      simp only [h1, h2, if_true, if_false]
      refine ⟨?_, fun _ => ⟨ht.2.2.2, ht.1, ht.2.1, ht.2.2.1⟩, ?_⟩
      · intro h
        exact absurd h (by decide)
      · intro h
        exact absurd h (by decide)
    · simp only [h1, h2, if_false]
      refine ⟨?_, fun h => False.elim h, fun _ => rfl⟩
      rintro (rfl | rfl)
      · exact absurd (Or.inr rfl) h1
      · exact absurd (Or.inl rfl) h1

theorem noteToCv_eq_table (c : Char) : noteToCv c = semitoneTable c / 12 := by
  unfold noteToCv semitoneTable
  by_cases h1 : c = 'c' ∨ c = 'C'
  · have : c = 'C' ∨ c = 'c' := h1.symm
    simp [h1, this]
  · have n1 : ¬ (c = 'C' ∨ c = 'c') := fun h => h1 h.symm
    by_cases h2 : c = 'd' ∨ c = 'D'
    · have : c = 'D' ∨ c = 'd' := h2.symm
      simp only [h1, n1, h2, this, if_true, if_false]
    · have n2 : ¬ (c = 'D' ∨ c = 'd') := fun h => h2 h.symm
      by_cases h3 : c = 'e' ∨ c = 'E'
      · have : c = 'E' ∨ c = 'e' := h3.symm
        simp only [h1, n1, h2, n2, h3, this, if_true, if_false]
      · have n3 : ¬ (c = 'E' ∨ c = 'e') := fun h => h3 h.symm
        by_cases h4 : c = 'f' ∨ c = 'F'
        · have : c = 'F' ∨ c = 'f' := h4.symm
          simp only [h1, n1, h2, n2, h3, n3, h4, this, if_true, if_false]
        · have n4 : ¬ (c = 'F' ∨ c = 'f') := fun h => h4 h.symm
          by_cases h5 : c = 'g' ∨ c = 'G'
          · have : c = 'G' ∨ c = 'g' := h5.symm
            simp only [h1, n1, h2, n2, h3, n3, h4, n4, h5, this, if_true, if_false]
          · have n5 : ¬ (c = 'G' ∨ c = 'g') := fun h => h5 h.symm
            by_cases h6 : c = 'a' ∨ c = 'A'
            · have : c = 'A' ∨ c = 'a' := h6.symm
              simp only [h1, n1, h2, n2, h3, n3, h4, n4, h5, n5, h6, this, if_true, if_false]
            · have n6 : ¬ (c = 'A' ∨ c = 'a') := fun h => h6 h.symm
              by_cases h7 : c = 'b' ∨ c = 'B'
              · have : c = 'B' ∨ c = 'b' := h7.symm
                simp only [h1, n1, h2, n2, h3, n3, h4, n4, h5, n5, h6, n6, h7, this, if_true,
                  if_false]
              · have n7 : ¬ (c = 'B' ∨ c = 'b') := fun h => h7 h.symm
                simp only [h1, n1, h2, n2, h3, n3, h4, n4, h5, n5, h6, n6, h7, n7, if_false]
                norm_num

theorem parseSeq_arrays {m m1 : AcidComposer} {code : Int} {cm : cmatch} {length transpose : Int}
    {ns os : Fin 16 → ℚ} {as : Fin 16 → StepAttributes}
    {r : Option Int × (Fin 16 → StepAttributes)}
    (hst : Stages m cm length transpose ns os as r) (h : parseSeq m = .ok (code, m1)) :
    m1.notes = ns ∧ m1.octaves = os ∧ m1.attributes = r.2 ∧ (code = 0 ↔ r.1 = none) := by
  cases hr : r.1 with
  | some c =>
    rw [parseSeq_of_stages_some hst hr] at h
    cases h
    exact ⟨rfl, rfl, rfl, by simp⟩
  | none =>
    obtain ⟨l0, -, -, hp⟩ := parseSeq_of_stages_none hst hr
    rw [hp] at h
    cases h
    exact ⟨rfl, rfl, rfl, by simp⟩

theorem timeLoop_result {line : List Char} {n : Nat} {a : Fin 16 → StepAttributes}
    {r : Option Int × (Fin 16 → StepAttributes)} (h : timeLoop line n 0 a = .ok r) :
    ∃ k, k ≤ n ∧ r.2 = applyRange a 0 k (fun j => timeCell (peek line j)) ∧
      (r.1 = none → k = n) := by
  obtain ⟨r1, r2⟩ := r
  cases r1 with
  | none =>
    exact ⟨n, le_refl _, ((timeLoop_none_iff line n 0 a r2).mp h).2, fun _ => rfl⟩
  | some code =>
    obtain ⟨-, k, -, hk, -, -, -, ha⟩ := (timeLoop_some_iff line n 0 a r2 code).mp h
    exact ⟨k + 1 - 0, by omega, ha, fun h => by cases h⟩

/-! ## Shared steps of the claims -/

theorem transpose_no_nul {tr : List Char} (h : IsTranspose tr) : ∀ c ∈ tr, c.toNat ≠ 0 := by
  have hsign : ∀ s, isSign s = true → s.toNat ≠ 0 := by
    intro s hs
    rcases (isSign_iff s).mp hs with rfl | rfl <;> decide
  have hdig : ∀ d, isDigit09 d = true → d.toNat ≠ 0 := by
    intro d hd
    have := digit_toNat hd
    omega
  rcases h with rfl | ⟨s, d1, hs, hd, rfl | ⟨d2, hd2, rfl⟩⟩
  · intro c hc
    cases hc
  · intro c hc
    simp only [List.mem_cons, List.mem_singleton, List.not_mem_nil, or_false] at hc
    rcases hc with rfl | rfl
    · exact hsign _ hs
    · exact hdig _ hd
  · intro c hc
    simp only [List.mem_cons, List.mem_singleton, List.not_mem_nil, or_false] at hc
    rcases hc with rfl | rfl | rfl
    · exact hsign _ hs
    · exact hdig _ hd
    · exact hdig _ hd2

theorem slideAccent_stage {m : AcidComposer} {cm : cmatch} {length transpose : Int}
    {ns os : Fin 16 → ℚ} {as : Fin 16 → StepAttributes}
    {r : Option Int × (Fin 16 → StepAttributes)}
    (hst : Stages m cm length transpose ns os as r) :
    as = applyRange (fun _ => ⟨0⟩) 0 (loopCount length m.sequence.slideAccentStr)
      (fun k => slideAccentCell (peek m.sequence.slideAccentStr (k * 2))
        (peek m.sequence.slideAccentStr (k * 2 + 1))) :=
  ((slideAccentLoop_iff _ _ _ _).mp hst.slideAccent_eq).2

theorem slideAccent_stage_flags {m : AcidComposer} {cm : cmatch} {length transpose : Int}
    {ns os : Fin 16 → ℚ} {as : Fin 16 → StepAttributes}
    {r : Option Int × (Fin 16 → StepAttributes)}
    (hst : Stages m cm length transpose ns os as r) (i : Fin 16) :
    (as i).getGate = false ∧ (as i).getTie = false := by
  rw [slideAccent_stage hst]
  by_cases hi : i.val < loopCount length m.sequence.slideAccentStr
  · rw [applyRange_apply_of_lt _ _ _ _ hi]
    have h := slideAccentCell_flags (peek m.sequence.slideAccentStr (i.val * 2))
      (peek m.sequence.slideAccentStr (i.val * 2 + 1)) ⟨0⟩
    exact ⟨h.1.trans zero_flags.1, h.2.1.trans zero_flags.2.2.2⟩
  · rw [applyRange_apply_of_ge _ _ _ _ (Nat.le_of_not_lt hi)]
    exact ⟨zero_flags.1, zero_flags.2.2.2⟩

theorem time_stage_none {m : AcidComposer} {cm : cmatch} {length transpose : Int}
    {ns os : Fin 16 → ℚ} {as : Fin 16 → StepAttributes}
    {r : Option Int × (Fin 16 → StepAttributes)}
    (hst : Stages m cm length transpose ns os as r) (h16 : length ≤ 16)
    (hvalid : ∀ k, k < loopCount length m.sequence.timeStr → validTime (peek m.sequence.timeStr k)) :
    r = (none, applyRange as 0 (loopCount length m.sequence.timeStr)
      (fun k => timeCell (peek m.sequence.timeStr k))) := by
  have h := (timeLoop_none_iff m.sequence.timeStr (loopCount length m.sequence.timeStr) 0 as _).mpr
    ⟨fun k _ hk => ⟨timeOk_of_size h16 k (by omega), hvalid k (by omega)⟩, rfl⟩
  rw [hst.time_eq] at h
  exact Except.ok.inj h

theorem time_stage_some {m : AcidComposer} {cm : cmatch} {length transpose : Int}
    {ns os : Fin 16 → ℚ} {as : Fin 16 → StepAttributes}
    {r : Option Int × (Fin 16 → StepAttributes)}
    (hst : Stages m cm length transpose ns os as r) (h16 : length ≤ 16) {i : Nat}
    (hi : i < loopCount length m.sequence.timeStr)
    (hbad : ¬ validTime (peek m.sequence.timeStr i))
    (hfirst : ∀ j, j < i → validTime (peek m.sequence.timeStr j)) :
    r = (some (-4), applyRange as 0 (i + 1) (fun k => timeCell (peek m.sequence.timeStr k))) := by
  have h := (timeLoop_some_iff m.sequence.timeStr (loopCount length m.sequence.timeStr) 0 as
    (applyRange as 0 (i + 1) (fun k => timeCell (peek m.sequence.timeStr k))) (-4)).mpr
    ⟨rfl, i, Nat.zero_le _, by omega,
      fun j _ hj => ⟨timeOk_of_size h16 j (by omega), hfirst j hj⟩,
      timeOk_of_size h16 i hi, hbad, rfl⟩
  rw [hst.time_eq] at h
  exact Except.ok.inj h

theorem holdsCells_of_64 {length : Int} {line : List Char} (h16 : length ≤ 16)
    (h : line.length = 64) : holdsCells length line := by
  have := loopCount_le_of_le line h16
  unfold holdsCells
  omega

theorem holdsCells_of_32 {length : Int} {line : List Char} (h16 : length ≤ 16)
    (h : line.length = 32) : holdsCells length line := by
  have := loopCount_le_of_le line h16
  unfold holdsCells
  omega

theorem getElem?_peek {line : List Char} {k : Nat} (h : k < line.length) :
    (line)[k]? = some (peek line k) := by
  unfold peek
  rw [List.getElem?_eq_getElem h]
  rfl

theorem stages_header {m : AcidComposer} {cm cm1 : cmatch} {N length transpose : Int}
    {ns os : Fin 16 → ℚ} {as : Fin 16 → StepAttributes}
    {r : Option Int × (Fin 16 → StepAttributes)}
    (hst : Stages m cm1 length transpose ns os as r)
    (hh : header_search (c_str m.sequence.headerStr) = some cm) (hN : stoi cm.str2 = .ok N) :
    cm1 = cm ∧ length = N := by
  have e1 : cm1 = cm := by
    have := hst.header
    rw [hh] at this
    exact (Option.some.inj this).symm
  subst e1
  have e2 := hst.length_eq
  rw [hN] at e2
  exact ⟨rfl, (Except.ok.inj e2).symm⟩

theorem or_rotate2 (a b c d : Prop) : (a ∨ b ∨ c ∨ d) ↔ (c ∨ d ∨ a ∨ b) := by
  tauto

theorem or_false_eq_true (p : Prop) : (p ∨ false = true) ↔ p := by
  simp

theorem transfer_self (code : Int) (m1 : AcidComposer) : transfer m1 (code, m1) = (code, m1) := by
  unfold transfer
  by_cases h : code = 0
  · simp [h]
  · simp [h]

/-! ## The claims -/

/-- C1: for every header `L`, white space, digits of value `N ≤ 16`, optional white space, an
optional signed one- or two-digit transpose and optional trailing white space, with notes
and slide/accent tracks that hold both characters of every visited step (the 64-character
tracks of the claim do, see `holdsCells_of_64`) and a valid time track, whatever the
sizes of the octave and time tracks, `parseSeq` returns 0 and stores `letters[0] = L`,
`lengths[0] = N` and `transposes[0] = ±D/12` (0 when the transpose is absent). -/
theorem C1_valid_header_fields (m : AcidComposer) (L : Char) (ws ds ws2 tr pad : List Char)
    (hL : isUpperAZ L = true) (hws : ws ≠ []) (hws1 : ∀ c ∈ ws, isSpaceClass c = true)
    (hds : ds ≠ []) (hds1 : ∀ c ∈ ds, isDigit09 c = true) (hN : decimalValue ds ≤ 16)
    (hws2 : ∀ c ∈ ws2, isSpaceClass c = true) (htr : IsTranspose tr)
    (hpad : ∀ c ∈ pad, isSpaceClass c = true)
    (hheader : m.sequence.headerStr = L :: (ws ++ (ds ++ (ws2 ++ (tr ++ pad)))))
    (hnotes : holdsCells (decimalValue ds) m.sequence.notesStr)
    (hsa : holdsCells (decimalValue ds) m.sequence.slideAccentStr)
    (hvalid : ∀ c ∈ m.sequence.timeStr, validTime c) :
    ∃ m1, parseSeq m = .ok (0, m1) ∧ m1.letters = L ∧ m1.lengths = decimalValue ds ∧
      m1.transposes = (signedValue tr : ℚ) / 12 := by
  have hnul : ∀ c ∈ m.sequence.headerStr, c.toNat ≠ 0 := by
    rw [hheader]
    intro c hc
    simp only [List.mem_cons, List.mem_append] at hc
    rcases hc with rfl | hc | hc | hc | hc | hc
    · simp only [isUpperAZ, decide_eq_true_eq] at hL
      have : 'A'.toNat = 65 := by decide
      omega
    · have := hws1 c hc
      simp only [isSpaceClass, decide_eq_true_eq] at this
      omega
    · have := digit_toNat (hds1 c hc)
      omega
    · have := hws2 c hc
      simp only [isSpaceClass, decide_eq_true_eq] at this
      omega
    · exact transpose_no_nul htr c hc
    · have := hpad c hc
      simp only [isSpaceClass, decide_eq_true_eq] at this
      omega
  have hh : header_search (c_str m.sequence.headerStr) = some ⟨[L], ds, tr⟩ := by
    rw [c_str_of_no_nul hnul, hheader]
    exact header_search_of_form L ws ds ws2 tr pad hL hws hws1 hds hds1 hws2 htr hpad
  have h2 : stoi ds = .ok (decimalValue ds : Int) := stoi_digits hds hds1 (by omega)
  have h16 : (decimalValue ds : Int) ≤ 16 := by exact_mod_cast hN
  obtain ⟨ns, os, as, r, hst⟩ := stages_exist hh h2 h16 hnotes hsa
  have hle := loopCount_le_length (decimalValue ds : Int) m.sequence.timeStr
  have hr := time_stage_none hst h16 (fun k hk => hvalid _ (peek_mem (by omega)))
  obtain ⟨l0, hl, -, hp⟩ := parseSeq_of_stages_none hst (by rw [hr])
  have hl0 : l0 = L := (List.cons.inj hl).1.symm
  subst hl0
  refine ⟨_, hp, rfl, ?_, ?_⟩
  · show ((decimalValue ds : Int) % 256).toNat = decimalValue ds
    omega
  · show ((signedValue tr : Int) : ℚ) * SEMITONE = (signedValue tr : ℚ) / 12
    unfold SEMITONE
    ring

/-- C1, at the header `C 12 -5` followed by a blank, with 64-character tracks. -/
theorem C1_witness :
    ∃ m1, parseSeq (priorState (score "C 12 -5 " "C D#Eb" "U d" "S A SA" "o_-O")) = .ok (0, m1) ∧
      m1.letters = 'C' ∧ m1.lengths = decimalValue ['1', '2'] ∧
      m1.transposes = (signedValue ['-', '5'] : ℚ) / 12 :=
  C1_valid_header_fields _ 'C' [' '] ['1', '2'] [' '] ['-', '5'] [' '] (by decide)
    (by decide) (by decide) (by decide) (by decide) (by decide) (by decide)
    (by decide) (by decide) rfl
    (holdsCells_of_64 (by decide) (by decide)) (holdsCells_of_64 (by decide) (by decide))
    (by decide)

/-- C2: for every header that does not match the header grammar and every prior pattern
state, `parseSeq` returns -2 and leaves bank 0 cleared: on all 16 steps the note is 0, the
octave is 0 and the attributes are empty. -/
theorem C2_invalid_header_clears (m : AcidComposer)
    (h : ¬ MatchesHeaderGrammar (c_str m.sequence.headerStr)) :
    ∃ m1, parseSeq m = .ok (-2, m1) ∧
      ∀ i : Fin 16, m1.notes i = 0 ∧ m1.octaves i = 0 ∧ (m1.attributes i).getAttribute = 0 := by
  have hn : header_search (c_str m.sequence.headerStr) = none := by
    cases hs : header_search (c_str m.sequence.headerStr) with
    | none => rfl
    | some cm => exact absurd (matches_of_header_search hs) h
  exact ⟨clearSeq m, parseSeq_of_no_match m hn, fun i => ⟨rfl, rfl, rfl⟩⟩

/-- C2, at the header `c 16` (lower-case letter) over a pattern left by earlier activity. -/
theorem C2_witness :
    ¬ MatchesHeaderGrammar (c_str (priorState (score "c 16" "C" "" "" "o")).sequence.headerStr) ∧
    ∃ m1, parseSeq (priorState (score "c 16" "C" "" "" "o")) = .ok (-2, m1) ∧
      ∀ i : Fin 16, m1.notes i = 0 ∧ m1.octaves i = 0 ∧ (m1.attributes i).getAttribute = 0 :=
  have h : ¬ MatchesHeaderGrammar
      (c_str (priorState (score "c 16" "C" "" "" "o")).sequence.headerStr) := by
    rintro ⟨L, ws, ds, rest, he, hL, -⟩
    have hc : c_str (priorState (score "c 16" "C" "" "" "o")).sequence.headerStr
        = ['c', ' ', '1', '6'] := by decide
    rw [hc] at he
    have : L = 'c' := (List.cons.inj he).1.symm
    subst this
    exact absurd hL (by decide)
  ⟨h, C2_invalid_header_clears _ h⟩

/-- C3: with a valid header of length `N ≤ 16`, notes and slide/accent tracks that hold both
characters of every visited step (the 64-character tracks of the claim do, see
`holdsCells_of_64`) and a time track (of any size, at most 16 included) whose characters
are all among `o`, `O`, `_`, `-` and blank, `parseSeq` returns 0 and every step below
`min(N, time length)` carries the mapping of its time character: `o`/`O` Gate set and Tie
clear; `_` Tie set with Gate, Accent and Slide clear; blank or `-` all attributes clear. -/
theorem C3_time_track_mapping (m : AcidComposer) (cm : cmatch) (N : Int)
    (hh : header_search (c_str m.sequence.headerStr) = some cm) (hN : stoi cm.str2 = .ok N)
    (h16 : N ≤ 16) (hnotes : holdsCells N m.sequence.notesStr)
    (hsa : holdsCells N m.sequence.slideAccentStr)
    (hvalid : ∀ c ∈ m.sequence.timeStr, validTime c) :
    ∃ m1, parseSeq m = .ok (0, m1) ∧
      ∀ (i : Fin 16) (c : Char), (i.val : Int) < N → (m.sequence.timeStr)[i.val]? = some c →
        TimeMapping c (m1.attributes i) := by
  obtain ⟨ns, os, as, r, hst⟩ := stages_exist hh hN h16 hnotes hsa
  have hle := loopCount_le_length N m.sequence.timeStr
  have hr := time_stage_none hst h16 (fun k hk => hvalid _ (peek_mem (by omega)))
  obtain ⟨l0, -, -, hp⟩ := parseSeq_of_stages_none hst (by rw [hr])
  refine ⟨_, hp, fun i c hi hc => ?_⟩
  show TimeMapping c (r.2 i)
  rw [hr]
  show TimeMapping c (applyRange as 0 _ _ i)
  rw [applyRange_apply_of_lt _ _ _ _ (lt_loopCount hi (lt_length_of_getElem? hc)),
    peek_eq_of_getElem? hc]
  exact timeMapping_timeCell (slideAccent_stage_flags hst i).2

/-- C3, at the time track `o_-O` under the header `A 4`. -/
theorem C3_witness :
    ∃ m1, parseSeq (priorState (score "A 4" "C D#Eb" "U d" "S A SA" "o_-O")) = .ok (0, m1) ∧
      ∀ (i : Fin 16) (c : Char), (i.val : Int) < 4 →
        ((priorState (score "A 4" "C D#Eb" "U d" "S A SA" "o_-O")).sequence.timeStr)[i.val]?
          = some c →
        TimeMapping c (m1.attributes i) :=
  C3_time_track_mapping _ ⟨['A'], ['4'], []⟩ 4 (by decide) rfl (by decide) (by decide)
    (by decide) (by decide)

/-- The time loop on its first offending character: with a valid header of length `N ≤ 16` and
notes and slide/accent tracks that hold both characters of every visited step (as the fixed
widths 64 and 32 do, see `holdsCells_of_64`), when position `i < min(N, time length)` is the
first of the time track to hold a character other than `o`, `O`, `_`, `-` or blank, `parseSeq`
returns -4, the attributes of step `i` are all clear, the steps before `i` carry the mapping
of their time character, and no step after `i` has Gate or Tie set. -/
theorem invalid_time_value_of_full_cells (m : AcidComposer) (cm : cmatch) (N : Int) (i : Fin 16) (c : Char)
    (hh : header_search (c_str m.sequence.headerStr) = some cm) (hN : stoi cm.str2 = .ok N)
    (h16 : N ≤ 16) (hnotes : holdsCells N m.sequence.notesStr)
    (hsa : holdsCells N m.sequence.slideAccentStr)
    (hi : (i.val : Int) < N) (hc : (m.sequence.timeStr)[i.val]? = some c) (hbad : ¬ validTime c)
    (hfirst : ∀ j cj, j < i.val → (m.sequence.timeStr)[j]? = some cj → validTime cj) :
    ∃ m1, parseSeq m = .ok (-4, m1) ∧ (m1.attributes i).getAttribute = 0 ∧
      (∀ (j : Fin 16) (cj : Char), j.val < i.val → (m.sequence.timeStr)[j.val]? = some cj →
        TimeMapping cj (m1.attributes j)) ∧
      (∀ j : Fin 16, i.val < j.val →
        (m1.attributes j).getGate = false ∧ (m1.attributes j).getTie = false) := by
  obtain ⟨ns, os, as, r, hst⟩ := stages_exist hh hN h16 hnotes hsa
  have hilen := lt_length_of_getElem? hc
  have hr := time_stage_some hst h16 (lt_loopCount hi hilen)
    (by rw [peek_eq_of_getElem? hc]; exact hbad)
    (fun j hj => hfirst j _ hj (getElem?_peek (by omega)))
  have hp := parseSeq_of_stages_some hst (show r.1 = some (-4) by rw [hr])
  refine ⟨_, hp, ?_, ?_, ?_⟩
  · show (r.2 i).getAttribute = 0
    rw [hr]
    show (applyRange as 0 (i.val + 1) _ i).getAttribute = 0
    rw [applyRange_apply_of_lt _ _ _ _ (Nat.lt_succ_self _), peek_eq_of_getElem? hc,
      timeCell_invalid hbad]
    rfl
  · intro j cj hj hcj
    show TimeMapping cj (r.2 j)
    rw [hr]
    show TimeMapping cj (applyRange as 0 (i.val + 1) _ j)
    rw [applyRange_apply_of_lt as (i.val + 1) _ j (by omega), peek_eq_of_getElem? hcj]
    exact timeMapping_timeCell (slideAccent_stage_flags hst j).2
  · intro j hj
    have e : r.2 j = as j := by
      rw [hr]
      exact applyRange_apply_of_ge as (i.val + 1)
        (fun k => timeCell (peek m.sequence.timeStr k)) j (by omega)
    show (r.2 j).getGate = false ∧ (r.2 j).getTie = false
    rw [e]
    exact slideAccent_stage_flags hst j

/-- The time track `o_xO` under the header `A 4` with tracks of the fixed width: position 2
is the first offender. -/
theorem invalid_time_value_example :
    ∃ m1, parseSeq (priorState (score "A 4" "C D#Eb" "U d" "S A SA" "o_xO")) = .ok (-4, m1) ∧
      (m1.attributes 2).getAttribute = 0 ∧
      (∀ (j : Fin 16) (cj : Char), j.val < 2 →
        ((priorState (score "A 4" "C D#Eb" "U d" "S A SA" "o_xO")).sequence.timeStr)[j.val]?
          = some cj →
        TimeMapping cj (m1.attributes j)) ∧
      (∀ j : Fin 16, 2 < j.val →
        (m1.attributes j).getGate = false ∧ (m1.attributes j).getTie = false) :=
  invalid_time_value_of_full_cells _ ⟨['A'], ['4'], []⟩ 4 2 'x' (by decide) rfl (by decide)
    (by decide) (by decide) (by decide) (by decide) (by decide)
    (by
      intro j cj hj hc
      have hj2 : j = 0 ∨ j = 1 := by
        have : j < 2 := hj
        omega
      rcases hj2 with rfl | rfl
      · have : cj = 'o' := (Option.some.inj hc).symm
        subst this
        decide
      · have : cj = '_' := (Option.some.inj hc).symm
        subst this
        decide)

/-- C4, evaluated under the header `A 4` on the 4-character tracks notes `C` and three
blanks, octave and slide/accent blank, time `o_xO`: the header is valid with length 4, position
2 is the first of the time track to hold a character other than `o`, `O`, `_`, `-` or blank,
and `parseSeq` does not return -4: at step 2 of the notes loop `line.at(4)` throws on the
4-character notes track, before the time loop is reached. -/
theorem C4_short_notes_track_throws :
    header_search (c_str (rawScore "A 4" "C   " "    " "    " "o_xO").headerStr)
      = some ⟨['A'], ['4'], []⟩ ∧
    stoi ['4'] = .ok 4 ∧
    ((rawScore "A 4" "C   " "    " "    " "o_xO").timeStr)[2]? = some 'x' ∧
    ¬ validTime 'x' ∧ validTime 'o' ∧ validTime '_' ∧
    parseSeq (priorState (rawScore "A 4" "C   " "    " "    " "o_xO"))
      = .error (.at_out_of_range 4 4) :=
  ⟨by decide, rfl, by decide, by decide, by decide, by decide, rfl⟩

/-- C5: for every `StepAttributes` value, after `setTie(true)` the Tie flag is set and the
Gate, Accent and Slide flags are clear; after `setTie(false)` the Tie flag is clear and Gate,
Accent and Slide are unchanged. -/
theorem C5_setTie_exclusive (s : StepAttributes) :
    ((s.setTie true).getTie = true ∧ (s.setTie true).getGate = false ∧
      (s.setTie true).getAccent = false ∧ (s.setTie true).getSlide = false) ∧
    ((s.setTie false).getTie = false ∧ (s.setTie false).getGate = s.getGate ∧
      (s.setTie false).getAccent = s.getAccent ∧ (s.setTie false).getSlide = s.getSlide) :=
  ⟨⟨(setTie_true_flags s).2.2.2, (setTie_true_flags s).1, (setTie_true_flags s).2.1,
      (setTie_true_flags s).2.2.1⟩,
    ⟨(setTie_false_flags s).2.2.2, (setTie_false_flags s).1, (setTie_false_flags s).2.1,
      (setTie_false_flags s).2.2.1⟩⟩

/-- C6, as stated, fails at the cell blank-`S`: the second character is `S`, the step is
gated by `o`, and the parse (which returns 0) leaves Slide clear. -/
theorem C6_counterexample :
    ∃ m1, parseSeq (priorState (score "A 16 +0" "" "" " S" "o")) = .ok (0, m1) ∧
      ((priorState (score "A 16 +0" "" "" " S" "o")).sequence.slideAccentStr)[2 * 0 + 1]?
        = some 'S' ∧
      ((priorState (score "A 16 +0" "" "" " S" "o")).sequence.timeStr)[0]? = some 'o' ∧
      (m1.attributes 0).getSlide = false :=
  ⟨_, rfl, rfl, rfl, rfl⟩

/-- C6, amended: for every step `i` below the header length whose time character is `o` or `O`
and whose slide/accent cell is `c0 c1` (positions `2i` and `2i+1`), after `parseSeq` returns
the Slide flag of the step is set if and only if `c0` is not a blank and one of the two
characters is `S` or `s`, and the Accent flag if and only if `c0` is not a blank and one of the
two characters is `A` or `a`. -/
theorem C6_slide_accent_cells (m m1 : AcidComposer) (code : Int) (cm : cmatch) (N : Int)
    (i : Fin 16) (c0 c1 : Char)
    (hp : parseSeq m = .ok (code, m1))
    (hh : header_search (c_str m.sequence.headerStr) = some cm) (hN : stoi cm.str2 = .ok N)
    (hi : (i.val : Int) < N)
    (h0 : (m.sequence.slideAccentStr)[2 * i.val]? = some c0)
    (h1 : (m.sequence.slideAccentStr)[2 * i.val + 1]? = some c1)
    (ht : (m.sequence.timeStr)[i.val]? = some 'o' ∨ (m.sequence.timeStr)[i.val]? = some 'O') :
    ((m1.attributes i).getSlide = true ↔
      c0 ≠ ' ' ∧ (c0 = 'S' ∨ c0 = 's' ∨ c1 = 'S' ∨ c1 = 's')) ∧
    ((m1.attributes i).getAccent = true ↔
      c0 ≠ ' ' ∧ (c0 = 'A' ∨ c0 = 'a' ∨ c1 = 'A' ∨ c1 = 'a')) := by
  obtain ⟨cm1, length, transpose, ns, os, as, r, hst⟩ :=
    stages_of_parseSeq hp (by rw [hh]; exact Option.some_ne_none _)
  obtain ⟨rfl, rfl⟩ := stages_header hst hh hN
  obtain ⟨-, -, hattr, -⟩ := parseSeq_arrays hst hp
  obtain ⟨k, -, hk, -⟩ := timeLoop_result hst.time_eq
  have hc : peek m.sequence.timeStr i.val = 'o' ∨ peek m.sequence.timeStr i.val = 'O' := by
    rcases ht with h | h
    · exact Or.inl (peek_eq_of_getElem? h)
    · exact Or.inr (peek_eq_of_getElem? h)
  have hcell : timeCell (peek m.sequence.timeStr i.val) (as i) = (as i).setGate true := by
    unfold timeCell
    have : peek m.sequence.timeStr i.val = 'O' ∨ peek m.sequence.timeStr i.val = 'o' := hc.symm
    simp only [this, if_true]
  have hflags : (m1.attributes i).getSlide = (as i).getSlide ∧
      (m1.attributes i).getAccent = (as i).getAccent := by
    rw [hattr, hk]
    by_cases hik : i.val < k
    · rw [applyRange_apply_of_lt as k (fun j => timeCell (peek m.sequence.timeStr j)) i hik, hcell]
      exact ⟨(setGate_flags (as i) true).2.2.1, (setGate_flags (as i) true).2.1⟩
    · rw [applyRange_apply_of_ge as k (fun j => timeCell (peek m.sequence.timeStr j)) i
        (Nat.le_of_not_lt hik)]
      exact ⟨rfl, rfl⟩
  have hlen := lt_length_of_getElem? h0
  have hin : i.val < loopCount length m.sequence.slideAccentStr := lt_loopCount hi (by omega)
  have h0' : peek m.sequence.slideAccentStr (i.val * 2) = c0 := by
    rw [Nat.mul_comm]
    exact peek_eq_of_getElem? h0
  have h1' : peek m.sequence.slideAccentStr (i.val * 2 + 1) = c1 := by
    rw [Nat.mul_comm]
    exact peek_eq_of_getElem? h1
  have has : as i = slideAccentCell c0 c1 ⟨0⟩ := by
    rw [slideAccent_stage hst,
      applyRange_apply_of_lt (fun _ => (⟨0⟩ : StepAttributes)) _ _ i hin, h0', h1']
  have hf := slideAccentCell_flags c0 c1 ⟨0⟩
  rw [hflags.1, hflags.2, has, hf.2.2.1, hf.2.2.2, zero_flags.2.2.1, zero_flags.2.1]
  unfold wantsSlide wantsAccent
  exact ⟨by rw [or_rotate2 (c1 = 'S') (c1 = 's') (c0 = 'S') (c0 = 's'), or_false_eq_true],
    by rw [or_rotate2 (c1 = 'A') (c1 = 'a') (c0 = 'A') (c0 = 'a'), or_false_eq_true]⟩

/-- C6 amended, at the cells `aS` (step 0) and blank-`S` (step 1) under gates. -/
theorem C6_witness :
    ∃ m1, parseSeq (priorState (score "A 16 +0" "" "" "aS S" "oO")) = .ok (0, m1) ∧
      (((m1.attributes 0).getSlide = true ↔
          'a' ≠ ' ' ∧ ('a' = 'S' ∨ 'a' = 's' ∨ 'S' = 'S' ∨ 'S' = 's')) ∧
        ((m1.attributes 0).getAccent = true ↔
          'a' ≠ ' ' ∧ ('a' = 'A' ∨ 'a' = 'a' ∨ 'S' = 'A' ∨ 'S' = 'a'))) ∧
      (((m1.attributes 1).getSlide = true ↔
          ' ' ≠ ' ' ∧ (' ' = 'S' ∨ ' ' = 's' ∨ 'S' = 'S' ∨ 'S' = 's')) ∧
        ((m1.attributes 1).getAccent = true ↔
          ' ' ≠ ' ' ∧ (' ' = 'A' ∨ ' ' = 'a' ∨ 'S' = 'A' ∨ 'S' = 'a'))) :=
  ⟨_, rfl,
    C6_slide_accent_cells (priorState (score "A 16 +0" "" "" "aS S" "oO")) _ 0
      ⟨['A'], ['1', '6'], ['+', '0']⟩ 16 0 'a' 'S' rfl (by decide) rfl (by decide)
      (by decide) (by decide) (by decide),
    C6_slide_accent_cells (priorState (score "A 16 +0" "" "" "aS S" "oO")) _ 0
      ⟨['A'], ['1', '6'], ['+', '0']⟩ 16 1 ' ' 'S' rfl (by decide) rfl (by decide)
      (by decide) (by decide) (by decide)⟩

/-- C7: after a successful `parseSeq`, for every step `i` below the header length whose notes
cell starts with the character `c0` (position `2i`), `notes[0][i]` is 0 when `c0` is a blank and
otherwise the semitone-table value of `c0` divided by 12, plus 1/12 when the character at
`2i+1` is `#`, minus 1/12 when it is `b`. -/
theorem C7_note_values (m m1 : AcidComposer) (cm : cmatch) (N : Int) (i : Fin 16) (c0 : Char)
    (hp : parseSeq m = .ok (0, m1))
    (hh : header_search (c_str m.sequence.headerStr) = some cm) (hN : stoi cm.str2 = .ok N)
    (hi : (i.val : Int) < N)
    (h0 : (m.sequence.notesStr)[2 * i.val]? = some c0) :
    m1.notes i =
      if c0 = ' ' then 0
      else semitoneTable c0 / 12
        + (if (m.sequence.notesStr)[2 * i.val + 1]? = some '#' then 1 / 12 else 0)
        - (if (m.sequence.notesStr)[2 * i.val + 1]? = some 'b' then 1 / 12 else 0) := by
  obtain ⟨cm1, length, transpose, ns, os, as, r, hst⟩ :=
    stages_of_parseSeq hp (by rw [hh]; exact Option.some_ne_none _)
  obtain ⟨rfl, rfl⟩ := stages_header hst hh hN
  obtain ⟨hnotes, -, -, -⟩ := parseSeq_arrays hst hp
  have hlen := lt_length_of_getElem? h0
  have hin : i.val < loopCount length m.sequence.notesStr := lt_loopCount hi (by omega)
  have hns := ((notesLoop_iff _ _ _ _).mp hst.notes_eq).2
  have h0' : peek m.sequence.notesStr (i.val * 2) = c0 := by
    rw [Nat.mul_comm]
    exact peek_eq_of_getElem? h0
  have hsharp : peek m.sequence.notesStr (i.val * 2 + 1) = '#' ↔
      (m.sequence.notesStr)[2 * i.val + 1]? = some '#' := by
    rw [Nat.mul_comm]
    exact peek_eq_iff (by decide)
  have hflat : peek m.sequence.notesStr (i.val * 2 + 1) = 'b' ↔
      (m.sequence.notesStr)[2 * i.val + 1]? = some 'b' := by
    rw [Nat.mul_comm]
    exact peek_eq_iff (by decide)
  rw [hnotes, hns, applyRange_apply_of_lt (fun _ => (0 : ℚ)) _ _ i hin, h0']
  unfold noteCell
  by_cases hc : c0 = ' '
  · simp only [hc, ne_eq, not_true_eq_false, if_false, if_true]
  · simp only [hc, ne_eq, not_false_eq_true, if_true, if_false, hsharp, hflat,
      noteToCv_eq_table, SEMITONE]

/-- C7, at the notes track `C D#EbB ` under the header `A 4`: steps 1 (`D#`) and 2 (`Eb`). -/
theorem C7_witness :
    ∃ m1, parseSeq (priorState (score "A 4" "C D#EbB " "" "" "oooo")) = .ok (0, m1) ∧
      m1.notes 1 =
        (if 'D' = ' ' then 0
        else semitoneTable 'D' / 12
          + (if ((priorState (score "A 4" "C D#EbB " "" "" "oooo")).sequence.notesStr)[2 * 1 + 1]?
              = some '#' then 1 / 12 else 0)
          - (if ((priorState (score "A 4" "C D#EbB " "" "" "oooo")).sequence.notesStr)[2 * 1 + 1]?
              = some 'b' then 1 / 12 else 0)) ∧
      m1.notes 2 =
        (if 'E' = ' ' then 0
        else semitoneTable 'E' / 12
          + (if ((priorState (score "A 4" "C D#EbB " "" "" "oooo")).sequence.notesStr)[2 * 2 + 1]?
              = some '#' then 1 / 12 else 0)
          - (if ((priorState (score "A 4" "C D#EbB " "" "" "oooo")).sequence.notesStr)[2 * 2 + 1]?
              = some 'b' then 1 / 12 else 0)) :=
  ⟨_, rfl,
    C7_note_values (priorState (score "A 4" "C D#EbB " "" "" "oooo")) _ ⟨['A'], ['4'], []⟩ 4 1 'D'
      rfl (by decide) rfl (by decide) (by decide),
    C7_note_values (priorState (score "A 4" "C D#EbB " "" "" "oooo")) _ ⟨['A'], ['4'], []⟩ 4 2 'E'
      rfl (by decide) rfl (by decide) (by decide)⟩

/-- C8: parsing is idempotent. Whenever `parseSeq` returns with a result code on a pattern
state, running it again on the state it left (the score is unchanged) returns the same code
and leaves the same notes, octaves, attributes, letter, length and transpose. -/
theorem C8_parse_idempotent (m m1 : AcidComposer) (code : Int)
    (hp : parseSeq m = .ok (code, m1)) : parseSeq m1 = .ok (code, m1) := by
  have h := parseSeq_ok_congr (parseSeq_sequence hp) hp
  rw [transfer_self] at h
  exact h

/-- C8, at a score whose time track fails at step 2 (code -4), over an earlier pattern. -/
theorem C8_witness :
    ∃ m1, parseSeq (priorState (score "A 4" "C D#EbB " "U d" "S A SA" "o_xO")) = .ok (-4, m1) ∧
      parseSeq m1 = .ok (-4, m1) :=
  ⟨_, rfl, C8_parse_idempotent (priorState (score "A 4" "C D#EbB " "U d" "S A SA" "o_xO")) _ _ rfl⟩

/-- C9, as stated, fails on a score that does not parse: under the header `a 16` two earlier
pattern states holding the same score both get -2, and each keeps its own letter and length. -/
theorem C9_counterexample :
    (priorState (score "a 16" "" "" "" "")).sequence
        = (otherPriorState (score "a 16" "" "" "" "")).sequence ∧
      ∃ ma mb, parseSeq (priorState (score "a 16" "" "" "" "")) = .ok (-2, ma) ∧
        parseSeq (otherPriorState (score "a 16" "" "" "" "")) = .ok (-2, mb) ∧
        ma.lengths = 3 ∧ mb.lengths = 9 ∧ ma.letters = 'Z' ∧ mb.letters = 'Q' :=
  ⟨rfl, _, _, rfl, rfl, rfl, rfl, rfl, rfl⟩

/-- C9, amended: for every textual score and every two prior pattern states holding it,
`parseSeq` has the same outcome on both: the same fault, or the same result code with the same
notes, octaves and attributes of bank 0. When the code is 0 the letter, length and transpose
are the same as well; when it is not, they are not re-derived and each state keeps its own. -/
theorem C9_projection_of_score (m m' : AcidComposer) (hseq : m'.sequence = m.sequence) :
    (∀ e, parseSeq m = .error e → parseSeq m' = .error e) ∧
    (∀ code m1, parseSeq m = .ok (code, m1) →
      ∃ m1', parseSeq m' = .ok (code, m1') ∧
        m1'.notes = m1.notes ∧ m1'.octaves = m1.octaves ∧ m1'.attributes = m1.attributes ∧
        (code = 0 →
          m1'.letters = m1.letters ∧ m1'.lengths = m1.lengths ∧
            m1'.transposes = m1.transposes) ∧
        (code ≠ 0 →
          m1'.letters = m'.letters ∧ m1'.lengths = m'.lengths ∧
            m1'.transposes = m'.transposes)) := by
  refine ⟨fun e he => parseSeq_error_congr hseq he, fun code m1 hp => ?_⟩
  refine ⟨(transfer m' (code, m1)).2, parseSeq_ok_congr hseq hp, ?_⟩
  by_cases h : code = 0
  · simp [transfer, h]
  · simp [transfer, h]

/-- C9 amended, at a score that parses (code 0) over two different earlier patterns. -/
theorem C9_witness :
    ∃ m1, parseSeq (priorState (score "A 4 +3" "C D#EbB " "U d" "S A SA" "o_-O")) = .ok (0, m1) ∧
      ∃ m1', parseSeq (otherPriorState (score "A 4 +3" "C D#EbB " "U d" "S A SA" "o_-O"))
          = .ok (0, m1') ∧
        m1'.notes = m1.notes ∧ m1'.octaves = m1.octaves ∧ m1'.attributes = m1.attributes ∧
        ((0 : Int) = 0 →
          m1'.letters = m1.letters ∧ m1'.lengths = m1.lengths ∧
            m1'.transposes = m1.transposes) ∧
        ((0 : Int) ≠ 0 →
          m1'.letters = (otherPriorState (score "A 4 +3" "C D#EbB " "U d" "S A SA" "o_-O")).letters ∧
            m1'.lengths
              = (otherPriorState (score "A 4 +3" "C D#EbB " "U d" "S A SA" "o_-O")).lengths ∧
            m1'.transposes
              = (otherPriorState (score "A 4 +3" "C D#EbB " "U d" "S A SA" "o_-O")).transposes) :=
  ⟨_, rfl,
    (C9_projection_of_score (priorState (score "A 4 +3" "C D#EbB " "U d" "S A SA" "o_-O"))
      (otherPriorState (score "A 4 +3" "C D#EbB " "U d" "S A SA" "o_-O")) rfl).2 0 _ rfl⟩

/-- C10, as stated, fails for a header length above 16: under the header `A 17` with
64-character tracks the notes loop reaches `notes[0][16]`, a step outside 0..15. -/
theorem C10_counterexample :
    parseSeq (priorState (score "A 17" "" "" "" "")) = .error (.step_out_of_bounds 16) :=
  rfl

/-- The guard `step < line.size()` of the two-character tracks does not cover the index
`2 * step + 1`: under the header `A 16` a notes track holding the single character `C` makes
`line.at(1)` throw. -/
theorem parseSeq_short_notes_track :
    parseSeq (priorState (rawScore "A 16" "C" "" "" "")) = .error (.at_out_of_range 1 1) :=
  rfl

/-- C10, amended: for every textual score whose header does not match, or whose header length
`N` is at most 16 and whose notes and slide/accent tracks hold both characters of every step
their loops visit (`2 * min(N, size) ≤ size`, as the fixed widths 64 and 32 do; octave and
time tracks of any size), `parseSeq` returns one of the codes 0, -2, -4. In this model every
read of a track goes through `charAt` and every use of a step subscript through `store` or
`modify`, which end the run in a `Fault` when the index is out of range: returning a code means
that every index read was below the size of its track and every step written was in 0..15. -/
theorem C10_accesses_in_range (m : AcidComposer)
    (h : header_search (c_str m.sequence.headerStr) = none ∨
      ∃ cm N, header_search (c_str m.sequence.headerStr) = some cm ∧ stoi cm.str2 = .ok N ∧
        N ≤ 16 ∧ holdsCells N m.sequence.notesStr ∧ holdsCells N m.sequence.slideAccentStr) :
    ∃ code m1, parseSeq m = .ok (code, m1) ∧ (code = 0 ∨ code = -2 ∨ code = -4) := by
  rcases h with h | ⟨cm, N, hh, hN, h16, hn, hs⟩
  · exact ⟨-2, _, parseSeq_of_no_match m h, Or.inr (Or.inl rfl)⟩
  · obtain ⟨ns, os, as, r, hst⟩ := stages_exist hh hN h16 hn hs
    cases hr : r.1 with
    | some c =>
      exact ⟨-4, _, parseSeq_of_stages_some hst hr, Or.inr (Or.inr rfl)⟩
    | none =>
      obtain ⟨l0, -, -, hp⟩ := parseSeq_of_stages_none hst hr
      exact ⟨0, _, hp, Or.inl rfl⟩

/-- C10 amended, at the header `A 16` with an octave track of 3 characters, a time track of 70
and 64-character notes and slide/accent tracks. -/
theorem C10_witness :
    ∃ code m1,
      parseSeq (priorState
        { score "A 16" "C D#EbB " "" "S A SA" "" with
          octaveStr := ['U', 'd', ' '], timeStr := blank 70 }) = .ok (code, m1) ∧
      (code = 0 ∨ code = -2 ∨ code = -4) :=
  C10_accesses_in_range _
    (Or.inr ⟨⟨['A'], ['1', '6'], []⟩, 16, by decide, rfl, by decide, by decide, by decide⟩)

/-! ## `process`: the reads of the step resolver -/

namespace ComposerModule

theorem readStep_fin {α : Type} (array : Fin 16 → α) (i : Fin 16) :
    readStep array (i.val : Int) = .ok (array i) := by
  have h : 0 ≤ (i.val : Int) ∧ (i.val : Int) < 16 := by
    have := i.isLt
    omega
  unfold readStep
  rw [dif_pos h]
  rfl

theorem readAttributes_fin (m : ComposerModule) (i : Fin 16) :
    readAttributes m (i.val : Int) = .ok (m.composer.attributes i) := by
  have h : 0 ≤ (i.val : Int) ∧ (i.val : Int) < 16 := by
    have := i.isLt
    omega
  unfold readAttributes
  rw [dif_pos h]
  rfl

theorem readAttributes_16 (m : ComposerModule) : readAttributes m 16 = .ok m.attributes_1_0 :=
  rfl

/-- The step after `i`, cyclically. -/
theorem nextIndex_fin (i : Fin 16) : nextIndex (i.val : Int) = ((i + 1 : Fin 16).val : Int) := by
  have h := i.isLt
  unfold nextIndex
  rw [Fin.val_add]
  have h1 : ((1 : Fin 16).val) = 1 := rfl
  rw [h1]
  split_ifs with hc
  · have : i.val = 15 := by omega
    rw [this]
    rfl
  · have : i.val + 1 < 16 := by omega
    rw [Nat.mod_eq_of_lt this]
    push_cast
    rfl

theorem previousIndex_zero : previousIndex 0 = 16 := rfl

theorem previousIndex_succ (i : Fin 16) (h : 0 < i.val) :
    previousIndex (i.val : Int) = ((i - 1 : Fin 16).val : Int) := by
  have hlt := i.isLt
  unfold previousIndex
  have hc : ¬ ((i.val : Int) - 1 < 0) := by omega
  rw [if_neg hc]
  have h1 : (i - 1 : Fin 16).val = i.val - 1 := by
    rw [Fin.sub_def]
    show (16 - 1 + i.val) % 16 = i.val - 1
    omega
  rw [h1]
  omega

/-- The neighbour the resolver looks back at: step `i - 1`, and `attributes[1][0]` at step 0. -/
theorem readAttributes_previous (m : ComposerModule) (i : Fin 16) :
    readAttributes m (previousIndex (i.val : Int))
      = .ok (if i.val = 0 then m.attributes_1_0 else m.composer.attributes (i - 1)) := by
  by_cases h : i.val = 0
  · rw [if_pos h, h]
    rfl
  · rw [if_neg h, previousIndex_succ i (Nat.pos_of_ne_zero h), readAttributes_fin]

theorem readAttributes_next (m : ComposerModule) (i : Fin 16) :
    readAttributes m (nextIndex (i.val : Int)) = .ok (m.composer.attributes (i + 1)) := by
  rw [nextIndex_fin, readAttributes_fin]

/-! ## `process`: latch and outputs with the cursor on a step -/

theorem latch_fin (m : ComposerModule) (i : Fin 16) (hi : m.stepIndexRun = (i.val : Int)) :
    latch m = .ok (latched m i) := by
  unfold latch latched
  rw [hi, readAttributes_fin]
  by_cases hg : (m.composer.attributes i).getGate = true
  · simp only [hg, if_true, readStep_fin, bind, Except.bind, pure, Except.pure]
  · simp only [hg, if_false, bind, Except.bind, pure, Except.pure, Bool.false_eq_true]

theorem latched_frame (m : ComposerModule) (i : Fin 16) :
    (latched m i).composer = m.composer ∧ (latched m i).attributes_1_0 = m.attributes_1_0 ∧
      (latched m i).running = m.running ∧ (latched m i).stepIndexRun = m.stepIndexRun ∧
      (latched m i).clockIgnoreOnReset = m.clockIgnoreOnReset := by
  unfold latched
  split_ifs <;> exact ⟨rfl, rfl, rfl, rfl, rfl⟩

theorem latched_of_gate (m : ComposerModule) (i : Fin 16)
    (h : (m.composer.attributes i).getGate = true) :
    latched m i = { m with
      currentCv := m.composer.notes i + m.composer.octaves i + m.composer.transposes
      currentAccent := (m.composer.attributes i).getAccent
      currentSlide := (m.composer.attributes i).getSlide } := by
  unfold latched
  rw [if_pos h]

theorem latched_of_no_gate (m : ComposerModule) (i : Fin 16)
    (h : (m.composer.attributes i).getGate = false) : latched m i = m := by
  unfold latched
  rw [if_neg (by rw [h]; exact Bool.false_ne_true)]

/-- The resolver with the cursor on step `i` while running: the latch, then the outputs. -/
theorem resolve_fin (m : ComposerModule) (s : Sample) (i : Fin 16)
    (hrun : m.running = true) (hi : m.stepIndexRun = (i.val : Int)) :
    resolve m s = .ok
      { latched m i with
        cvOutput := if (latched m i).currentSlide then s.lastSample else (latched m i).currentCv
        gateOutput := if gateAt m i (clockHigh s) && m.clockIgnoreOnReset == 0 then 10 else 0
        accentOutput := if (latched m i).currentAccent then 10 else 0 } := by
  obtain ⟨hc, h1, -, hs, hk⟩ := latched_frame m i
  have hprev := readAttributes_previous (latched m i) i
  have hnext := readAttributes_next (latched m i) i
  have hcur := readAttributes_fin (latched m i) i
  unfold resolve
  rw [if_pos hrun, latch_fin m i hi]
  simp only [bind, Except.bind, pure, Except.pure, hs, hi, hprev, hnext, hcur, hk]
  simp only [gateAt, lookBehind, clockHigh, hc, h1]

theorem resolve_stopped (m : ComposerModule) (s : Sample) (hrun : m.running = false) :
    resolve m s = .ok { m with cvOutput := 0, gateOutput := 0 } := by
  unfold resolve
  simp [hrun]
  rfl

end ComposerModule

/-! ## `process` as a whole -/

namespace ComposerModule

theorem process_of_reparse {m m0 : ComposerModule} (s : Sample) (h : reparse m = .ok m0) :
    process m s = (resolve (advance m0 s) s).map countdown := by
  unfold process
  rw [h]
  show (resolve (advance m0 s) s >>= fun m => pure (countdown m)) = _
  cases hr : resolve (advance m0 s) s <;> rfl

/-- The sample with the resolver running and its cursor on step `i`. -/
theorem process_running {m m0 : ComposerModule} (s : Sample) (i : Fin 16)
    (h : reparse m = .ok m0) (hrun : (advance m0 s).running = true)
    (hi : (advance m0 s).stepIndexRun = (i.val : Int)) :
    process m s = .ok (countdown
      { latched (advance m0 s) i with
        cvOutput := if (latched (advance m0 s) i).currentSlide then s.lastSample
          else (latched (advance m0 s) i).currentCv
        gateOutput :=
          if gateAt (advance m0 s) i (clockHigh s) && (advance m0 s).clockIgnoreOnReset == 0
          then 10 else 0
        accentOutput := if (latched (advance m0 s) i).currentAccent then 10 else 0 }) := by
  rw [process_of_reparse s h, resolve_fin _ s i hrun hi]
  rfl

/-- The sample with the module stopped. -/
theorem process_stopped {m m0 : ComposerModule} (s : Sample)
    (h : reparse m = .ok m0) (hrun : (advance m0 s).running = false) :
    process m s = .ok (countdown { advance m0 s with cvOutput := 0, gateOutput := 0 }) := by
  rw [process_of_reparse s h, resolve_stopped _ s hrun]
  rfl

theorem countdown_frame (m : ComposerModule) :
    (countdown m).composer = m.composer ∧ (countdown m).running = m.running ∧
      (countdown m).stepIndexRun = m.stepIndexRun ∧ (countdown m).currentCv = m.currentCv ∧
      (countdown m).currentAccent = m.currentAccent ∧
      (countdown m).currentSlide = m.currentSlide ∧ (countdown m).cvOutput = m.cvOutput ∧
      (countdown m).gateOutput = m.gateOutput ∧ (countdown m).accentOutput = m.accentOutput ∧
      (countdown m).attributes_1_0 = m.attributes_1_0 := by
  unfold countdown
  simp only
  split_ifs <;> exact ⟨rfl, rfl, rfl, rfl, rfl, rfl, rfl, rfl, rfl, rfl⟩

theorem runButton_frame (m : ComposerModule) (s : Sample) :
    (runButton m s).composer = m.composer ∧ (runButton m s).currentCv = m.currentCv ∧
      (runButton m s).currentAccent = m.currentAccent ∧
      (runButton m s).currentSlide = m.currentSlide ∧
      (runButton m s).attributes_1_0 = m.attributes_1_0 ∧
      (runButton m s).accentOutput = m.accentOutput := by
  unfold runButton initRun
  simp only
  split_ifs <;> exact ⟨rfl, rfl, rfl, rfl, rfl, rfl⟩

theorem clock_frame (m : ComposerModule) (s : Sample) :
    (clock m s).composer = m.composer ∧ (clock m s).currentCv = m.currentCv ∧
      (clock m s).currentAccent = m.currentAccent ∧ (clock m s).currentSlide = m.currentSlide ∧
      (clock m s).attributes_1_0 = m.attributes_1_0 ∧
      (clock m s).accentOutput = m.accentOutput ∧ (clock m s).running = m.running ∧
      (clock m s).clockIgnoreOnReset = m.clockIgnoreOnReset := by
  unfold clock
  simp only
  split_ifs <;> exact ⟨rfl, rfl, rfl, rfl, rfl, rfl, rfl, rfl⟩

theorem resetButton_frame (m : ComposerModule) (s : Sample) :
    (resetButton m s).composer = m.composer ∧ (resetButton m s).currentCv = m.currentCv ∧
      (resetButton m s).currentAccent = m.currentAccent ∧
      (resetButton m s).currentSlide = m.currentSlide ∧
      (resetButton m s).attributes_1_0 = m.attributes_1_0 ∧
      (resetButton m s).accentOutput = m.accentOutput ∧
      (resetButton m s).running = m.running := by
  unfold resetButton initRun
  split_ifs <;> exact ⟨rfl, rfl, rfl, rfl, rfl, rfl, rfl⟩

/-- What the run button, the clock and the reset leave untouched. -/
theorem advance_frame (m : ComposerModule) (s : Sample) :
    (advance m s).composer = m.composer ∧ (advance m s).currentCv = m.currentCv ∧
      (advance m s).currentAccent = m.currentAccent ∧
      (advance m s).currentSlide = m.currentSlide ∧
      (advance m s).attributes_1_0 = m.attributes_1_0 ∧
      (advance m s).accentOutput = m.accentOutput := by
  obtain ⟨a1, a2, a3, a4, a5, a6⟩ := runButton_frame m s
  obtain ⟨b1, b2, b3, b4, b5, b6, -, -⟩ := clock_frame (runButton m s) s
  obtain ⟨c1, c2, c3, c4, c5, c6, -⟩ := resetButton_frame (clock (runButton m s) s) s
  unfold advance
  exact ⟨c1.trans (b1.trans a1), c2.trans (b2.trans a2), c3.trans (b3.trans a3),
    c4.trans (b4.trans a4), c5.trans (b5.trans a5), c6.trans (b6.trans a6)⟩

/-- The re-parse touches the pattern only. -/
theorem reparse_frame {m m0 : ComposerModule} (h : reparse m = .ok m0) :
    m0.currentCv = m.currentCv ∧ m0.currentAccent = m.currentAccent ∧
      m0.currentSlide = m.currentSlide ∧ m0.running = m.running ∧
      m0.stepIndexRun = m.stepIndexRun ∧ m0.clockIgnoreOnReset = m.clockIgnoreOnReset ∧
      m0.attributes_1_0 = m.attributes_1_0 ∧ m0.resetOnRun = m.resetOnRun ∧
      m0.accentOutput = m.accentOutput := by
  unfold reparse at h
  split_ifs at h with hd
  · cases hp : parseSeq m.composer with
    | error e => simp [hp, bind, Except.bind] at h
    | ok r =>
      simp only [hp, bind, Except.bind, pure, Except.pure, Except.ok.injEq] at h
      subst h
      exact ⟨rfl, rfl, rfl, rfl, rfl, rfl, rfl, rfl, rfl⟩
  · simp only [pure, Except.pure, Except.ok.injEq] at h
    subst h
    exact ⟨rfl, rfl, rfl, rfl, rfl, rfl, rfl, rfl, rfl⟩

theorem reparse_clean (m : ComposerModule) (h : m.composer.sequence.dirty = false) :
    reparse m = .ok m := by
  unfold reparse
  simp [h]
  rfl

theorem resetButton_idle (m : ComposerModule) (s : Sample) (h : s.resetTrigger = false) :
    resetButton m s = m := by
  unfold resetButton
  simp [h]

theorem runButton_idle (m : ComposerModule) (s : Sample) (h : s.runningTrigger = false) :
    runButton m s = m := by
  unfold runButton
  simp [h]

theorem runButton_step (m : ComposerModule) (s : Sample) :
    (runButton m s).stepIndexRun = m.stepIndexRun ∨ (runButton m s).stepIndexRun = 0 := by
  unfold runButton initRun
  simp only
  split_ifs
  · exact Or.inr rfl
  · exact Or.inr rfl
  · exact Or.inl rfl
  · exact Or.inl rfl

/-- The cursor after the clock block. -/
theorem clock_step (m : ComposerModule) (s : Sample) :
    (clock m s).stepIndexRun =
      if m.running = true ∧ m.clockIgnoreOnReset = 0 ∧ s.clockTrigger = true then
        (if m.stepIndexRun + 1 ≥ 16 then 0 else m.stepIndexRun + 1)
      else m.stepIndexRun := by
  unfold clock
  by_cases hr : m.running = true
  · by_cases hk : m.clockIgnoreOnReset = 0
    · by_cases hc : s.clockTrigger = true
      · simp only [hr, hk, hc, Bool.true_and, beq_self_eq_true, if_true, and_self]
        split_ifs <;> rfl
      · simp [hr, hk, hc]
    · simp [hr, hk]
  · simp [hr]

/-- Whatever the sample, the resolver finds the cursor on a step when the sample started
with it on one. -/
theorem advance_step_range (m : ComposerModule) (s : Sample)
    (hlo : 0 ≤ m.stepIndexRun) (hhi : m.stepIndexRun ≤ 15) :
    0 ≤ (advance m s).stepIndexRun ∧ (advance m s).stepIndexRun ≤ 15 := by
  have h1 : 0 ≤ (runButton m s).stepIndexRun ∧ (runButton m s).stepIndexRun ≤ 15 := by
    rcases runButton_step m s with h | h <;> rw [h] <;> omega
  have h2 : 0 ≤ (clock (runButton m s) s).stepIndexRun ∧
      (clock (runButton m s) s).stepIndexRun ≤ 15 := by
    rw [clock_step]
    split_ifs <;> omega
  unfold advance resetButton initRun
  split_ifs
  · exact ⟨le_refl _, show (0 : Int) ≤ 15 by decide⟩
  · exact h2

theorem exists_fin_of_range {x : Int} (hlo : 0 ≤ x) (hhi : x ≤ 15) :
    ∃ i : Fin 16, x = (i.val : Int) :=
  ⟨⟨x.toNat, by omega⟩, by simp only; omega⟩

/-- A sample whose resolver finds the cursor on a step, or the module stopped, goes through,
with the cursor and the run flag the resolver found. -/
theorem process_returns {m m0 : ComposerModule} (s : Sample) (h : reparse m = .ok m0)
    (hlo : 0 ≤ (advance m0 s).stepIndexRun) (hhi : (advance m0 s).stepIndexRun ≤ 15) :
    ∃ m1, process m s = .ok m1 ∧ m1.stepIndexRun = (advance m0 s).stepIndexRun ∧
      m1.running = (advance m0 s).running ∧ m1.composer = m0.composer := by
  obtain ⟨i, hi⟩ := exists_fin_of_range hlo hhi
  cases hrun : (advance m0 s).running with
  | false =>
    refine ⟨_, process_stopped s h hrun, ?_, ?_, ?_⟩
    · exact (countdown_frame _).2.2.1
    · exact (countdown_frame _).2.1.trans hrun
    · exact (countdown_frame _).1.trans (advance_frame m0 s).1
  | true =>
    obtain ⟨hc, -, hr, hs, -⟩ := latched_frame (advance m0 s) i
    refine ⟨_, process_running s i h hrun hi, ?_, ?_, ?_⟩
    · exact (countdown_frame _).2.2.1.trans hs
    · exact (countdown_frame _).2.1.trans (hr.trans hrun)
    · exact (countdown_frame _).1.trans (hc.trans (advance_frame m0 s).1)

end ComposerModule

open ComposerModule

/-- C11, as stated, fails on a sample that carries a run-button edge: on a running module
outside the ignore window with the cursor on step 3, a sample with a rising clock edge, a
run-button edge and no reset trigger stops the module before the clock block, and the cursor
stays on step 3 instead of moving to step 4. -/
theorem C11_counterexample :
    (playing (patternOf []) 3).running = true ∧
    (playing (patternOf []) 3).clockIgnoreOnReset = 0 ∧
    (playing (patternOf []) 3).stepIndexRun = 3 ∧
    ∃ m1, process (playing (patternOf []) 3)
        { runningTrigger := true, clockTrigger := true, resetTrigger := false,
          clockVoltage := 5, sampleRate := 44100, lastSample := 0 } = .ok m1 ∧
      m1.stepIndexRun = 3 ∧ m1.stepIndexRun ≠ (3 + 1) % 16 :=
  ⟨rfl, rfl, rfl, _, rfl, rfl, by decide⟩

/-- C11, amended: for every state with `0 ≤ stepIndexRun ≤ 15` and every sample without a
reset trigger and without a run-button edge, `process` returns, and with `running`,
`clockIgnoreOnReset` and `stepIndexRun` as the sample finds them: when running with
`clockIgnoreOnReset = 0`, a rising clock edge leaves `stepIndexRun` at
`(stepIndexRun + 1) mod 16`; when not running or with `clockIgnoreOnReset > 0`,
`stepIndexRun` is left as it is, clock edge or not. -/
theorem C11_clock_advances_cursor (m m0 : ComposerModule) (s : Sample)
    (hparse : reparse m = .ok m0)
    (hlo : 0 ≤ m.stepIndexRun) (hhi : m.stepIndexRun ≤ 15)
    (hreset : s.resetTrigger = false) (hbutton : s.runningTrigger = false) :
    ∃ m1, process m s = .ok m1 ∧
      (m.running = true → m.clockIgnoreOnReset = 0 → s.clockTrigger = true →
        m1.stepIndexRun = (m.stepIndexRun + 1) % 16) ∧
      ((m.running = false ∨ m.clockIgnoreOnReset > 0) →
        m1.stepIndexRun = m.stepIndexRun) := by
  obtain ⟨-, -, -, hr0, hs0, hk0, -, -, -⟩ := reparse_frame hparse
  have hr := advance_step_range m0 s (by rw [hs0]; exact hlo) (by rw [hs0]; exact hhi)
  obtain ⟨m1, hp, hstep, -, -⟩ := process_returns s hparse hr.1 hr.2
  have hadv : (advance m0 s).stepIndexRun = (clock m0 s).stepIndexRun := by
    unfold advance
    rw [resetButton_idle _ s hreset, runButton_idle m0 s hbutton]
  refine ⟨m1, hp, ?_, ?_⟩
  · intro h1 h2 h3
    rw [hstep, hadv, clock_step, if_pos ⟨hr0.trans h1, hk0.trans h2, h3⟩, hs0]
    split_ifs <;> omega
  · intro h
    rw [hstep, hadv, clock_step]
    have : ¬ (m0.running = true ∧ m0.clockIgnoreOnReset = 0 ∧ s.clockTrigger = true) := by
      rintro ⟨h1, h2, -⟩
      rw [hr0] at h1
      rw [hk0] at h2
      rcases h with h | h
      · rw [h1] at h
        cases h
      · omega
    rw [if_neg this, hs0]

/-- C11 amended, with the cursor on step 15 of a running module outside the ignore window: a
clock edge wraps it to step 0. -/
theorem C11_witness :
    ∃ m1, process (playing (patternOf []) 15) (tick true 5) = .ok m1 ∧ m1.stepIndexRun = 0 :=
  (C11_clock_advances_cursor (playing (patternOf []) 15) (playing (patternOf []) 15)
    (tick true 5) rfl (by decide) (by decide) rfl rfl).elim
    fun m1 hm => ⟨m1, hm.1, (hm.2.1 rfl rfl rfl).trans (by decide)⟩

/-- C12: for every sample that `process` resolves while running with the cursor on a step
`i`: if step `i` has Gate set, `currentCv` becomes `notes[i] + octaves[i] + transposes[0]`,
`currentAccent` the step's Accent flag and `currentSlide` its Slide flag; if it has not,
the three keep the values they had before the sample. -/
theorem C12_latch_on_gate (m m0 : ComposerModule) (s : Sample) (i : Fin 16)
    (hparse : reparse m = .ok m0)
    (hrun : (advance m0 s).running = true)
    (hcur : (advance m0 s).stepIndexRun = (i.val : Int)) :
    ∃ m1, process m s = .ok m1 ∧ m1.composer = m0.composer ∧
      ((m0.composer.attributes i).getGate = true →
        m1.currentCv = m0.composer.notes i + m0.composer.octaves i + m0.composer.transposes ∧
        m1.currentAccent = (m0.composer.attributes i).getAccent ∧
        m1.currentSlide = (m0.composer.attributes i).getSlide) ∧
      ((m0.composer.attributes i).getGate = false →
        m1.currentCv = m.currentCv ∧ m1.currentAccent = m.currentAccent ∧
        m1.currentSlide = m.currentSlide) := by
  obtain ⟨p1, p2, p3, -, -, -, -, -, -⟩ := reparse_frame hparse
  obtain ⟨a1, a2, a3, a4, -, -⟩ := advance_frame m0 s
  obtain ⟨c1, -, -, c4, c5, c6, -, -, -, -⟩ := countdown_frame
    { latched (advance m0 s) i with
      cvOutput := if (latched (advance m0 s) i).currentSlide then s.lastSample
        else (latched (advance m0 s) i).currentCv
      gateOutput :=
        if gateAt (advance m0 s) i (clockHigh s) && (advance m0 s).clockIgnoreOnReset == 0
        then 10 else 0
      accentOutput := if (latched (advance m0 s) i).currentAccent then 10 else 0 }
  refine ⟨_, process_running s i hparse hrun hcur, ?_, ?_, ?_⟩
  · rw [c1]
    exact (latched_frame _ i).1.trans a1
  · intro hg
    rw [c4, c5, c6, latched_of_gate _ i (by rw [a1]; exact hg), a1]
    exact ⟨rfl, rfl, rfl⟩
  · intro hg
    rw [c4, c5, c6, latched_of_no_gate _ i (by rw [a1]; exact hg)]
    exact ⟨a2.trans p1, a3.trans p2, a4.trans p3⟩

/-- C12, on a pattern whose step 0 is a gate with accent (word 0x05) and whose step 1 is a
rest: on step 0 the latch takes the step's values, on step 1 it keeps the earlier ones. -/
theorem C12_witness :
    (∃ m1, process (playing (patternOf [0x05, 0]) 0) (tick false 0) = .ok m1 ∧
      m1.currentCv = (patternOf [0x05, 0]).notes 0 + (patternOf [0x05, 0]).octaves 0
        + (patternOf [0x05, 0]).transposes ∧
      m1.currentAccent = true ∧ m1.currentSlide = false) ∧
    (∃ m1, process (playing (patternOf [0x05, 0]) 1) (tick false 0) = .ok m1 ∧
      m1.currentCv = (playing (patternOf [0x05, 0]) 1).currentCv ∧
      m1.currentAccent = (playing (patternOf [0x05, 0]) 1).currentAccent ∧
      m1.currentSlide = (playing (patternOf [0x05, 0]) 1).currentSlide) :=
  ⟨(C12_latch_on_gate (playing (patternOf [0x05, 0]) 0) (playing (patternOf [0x05, 0]) 0)
      (tick false 0) 0 rfl rfl rfl).elim
      fun m1 hm => ⟨m1, hm.1, (hm.2.2.1 (by decide)).1,
        (hm.2.2.1 (by decide)).2.1.trans (by decide),
        (hm.2.2.1 (by decide)).2.2.trans (by decide)⟩,
    (C12_latch_on_gate (playing (patternOf [0x05, 0]) 1) (playing (patternOf [0x05, 0]) 1)
      (tick false 0) 1 rfl rfl rfl).elim
      fun m1 hm => ⟨m1, hm.1, hm.2.2.2 (by decide)⟩⟩

/-! ## The gate rules -/

namespace ComposerModule

/-- A step with Gate set and Tie clear: high before a tie or a slide, else the clock. -/
theorem resolveGate_gate (isSlide pG pT pS nT nS clock : Bool) :
    resolveGate true false isSlide pG pT pS nT nS clock = (nT || nS || clock) := by
  cases isSlide <;> cases pG <;> cases pT <;> cases pS <;> cases nT <;> cases nS <;>
    cases clock <;> rfl

/-- A rest: low. -/
theorem resolveGate_rest (pG pT pS nT nS clock : Bool) :
    resolveGate false false false pG pT pS nT nS clock = false := by
  cases pG <;> cases pT <;> cases pS <;> cases nT <;> cases nS <;> cases clock <;> rfl

/-- A tie behind a step with Gate set: high before a tie or a slide, else the clock. -/
theorem resolveGate_tie_after_gate (isGate isSlide pT pS nT nS clock : Bool) :
    resolveGate isGate true isSlide true pT pS nT nS clock = (nT || nS || clock) := by
  cases isGate <;> cases isSlide <;> cases pT <;> cases pS <;> cases nT <;> cases nS <;>
    cases clock <;> rfl

/-- A tie behind a tie: high before another tie, else the clock. -/
theorem resolveGate_tie_after_tie (nT nS clock : Bool) :
    resolveGate false true false false true false nT nS clock = (nT || clock) := by
  cases nT <;> cases nS <;> cases clock <;> rfl

/-- A tie behind a rest: low. -/
theorem resolveGate_tie_after_rest (nT nS clock : Bool) :
    resolveGate false true false false false false nT nS clock = false := by
  cases nT <;> cases nS <;> cases clock <;> rfl

theorem gateAt_congr {m m1 : ComposerModule} (hc : m1.composer = m.composer)
    (h1 : m1.attributes_1_0 = m.attributes_1_0) (i : Fin 16) (clock : Bool) :
    gateAt m1 i clock = gateAt m i clock := by
  unfold gateAt lookBehind
  rw [hc, h1]

theorem lookBehind_of_pos (m : ComposerModule) (i : Fin 16) (h : 0 < i.val) :
    lookBehind m i = m.composer.attributes (i - 1) := by
  unfold lookBehind
  rw [if_neg (by omega)]

/-- The Gate output of a sample resolved while running outside the ignore window, with the
cursor on step `i`: 10 V when `bool gate` is set. -/
theorem process_gateOutput {m m0 : ComposerModule} (s : Sample) (i : Fin 16)
    (hparse : reparse m = .ok m0)
    (hrun : (advance m0 s).running = true)
    (hwin : (advance m0 s).clockIgnoreOnReset = 0)
    (hcur : (advance m0 s).stepIndexRun = (i.val : Int)) :
    ∃ m1, process m s = .ok m1 ∧
      m1.gateOutput = if gateAt m0 i (clockHigh s) = true then 10 else 0 := by
  obtain ⟨a1, -, -, -, a5, -⟩ := advance_frame m0 s
  refine ⟨_, process_running s i hparse hrun hcur, ?_⟩
  rw [(countdown_frame _).2.2.2.2.2.2.2.1]
  show (if (gateAt (advance m0 s) i (clockHigh s) && (advance m0 s).clockIgnoreOnReset == 0)
      = true then (10 : ℚ) else 0) = _
  rw [hwin, gateAt_congr a1 a5]
  simp

theorem clockHigh_ite (s : Sample) :
    (if clockHigh s = true then (10 : ℚ) else 0) = if s.clockVoltage > 1 / 10 then 10 else 0 := by
  unfold clockHigh
  simp

end ComposerModule

/-- C19: while `process` resolves a sample running with `clockIgnoreOnReset = 0` and the
cursor on a step `i` of 0..15: if step `i` has Gate set and Tie clear, the Gate output is 10 V
whatever the clock when step `(i + 1) mod 16` has Tie or Slide set, and otherwise 10 V
exactly when the clock input is above 0.1 V (else 0); if step `i` has none of Gate, Tie and
Slide set, the Gate output is 0. -/
theorem C19_gate_step_output (m m0 : ComposerModule) (s : Sample) (i : Fin 16)
    (hparse : reparse m = .ok m0)
    (hrun : (advance m0 s).running = true)
    (hwin : (advance m0 s).clockIgnoreOnReset = 0)
    (hcur : (advance m0 s).stepIndexRun = (i.val : Int)) :
    ∃ m1, process m s = .ok m1 ∧
      ((m0.composer.attributes i).getGate = true → (m0.composer.attributes i).getTie = false →
        (((m0.composer.attributes (i + 1)).getTie = true ∨
            (m0.composer.attributes (i + 1)).getSlide = true) → m1.gateOutput = 10) ∧
        ((m0.composer.attributes (i + 1)).getTie = false →
          (m0.composer.attributes (i + 1)).getSlide = false →
          m1.gateOutput = if s.clockVoltage > 1 / 10 then 10 else 0)) ∧
      (IsRest (m0.composer.attributes i) → m1.gateOutput = 0) := by
  obtain ⟨m1, hp, hg⟩ := process_gateOutput s i hparse hrun hwin hcur
  refine ⟨m1, hp, ?_, ?_⟩
  · intro h1 h2
    have e : gateAt m0 i (clockHigh s) =
        ((m0.composer.attributes (i + 1)).getTie || (m0.composer.attributes (i + 1)).getSlide
          || clockHigh s) := by
      unfold gateAt
      rw [h1, h2, resolveGate_gate]
    refine ⟨?_, ?_⟩
    · intro h
      rw [hg, e]
      rcases h with h | h <;> simp [h]
    · intro h3 h4
      rw [hg, e, h3, h4, ← clockHigh_ite]
      simp
  · rintro ⟨h1, h2, h3⟩
    have e : gateAt m0 i (clockHigh s) = false := by
      unfold gateAt
      rw [h1, h2, h3, resolveGate_rest]
    rw [hg, e]
    simp

/-- C19, on a pattern of a gate (0x01), a gate with slide (0x09), a gate and a rest: on step
0 the next step slides and the Gate output is high with the clock low; on step 2 the next
step is a rest and the output follows the clock; on step 3, a rest, it is 0. -/
theorem C19_witness :
    (∃ m1, process (playing (patternOf [0x01, 0x09, 0x01, 0]) 0) (tick false 0) = .ok m1 ∧
      m1.gateOutput = 10) ∧
    (∃ m1, process (playing (patternOf [0x01, 0x09, 0x01, 0]) 2) (tick false 5) = .ok m1 ∧
      m1.gateOutput = if (tick false 5).clockVoltage > 1 / 10 then 10 else 0) ∧
    (∃ m1, process (playing (patternOf [0x01, 0x09, 0x01, 0]) 3) (tick false 5) = .ok m1 ∧
      m1.gateOutput = 0) :=
  ⟨(C19_gate_step_output (playing (patternOf [0x01, 0x09, 0x01, 0]) 0)
      (playing (patternOf [0x01, 0x09, 0x01, 0]) 0) (tick false 0) 0 rfl rfl rfl rfl).elim
      fun m1 hm => ⟨m1, hm.1, (hm.2.1 (by decide) (by decide)).1 (Or.inr (by decide))⟩,
    (C19_gate_step_output (playing (patternOf [0x01, 0x09, 0x01, 0]) 2)
      (playing (patternOf [0x01, 0x09, 0x01, 0]) 2) (tick false 5) 2 rfl rfl rfl rfl).elim
      fun m1 hm => ⟨m1, hm.1, (hm.2.1 (by decide) (by decide)).2 (by decide) (by decide)⟩,
    (C19_gate_step_output (playing (patternOf [0x01, 0x09, 0x01, 0]) 3)
      (playing (patternOf [0x01, 0x09, 0x01, 0]) 3) (tick false 5) 3 rfl rfl rfl rfl).elim
      fun m1 hm => ⟨m1, hm.1, hm.2.2 (by decide)⟩⟩

/-- C20: while `process` resolves a sample running with `clockIgnoreOnReset = 0` and the
cursor on a step `i` of 1..15 that is a Tie (Tie set, the other flags clear, as `setTie`
leaves a step): if step `i - 1` has Gate set, the Gate output is 10 V when step
`(i + 1) mod 16` has Tie or Slide set and otherwise follows the clock (10 V exactly when the
clock input is above 0.1 V); if step `i - 1` is itself a Tie, the output is 10 V when the
next step has Tie set and otherwise follows the clock; if step `i - 1` is a rest (none of
Gate, Tie, Slide), the output is 0. -/
theorem C20_tie_step_output (m m0 : ComposerModule) (s : Sample) (i : Fin 16)
    (hparse : reparse m = .ok m0)
    (hrun : (advance m0 s).running = true)
    (hwin : (advance m0 s).clockIgnoreOnReset = 0)
    (hcur : (advance m0 s).stepIndexRun = (i.val : Int))
    (hpos : 0 < i.val)
    (htie : IsTieStep (m0.composer.attributes i)) :
    ∃ m1, process m s = .ok m1 ∧
      ((m0.composer.attributes (i - 1)).getGate = true →
        (((m0.composer.attributes (i + 1)).getTie = true ∨
            (m0.composer.attributes (i + 1)).getSlide = true) → m1.gateOutput = 10) ∧
        ((m0.composer.attributes (i + 1)).getTie = false →
          (m0.composer.attributes (i + 1)).getSlide = false →
          m1.gateOutput = if s.clockVoltage > 1 / 10 then 10 else 0)) ∧
      (IsTieStep (m0.composer.attributes (i - 1)) →
        ((m0.composer.attributes (i + 1)).getTie = true → m1.gateOutput = 10) ∧
        ((m0.composer.attributes (i + 1)).getTie = false →
          m1.gateOutput = if s.clockVoltage > 1 / 10 then 10 else 0)) ∧
      (IsRest (m0.composer.attributes (i - 1)) → m1.gateOutput = 0) := by
  obtain ⟨m1, hp, hg⟩ := process_gateOutput s i hparse hrun hwin hcur
  obtain ⟨t1, t2, -, t4⟩ := htie
  refine ⟨m1, hp, ?_, ?_, ?_⟩
  · intro h1
    have e : gateAt m0 i (clockHigh s) =
        ((m0.composer.attributes (i + 1)).getTie || (m0.composer.attributes (i + 1)).getSlide
          || clockHigh s) := by
      unfold gateAt
      rw [lookBehind_of_pos m0 i hpos, t1, h1, resolveGate_tie_after_gate]
    refine ⟨?_, ?_⟩
    · intro h
      rw [hg, e]
      rcases h with h | h <;> simp [h]
    · intro h3 h4
      rw [hg, e, h3, h4, ← clockHigh_ite]
      simp
  · rintro ⟨p1, p2, -, p4⟩
    have e : gateAt m0 i (clockHigh s) =
        ((m0.composer.attributes (i + 1)).getTie || clockHigh s) := by
      unfold gateAt
      rw [lookBehind_of_pos m0 i hpos, t1, t2, t4, p1, p2, p4, resolveGate_tie_after_tie]
    refine ⟨?_, ?_⟩
    · intro h
      rw [hg, e, h]
      simp
    · intro h
      rw [hg, e, h, ← clockHigh_ite]
      simp
  · rintro ⟨p1, p2, p3⟩
    have e : gateAt m0 i (clockHigh s) = false := by
      unfold gateAt
      rw [lookBehind_of_pos m0 i hpos, t1, t2, t4, p1, p2, p3, resolveGate_tie_after_rest]
    rw [hg, e]
    simp

/-- C20, on a pattern of a gate (0x01), two ties (0x10), a rest and a tie: on step 1, the
first tie after the gate, another tie follows and the Gate output is high with the clock low;
on step 2, a tie after a tie with a rest next, it follows the clock; on step 4, a tie after
a rest, it is 0. -/
theorem C20_witness :
    (∃ m1, process (playing (patternOf [0x01, 0x10, 0x10, 0, 0x10]) 1) (tick false 0) = .ok m1 ∧
      m1.gateOutput = 10) ∧
    (∃ m1, process (playing (patternOf [0x01, 0x10, 0x10, 0, 0x10]) 2) (tick false 5) = .ok m1 ∧
      m1.gateOutput = if (tick false 5).clockVoltage > 1 / 10 then 10 else 0) ∧
    (∃ m1, process (playing (patternOf [0x01, 0x10, 0x10, 0, 0x10]) 4) (tick false 5) = .ok m1 ∧
      m1.gateOutput = 0) :=
  ⟨(C20_tie_step_output (playing (patternOf [0x01, 0x10, 0x10, 0, 0x10]) 1)
      (playing (patternOf [0x01, 0x10, 0x10, 0, 0x10]) 1) (tick false 0) 1 rfl rfl rfl rfl
      (by decide) (by decide)).elim
      fun m1 hm => ⟨m1, hm.1, (hm.2.1 (by decide)).1 (Or.inl (by decide))⟩,
    (C20_tie_step_output (playing (patternOf [0x01, 0x10, 0x10, 0, 0x10]) 2)
      (playing (patternOf [0x01, 0x10, 0x10, 0, 0x10]) 2) (tick false 5) 2 rfl rfl rfl rfl
      (by decide) (by decide)).elim
      fun m1 hm => ⟨m1, hm.1, (hm.2.2.1 (by decide)).2 (by decide)⟩,
    (C20_tie_step_output (playing (patternOf [0x01, 0x10, 0x10, 0, 0x10]) 4)
      (playing (patternOf [0x01, 0x10, 0x10, 0, 0x10]) 4) (tick false 5) 4 rfl rfl rfl rfl
      (by decide) (by decide)).elim
      fun m1 hm => ⟨m1, hm.1, hm.2.2.2 (by decide)⟩⟩

/-! ## The envelope generator -/

namespace Envelope3Generator

theorem processN_succ (dt : ℚ) (n : Nat) (e : Envelope3Generator) :
    processN dt (n + 1) e = process (processN dt n e) dt := by
  induction n generalizing e with
  | zero => rfl
  | succ n ih =>
    show processN dt (n + 1) (process e dt) = _
    rw [ih]
    rfl

/-- One call of `process` in `RELEASE` that does not fall below 0. -/
theorem process_release_of_nonneg (e : Envelope3Generator) (dt : ℚ)
    (hs : e.stage = Stage.RELEASE)
    (h : 0 ≤ e.value + COEFF * dt * (e.target - e.value) / (6 / 1000)) :
    process e dt
      = { e with value := e.value + COEFF * dt * (e.target - e.value) / (6 / 1000) } := by
  unfold process
  simp only [hs, IDLE_EPS]
  simp only [reduceCtorEq, if_false, or_true, if_true]
  rw [if_neg (not_lt.mpr h)]

/-- A release that finds the target above the value moves the value towards that target and
stays in `RELEASE`. -/
theorem release_towards_target (e : Envelope3Generator) (dt : ℚ)
    (hs : e.stage = Stage.RELEASE) (h0 : 0 ≤ e.value) (h1 : e.value ≤ e.target)
    (hdt : 0 < COEFF * dt) (hdt2 : COEFF * dt ≤ 6 / 1000) :
    (process e dt).stage = Stage.RELEASE ∧ (process e dt).target = e.target ∧
      e.value ≤ (process e dt).value ∧ (process e dt).value ≤ e.target ∧
      (process e dt).attack_time = e.attack_time ∧
      (process e dt).decay_time = e.decay_time := by
  have hk : COEFF * dt * (e.target - e.value) / (6 / 1000)
      = (COEFF * dt / (6 / 1000)) * (e.target - e.value) := by ring
  have hk0 : 0 < COEFF * dt / (6 / 1000) := div_pos hdt (by norm_num)
  have hk1 : COEFF * dt / (6 / 1000) ≤ 1 := by
    rw [div_le_one (by norm_num)]
    exact hdt2
  have hd : 0 ≤ e.target - e.value := sub_nonneg.mpr h1
  have hinc : 0 ≤ (COEFF * dt / (6 / 1000)) * (e.target - e.value) :=
    mul_nonneg hk0.le hd
  have hle : (COEFF * dt / (6 / 1000)) * (e.target - e.value) ≤ e.target - e.value := by
    calc (COEFF * dt / (6 / 1000)) * (e.target - e.value)
        ≤ 1 * (e.target - e.value) := mul_le_mul_of_nonneg_right hk1 hd
      _ = e.target - e.value := one_mul _
  rw [process_release_of_nonneg e dt hs (by rw [hk]; linarith)]
  refine ⟨hs, rfl, ?_, ?_, rfl, rfl⟩
  · show e.value ≤ e.value + COEFF * dt * (e.target - e.value) / (6 / 1000)
    rw [hk]
    linarith
  · show e.value + COEFF * dt * (e.target - e.value) / (6 / 1000) ≤ e.target
    rw [hk]
    linarith

end Envelope3Generator

/-- C14: for every envelope in stage `ATTACK`, `trigger()` changes nothing (stage, target,
value, `attack_triggered`, `decay_triggered` and the two times are as before); for every
envelope in another stage, `trigger()` sets the stage to `ATTACK`, the target to the
overshoot 1.15 and `attack_triggered` to true, and leaves the value (and `decay_triggered`
and the two times) unchanged. -/
theorem C14_trigger (e : Envelope3Generator) :
    (e.stage = Stage.ATTACK → e.trigger = e) ∧
    (e.stage ≠ Stage.ATTACK →
      e.trigger.stage = Stage.ATTACK ∧ e.trigger.target = 115 / 100 ∧
      e.trigger.attack_triggered = true ∧ e.trigger.value = e.value ∧
      e.trigger.decay_triggered = e.decay_triggered ∧
      e.trigger.attack_time = e.attack_time ∧ e.trigger.decay_time = e.decay_time) := by
  unfold Envelope3Generator.trigger
  refine ⟨fun h => by rw [if_pos h], fun h => ?_⟩
  rw [if_neg h]
  exact ⟨rfl, rfl, rfl, rfl, rfl, rfl, rfl⟩

/-- C14, in the middle of an attack (value 1/2) and in a decay (value 3/4). -/
theorem C14_witness :
    Envelope3Generator.trigger
        { stage := Stage.ATTACK, value := 1 / 2, target := 115 / 100, attack_triggered := false }
      = { stage := Stage.ATTACK, value := 1 / 2, target := 115 / 100, attack_triggered := false } ∧
    (Envelope3Generator.trigger
        { stage := Stage.DECAY, value := 3 / 4, target := -15 / 100 }).stage = Stage.ATTACK ∧
    (Envelope3Generator.trigger
        { stage := Stage.DECAY, value := 3 / 4, target := -15 / 100 }).target = 115 / 100 ∧
    (Envelope3Generator.trigger
        { stage := Stage.DECAY, value := 3 / 4, target := -15 / 100 }).value = 3 / 4 :=
  ⟨(C14_trigger
      { stage := Stage.ATTACK, value := 1 / 2, target := 115 / 100, attack_triggered := false }).1
      rfl,
    ((C14_trigger { stage := Stage.DECAY, value := 3 / 4, target := -15 / 100 }).2
      (by decide)).1,
    ((C14_trigger { stage := Stage.DECAY, value := 3 / 4, target := -15 / 100 }).2
      (by decide)).2.1,
    ((C14_trigger { stage := Stage.DECAY, value := 3 / 4, target := -15 / 100 }).2
      (by decide)).2.2.2.1⟩

/-- C15 fails from `ATTACK`: `release()` only sets the stage, so the target is still the
overshoot 1.15 that `trigger()` set. For every envelope with that target (every envelope in
`ATTACK` has it) and a value in [0, 1.15], and every `dt` with `0 < COEFF*dt ≤ 0.006`, after
`release()` every number of `process(dt)` calls finds the stage `RELEASE`, never `IDLE`, and
the value at or above where it was, moving up to 1.15 instead of down to 0. -/
theorem C15_release_from_attack_never_idle (e : Envelope3Generator) (dt : ℚ)
    (ht : e.target = Envelope3Generator.OVERSHOOT)
    (h0 : 0 ≤ e.value) (h1 : e.value ≤ Envelope3Generator.OVERSHOOT)
    (hdt : 0 < Envelope3Generator.COEFF * dt) (hdt2 : Envelope3Generator.COEFF * dt ≤ 6 / 1000)
    (n : Nat) :
    (Envelope3Generator.processN dt n e.release).stage = Stage.RELEASE ∧
      e.value ≤ (Envelope3Generator.processN dt n e.release).value ∧
      (Envelope3Generator.processN dt n e.release).value ≤ Envelope3Generator.OVERSHOOT := by
  have key : (Envelope3Generator.processN dt n e.release).stage = Stage.RELEASE ∧
      (Envelope3Generator.processN dt n e.release).target = Envelope3Generator.OVERSHOOT ∧
      e.value ≤ (Envelope3Generator.processN dt n e.release).value ∧
      (Envelope3Generator.processN dt n e.release).value ≤ Envelope3Generator.OVERSHOOT := by
    induction n with
    | zero => exact ⟨rfl, ht, le_refl _, h1⟩
    | succ n ih =>
      obtain ⟨i1, i2, i3, i4⟩ := ih
      rw [Envelope3Generator.processN_succ]
      obtain ⟨r1, r2, r3, r4, -, -⟩ := Envelope3Generator.release_towards_target _ dt i1
        (le_trans h0 i3) (by rw [i2]; exact i4) hdt hdt2
      exact ⟨r1, r2.trans i2, le_trans i3 r3, by rw [← i2]; exact r4⟩
  exact ⟨key.1, key.2.2.1, key.2.2.2⟩

/-- C15 fails, at the envelope triggered from reset (stage `ATTACK`, value 0) and released
at once, with the sample period of 48 kHz: after 1000 calls of `process` the stage is still
`RELEASE`. -/
theorem C15_witness :
    (Envelope3Generator.trigger (Envelope3Generator.reset {})).stage = Stage.ATTACK ∧
    (Envelope3Generator.processN (1 / 48000) 1000
      (Envelope3Generator.release (Envelope3Generator.trigger (Envelope3Generator.reset {})))).stage
        = Stage.RELEASE :=
  ⟨rfl, (C15_release_from_attack_never_idle
    (Envelope3Generator.trigger (Envelope3Generator.reset {})) (1 / 48000) rfl
    (le_refl _) (show (0 : ℚ) ≤ 115 / 100 by norm_num)
    (by norm_num [Envelope3Generator.COEFF]) (by norm_num [Envelope3Generator.COEFF]) 1000).1⟩

/-! ## The attack: convergence to 1.0 -/

theorem attackCurve_zero (k : ℚ) : attackCurve k 0 = 0 := by
  simp [attackCurve]

theorem attackCurve_succ (k : ℚ) (n : Nat) :
    attackCurve k (n + 1)
      = attackCurve k n + k * (Envelope3Generator.OVERSHOOT - attackCurve k n) := by
  unfold attackCurve
  rw [pow_succ]
  ring

/-- The bound `exp(-1.1 * COEFF) < 3/23`, through `(1 + c/16)^16 ≤ exp c`. -/
theorem exp_neg_coeff_bound :
    Real.exp (-(11 / 10 * (203688192726 / 100000000000 : ℝ))) < 3 / 23 := by
  have hc : (0 : ℝ) ≤ 11 / 10 * (203688192726 / 100000000000 : ℝ) / 16 := by norm_num
  have h1 : 1 + 11 / 10 * (203688192726 / 100000000000 : ℝ) / 16
      ≤ Real.exp (11 / 10 * (203688192726 / 100000000000 : ℝ) / 16) := by
    have := Real.add_one_le_exp (11 / 10 * (203688192726 / 100000000000 : ℝ) / 16)
    linarith
  have h2 : (1 + 11 / 10 * (203688192726 / 100000000000 : ℝ) / 16) ^ 16
      ≤ Real.exp (11 / 10 * (203688192726 / 100000000000 : ℝ) / 16) ^ 16 :=
    pow_le_pow_left₀ (by linarith) h1 16
  have h3 : Real.exp (11 / 10 * (203688192726 / 100000000000 : ℝ) / 16) ^ 16
      = Real.exp (11 / 10 * (203688192726 / 100000000000 : ℝ)) := by
    rw [← Real.exp_nat_mul]
    congr 1
    ring
  have h4 : (23 / 3 : ℝ) < (1 + 11 / 10 * (203688192726 / 100000000000 : ℝ) / 16) ^ 16 := by
    norm_num
  have h5 : (23 / 3 : ℝ) < Real.exp (11 / 10 * (203688192726 / 100000000000 : ℝ)) := by
    calc (23 / 3 : ℝ) < _ := h4
      _ ≤ _ := h2
      _ = _ := h3
  rw [Real.exp_neg]
  have hpos : (0 : ℝ) < Real.exp (11 / 10 * (203688192726 / 100000000000 : ℝ)) :=
    Real.exp_pos _
  rw [inv_lt_comm₀ hpos (by norm_num)]
  calc (3 / 23 : ℝ)⁻¹ = 23 / 3 := by norm_num
    _ < _ := h5

/-- Once `n * k` exceeds `1.1 * COEFF`, the curve is above 1.0. -/
theorem attackCurve_crosses (k : ℚ) (n : Nat) (hk0 : 0 < k) (hk1 : k ≤ 1)
    (hn : 11 / 10 * Envelope3Generator.COEFF < n * k) : 1 < attackCurve k n := by
  have hkr0 : (0 : ℝ) < (k : ℝ) := by exact_mod_cast hk0
  have hkr1 : (k : ℝ) ≤ 1 := by exact_mod_cast hk1
  have hnr : 11 / 10 * (203688192726 / 100000000000 : ℝ) < (n : ℝ) * (k : ℝ) := by
    have : ((11 / 10 * Envelope3Generator.COEFF : ℚ) : ℝ) < ((n * k : ℚ) : ℝ) := by
      exact_mod_cast hn
    simpa [Envelope3Generator.COEFF] using this
  have h1 : (1 - (k : ℝ)) ≤ Real.exp (-(k : ℝ)) := by
    have := Real.add_one_le_exp (-(k : ℝ))
    linarith
  have h2 : (1 - (k : ℝ)) ^ n ≤ Real.exp (-(k : ℝ)) ^ n :=
    pow_le_pow_left₀ (by linarith) h1 n
  have h3 : Real.exp (-(k : ℝ)) ^ n = Real.exp ((n : ℝ) * -(k : ℝ)) :=
    (Real.exp_nat_mul _ _).symm
  have h4 : Real.exp ((n : ℝ) * -(k : ℝ))
      < Real.exp (-(11 / 10 * (203688192726 / 100000000000 : ℝ))) :=
    Real.exp_lt_exp.mpr (by linarith)
  have h5 : (1 - (k : ℝ)) ^ n < 3 / 23 := by
    calc (1 - (k : ℝ)) ^ n ≤ _ := h2
      _ = _ := h3
      _ < _ := h4
      _ < 3 / 23 := exp_neg_coeff_bound
  have h6 : (1 - k) ^ n < (3 / 23 : ℚ) := by
    have : (((1 - k) ^ n : ℚ) : ℝ) < ((3 / 23 : ℚ) : ℝ) := by
      push_cast
      exact h5
    exact_mod_cast this
  unfold attackCurve Envelope3Generator.OVERSHOOT
  linarith

namespace Envelope3Generator

/-- One call of `process` in `ATTACK` that stays at or below 1.0. -/
theorem process_attack_below (e : Envelope3Generator) (dt : ℚ) (hs : e.stage = Stage.ATTACK)
    (h : e.value + COEFF * dt * (e.target - e.value) / e.attack_time ≤ 1) :
    process e dt
      = { e with value := e.value + COEFF * dt * (e.target - e.value) / e.attack_time } := by
  unfold process
  simp only [hs]
  simp only [reduceCtorEq, if_false, if_true]
  rw [if_neg (not_lt.mpr h)]

/-- One call of `process` in `ATTACK` that crosses 1.0. -/
theorem process_attack_crossing (e : Envelope3Generator) (dt : ℚ) (hs : e.stage = Stage.ATTACK)
    (h : 1 < e.value + COEFF * dt * (e.target - e.value) / e.attack_time) :
    process e dt
      = { e with
          value := 1
          target := 1 - OVERSHOOT
          stage := Stage.DECAY
          decay_triggered := true } := by
  unfold process
  simp only [hs]
  simp only [reduceCtorEq, if_false, if_true]
  rw [if_pos h]

/-- While the curve stays at or below 1.0, the attack from value 0 follows it. -/
theorem processN_attack (e : Envelope3Generator) (dt : ℚ) (hs : e.stage = Stage.ATTACK)
    (ht : e.target = OVERSHOOT) (hv : e.value = 0) :
    ∀ j : Nat, (∀ i, i ≤ j → attackCurve (COEFF * dt / e.attack_time) i ≤ 1) →
      processN dt j e = { e with value := attackCurve (COEFF * dt / e.attack_time) j } := by
  intro j
  induction j with
  | zero =>
    intro _
    rw [attackCurve_zero, ← hv]
    rfl
  | succ j ih =>
    intro h
    have hj := ih (fun i hi => h i (Nat.le_succ_of_le hi))
    have hstep : attackCurve (COEFF * dt / e.attack_time) j
        + COEFF * dt * (e.target - attackCurve (COEFF * dt / e.attack_time) j) / e.attack_time
        = attackCurve (COEFF * dt / e.attack_time) (j + 1) := by
      rw [attackCurve_succ, ht]
      ring
    have hb := process_attack_below
      ({ e with value := attackCurve (COEFF * dt / e.attack_time) j } : Envelope3Generator) dt hs
      (by
        show attackCurve (COEFF * dt / e.attack_time) j
          + COEFF * dt * (e.target - attackCurve (COEFF * dt / e.attack_time) j) / e.attack_time
          ≤ 1
        rw [hstep]
        exact h (j + 1) (le_refl _))
    rw [processN_succ, hj, hb]
    show ({ e with value := attackCurve (COEFF * dt / e.attack_time) j
      + COEFF * dt * (e.target - attackCurve (COEFF * dt / e.attack_time) j) / e.attack_time }
      : Envelope3Generator) = _
    rw [hstep]

theorem trigger_reset (e : Envelope3Generator) :
    e.reset.trigger.stage = Stage.ATTACK ∧ e.reset.trigger.target = OVERSHOOT ∧
      e.reset.trigger.value = 0 ∧ e.reset.trigger.attack_time = e.attack_time := by
  have h : e.reset.trigger
      = { e.reset with target := OVERSHOOT, stage := Stage.ATTACK, attack_triggered := true } := by
    unfold trigger
    rw [if_neg (by
      show ¬ Stage.IDLE = Stage.ATTACK
      decide)]
  rw [h]
  exact ⟨rfl, rfl, rfl, rfl⟩

theorem COEFF_pos : 0 < COEFF := by
  unfold COEFF
  norm_num

end Envelope3Generator

/-- The attack curve in exact arithmetic: for every attack time `T > 0` and every `dt > 0`
with `COEFF*dt ≤ T`, from the reset envelope after `trigger()` there is an `n ≤ 1.1*T/dt + 1`
such that after `n` calls of `process(dt)` the value is exactly 1.0 and the stage is `DECAY`;
after every smaller number of calls the stage is `ATTACK` and the value is at most 1.0, and
these values increase strictly from call to call. In binary32 the same holds for attacks that
are not too long and fails for long ones (see the attack in binary32). -/
theorem attack_reaches_one_exact (e : Envelope3Generator) (dt : ℚ)
    (hT : 0 < e.attack_time) (hdt : 0 < dt)
    (hk : Envelope3Generator.COEFF * dt ≤ e.attack_time) :
    ∃ n : Nat, (n : ℚ) ≤ 11 / 10 * e.attack_time / dt + 1 ∧
      (Envelope3Generator.processN dt n e.reset.trigger).value = 1 ∧
      (Envelope3Generator.processN dt n e.reset.trigger).stage = Stage.DECAY ∧
      (∀ j, j < n →
        (Envelope3Generator.processN dt j e.reset.trigger).stage = Stage.ATTACK ∧
        (Envelope3Generator.processN dt j e.reset.trigger).value ≤ 1) ∧
      (∀ j, j + 1 < n →
        (Envelope3Generator.processN dt j e.reset.trigger).value
          < (Envelope3Generator.processN dt (j + 1) e.reset.trigger).value) := by
  obtain ⟨s1, s2, s3, s4⟩ := Envelope3Generator.trigger_reset e
  have hk0 : 0 < Envelope3Generator.COEFF * dt / e.attack_time :=
    div_pos (mul_pos Envelope3Generator.COEFF_pos hdt) hT
  have hk1 : Envelope3Generator.COEFF * dt / e.attack_time ≤ 1 := by
    rw [div_le_one hT]
    exact hk
  have hx : 0 ≤ 11 / 10 * e.attack_time / dt := by positivity
  have hM1 : ((⌊11 / 10 * e.attack_time / dt⌋₊ + 1 : Nat) : ℚ) ≤ 11 / 10 * e.attack_time / dt + 1 := by
    push_cast
    have := Nat.floor_le hx
    linarith
  have hM2 : 11 / 10 * Envelope3Generator.COEFF
      < ((⌊11 / 10 * e.attack_time / dt⌋₊ + 1 : Nat) : ℚ)
        * (Envelope3Generator.COEFF * dt / e.attack_time) := by
    have h1 : 11 / 10 * e.attack_time / dt < ((⌊11 / 10 * e.attack_time / dt⌋₊ + 1 : Nat) : ℚ) := by
      push_cast
      exact Nat.lt_floor_add_one _
    have h2 : 11 / 10 * Envelope3Generator.COEFF
        = (11 / 10 * e.attack_time / dt) * (Envelope3Generator.COEFF * dt / e.attack_time) := by
      field_simp
      ring
    rw [h2]
    exact mul_lt_mul_of_pos_right h1 hk0
  have hex : ∃ n, 1 < attackCurve (Envelope3Generator.COEFF * dt / e.attack_time) n :=
    ⟨_, attackCurve_crosses _ _ hk0 hk1 hM2⟩
  have hspec := Nat.find_spec hex
  have hmin : ∀ i, i < Nat.find hex →
      attackCurve (Envelope3Generator.COEFF * dt / e.attack_time) i ≤ 1 :=
    fun i hi => not_lt.mp (Nat.find_min hex hi)
  have hle : Nat.find hex ≤ ⌊11 / 10 * e.attack_time / dt⌋₊ + 1 :=
    Nat.find_min' hex (attackCurve_crosses _ _ hk0 hk1 hM2)
  have hne : Nat.find hex ≠ 0 := by
    intro h0
    rw [h0, attackCurve_zero] at hspec
    exact absurd hspec (by norm_num)
  obtain ⟨p, hp⟩ := Nat.exists_eq_succ_of_ne_zero hne
  have hfollow : ∀ j, j < Nat.find hex →
      Envelope3Generator.processN dt j e.reset.trigger
        = { e.reset.trigger with
            value := attackCurve (Envelope3Generator.COEFF * dt / e.attack_time) j } := by
    intro j hj
    have := Envelope3Generator.processN_attack e.reset.trigger dt s1 s2 s3 j
      (by
        rw [s4]
        intro i hi
        exact hmin i (by omega))
    rw [s4] at this
    exact this
  have hstep : ∀ j, attackCurve (Envelope3Generator.COEFF * dt / e.attack_time) j
      + Envelope3Generator.COEFF * dt
        * (e.reset.trigger.target
          - attackCurve (Envelope3Generator.COEFF * dt / e.attack_time) j)
        / e.reset.trigger.attack_time
      = attackCurve (Envelope3Generator.COEFF * dt / e.attack_time) (j + 1) := by
    intro j
    rw [attackCurve_succ, s2, s4]
    ring
  have hlast : Envelope3Generator.processN dt (Nat.find hex) e.reset.trigger
      = { e.reset.trigger with
          value := 1
          target := 1 - Envelope3Generator.OVERSHOOT
          stage := Stage.DECAY
          decay_triggered := true } := by
    rw [hp, Envelope3Generator.processN_succ, hfollow p (by omega)]
    have hc := Envelope3Generator.process_attack_crossing
      ({ e.reset.trigger with
        value := attackCurve (Envelope3Generator.COEFF * dt / e.attack_time) p }
        : Envelope3Generator) dt s1
      (by
        show 1 < attackCurve (Envelope3Generator.COEFF * dt / e.attack_time) p
          + Envelope3Generator.COEFF * dt
            * (e.reset.trigger.target
              - attackCurve (Envelope3Generator.COEFF * dt / e.attack_time) p)
            / e.reset.trigger.attack_time
        rw [hstep, ← Nat.succ_eq_add_one, ← hp]
        exact hspec)
    rw [hc]
  refine ⟨Nat.find hex, le_trans (by exact_mod_cast hle) hM1, ?_, ?_, ?_, ?_⟩
  · rw [hlast]
  · rw [hlast]
  · intro j hj
    rw [hfollow j hj]
    exact ⟨s1, hmin j hj⟩
  · intro j hj
    rw [hfollow j (by omega), hfollow (j + 1) hj]
    show attackCurve (Envelope3Generator.COEFF * dt / e.attack_time) j
      < attackCurve (Envelope3Generator.COEFF * dt / e.attack_time) (j + 1)
    rw [attackCurve_succ]
    have h1 := hmin j (by omega)
    have h2 : 0 < Envelope3Generator.OVERSHOOT
        - attackCurve (Envelope3Generator.COEFF * dt / e.attack_time) j := by
      unfold Envelope3Generator.OVERSHOOT
      linarith
    have := mul_pos hk0 h2
    linarith

/-- The attack curve in exact arithmetic at the attack time 3 ms on the 48 kHz sample
period. -/
theorem attack_reaches_one_exact_example :
    ∃ n : Nat, (n : ℚ) ≤ 11 / 10 * (3 / 1000) / (1 / 48000) + 1 ∧
      (Envelope3Generator.processN (1 / 48000) n
        (Envelope3Generator.trigger (Envelope3Generator.reset { attack_time := 3 / 1000 }))).value
          = 1 ∧
      (Envelope3Generator.processN (1 / 48000) n
        (Envelope3Generator.trigger (Envelope3Generator.reset { attack_time := 3 / 1000 }))).stage
          = Stage.DECAY :=
  (attack_reaches_one_exact { attack_time := 3 / 1000 } (1 / 48000)
    (show (0 : ℚ) < 3 / 1000 by norm_num) (by norm_num)
    (show Envelope3Generator.COEFF * (1 / 48000) ≤ 3 / 1000 by
      norm_num [Envelope3Generator.COEFF])).elim
    fun n hn => ⟨n, hn.1, hn.2.1, hn.2.2.1⟩

/-! ## The accent latch of `AcidStation::process` -/

namespace AcidStation

theorem process_decay_time (e : Envelope3Generator) (dt : ℚ) :
    (e.process dt).decay_time = e.decay_time := by
  unfold Envelope3Generator.process
  simp only
  split_ifs <;> rfl

theorem trigger_decay_time (e : Envelope3Generator) : e.trigger.decay_time = e.decay_time := by
  unfold Envelope3Generator.trigger
  split_ifs <;> rfl

/-- The accent flag, the decay exponent and the decay time of envelope 2 are settled by the
blocks before the envelopes are advanced. -/
theorem process_frame (pow10 : ℚ → ℚ) (m : AcidStation) (s : StationSample) :
    (process pow10 m s).accent = (edges pow10 m s).accent ∧
      (process pow10 m s).eg2_decay = (edges pow10 m s).eg2_decay ∧
      (process pow10 m s).eg2.decay_time = (edges pow10 m s).eg2.decay_time :=
  ⟨rfl, rfl, process_decay_time _ _⟩

theorem updateHold_frame (pow10 : ℚ → ℚ) (m : AcidStation) (s : StationSample) :
    (updateHold pow10 m s).accent = m.accent ∧ (updateHold pow10 m s).eg2_decay = m.eg2_decay ∧
      (updateHold pow10 m s).eg2 = m.eg2 := by
  unfold updateHold
  simp only
  split_ifs <;> exact ⟨rfl, rfl, rfl⟩

theorem updateParams_accent (pow10 : ℚ → ℚ) (m : AcidStation) (s : StationSample) :
    (updateParams pow10 m s).accent = m.accent := by
  obtain ⟨h1, -, -⟩ := updateHold_frame pow10 m s
  unfold updateParams
  simp only
  split_ifs <;> exact h1

/-- While the accent is latched the parameter update leaves envelope 2's decay alone. -/
theorem updateParams_latched (pow10 : ℚ → ℚ) (m : AcidStation) (s : StationSample)
    (h : m.accent = true) :
    (updateParams pow10 m s).eg2_decay = m.eg2_decay ∧
      (updateParams pow10 m s).eg2.decay_time = m.eg2.decay_time := by
  obtain ⟨h1, h2, h3⟩ := updateHold_frame pow10 m s
  have hc : ¬ ((updateHold pow10 m s).eg2_decay ≠ s.VCF_DECAY_PARAM ∧
      (updateHold pow10 m s).accent = false) := by
    rintro ⟨-, hf⟩
    rw [h1, h] at hf
    cases hf
  unfold updateParams
  simp only
  rw [if_neg hc]
  exact ⟨h2, by rw [h3]⟩

theorem gateFall_frame (m : AcidStation) (s : StationSample) :
    (gateFall m s).accent = m.accent ∧ (gateFall m s).eg2_decay = m.eg2_decay ∧
      (gateFall m s).eg2.decay_time = m.eg2.decay_time := by
  unfold gateFall
  simp only
  split_ifs <;> exact ⟨rfl, rfl, rfl⟩

/-- The rising gate with the accent input rising and high, accent not latched: latch. -/
theorem gateRise_latch (pow10 : ℚ → ℚ) (m : AcidStation) (s : StationSample)
    (hr : s.accentRising = true) (hh : s.accentHigh = true) (ha : m.accent = false) :
    (gateRise pow10 m s).accent = true ∧ (gateRise pow10 m s).eg2_decay = -7 / 10 ∧
      (gateRise pow10 m s).eg2.decay_time = pow10 (-7 / 10) := by
  simp [gateRise, hr, hh, ha, trigger_decay_time]

/-- The rising gate with the accent latched and the accent input high: nothing changes. -/
theorem gateRise_hold (pow10 : ℚ → ℚ) (m : AcidStation) (s : StationSample)
    (hh : s.accentHigh = true) (ha : m.accent = true) :
    (gateRise pow10 m s).accent = true ∧ (gateRise pow10 m s).eg2_decay = m.eg2_decay ∧
      (gateRise pow10 m s).eg2.decay_time = m.eg2.decay_time := by
  simp [gateRise, hh, ha, trigger_decay_time]

/-- The rising gate with the accent latched and the accent input not high: clear. -/
theorem gateRise_clear (pow10 : ℚ → ℚ) (m : AcidStation) (s : StationSample)
    (hh : s.accentHigh = false) (ha : m.accent = true) :
    (gateRise pow10 m s).accent = false ∧
      (gateRise pow10 m s).eg2_decay = s.VCF_DECAY_PARAM ∧
      (gateRise pow10 m s).eg2.decay_time = pow10 s.VCF_DECAY_PARAM := by
  simp [gateRise, hh, ha, trigger_decay_time]

end AcidStation

/-- C17: in `AcidStation::process`, with the detectors' answers as boolean inputs (a rising
accent detector being high): (1) on a gate rising edge with the accent input rising and
`accent` false, `accent` becomes true, the decay exponent of envelope 2 becomes -0.7 and its
decay time `10^-0.7`; (2) on every sample that finds `accent` true and is not a gate rising
edge with the accent input not high, `accent` stays true and exponent and decay time of
envelope 2 stay as they are, whatever the VCF-decay knob, and so over any run of such
samples; (3) on a gate rising edge with the accent input not high, `accent` true becomes
false and the decay is taken from the VCF-decay knob; (4) on a sample that is not a gate
rising edge `accent` does not change. -/
theorem C17_accent_latch (pow10 : ℚ → ℚ) (m : AcidStation) :
    (∀ s : StationSample, s.gateRising = true → s.accentRising = true →
      s.accentHigh = true → m.accent = false →
      (AcidStation.process pow10 m s).accent = true ∧
      (AcidStation.process pow10 m s).eg2_decay = -7 / 10 ∧
      (AcidStation.process pow10 m s).eg2.decay_time = pow10 (-7 / 10)) ∧
    (∀ ss : List StationSample, m.accent = true → (∀ s ∈ ss, ¬ ClearsAccent s) →
      (AcidStation.processAll pow10 m ss).accent = true ∧
      (AcidStation.processAll pow10 m ss).eg2_decay = m.eg2_decay ∧
      (AcidStation.processAll pow10 m ss).eg2.decay_time = m.eg2.decay_time) ∧
    (∀ s : StationSample, m.accent = true → ClearsAccent s →
      (AcidStation.process pow10 m s).accent = false ∧
      (AcidStation.process pow10 m s).eg2_decay = s.VCF_DECAY_PARAM ∧
      (AcidStation.process pow10 m s).eg2.decay_time = pow10 s.VCF_DECAY_PARAM) ∧
    (∀ s : StationSample, s.gateRising = false →
      (AcidStation.process pow10 m s).accent = m.accent) := by
  have hold1 : ∀ (m : AcidStation) (s : StationSample), m.accent = true → ¬ ClearsAccent s →
      (AcidStation.process pow10 m s).accent = true ∧
      (AcidStation.process pow10 m s).eg2_decay = m.eg2_decay ∧
      (AcidStation.process pow10 m s).eg2.decay_time = m.eg2.decay_time := by
    intro m s ha hc
    obtain ⟨f1, f2, f3⟩ := AcidStation.process_frame pow10 m s
    rw [f1, f2, f3]
    unfold AcidStation.edges
    simp only
    have hp : (if s.paramDivider = true then AcidStation.updateParams pow10 m s else m).accent
          = true ∧
        (if s.paramDivider = true then AcidStation.updateParams pow10 m s else m).eg2_decay
          = m.eg2_decay ∧
        (if s.paramDivider = true then AcidStation.updateParams pow10 m s else m).eg2.decay_time
          = m.eg2.decay_time := by
      split_ifs
      · exact ⟨(AcidStation.updateParams_accent pow10 m s).trans ha,
          (AcidStation.updateParams_latched pow10 m s ha).1,
          (AcidStation.updateParams_latched pow10 m s ha).2⟩
      · exact ⟨ha, rfl, rfl⟩
    generalize (if s.paramDivider = true then AcidStation.updateParams pow10 m s else m) = m1
      at hp ⊢
    obtain ⟨p1, p2, p3⟩ := hp
    have hr : (if s.gateRising = true then AcidStation.gateRise pow10 m1 s else m1).accent
          = true ∧
        (if s.gateRising = true then AcidStation.gateRise pow10 m1 s else m1).eg2_decay
          = m.eg2_decay ∧
        (if s.gateRising = true then AcidStation.gateRise pow10 m1 s else m1).eg2.decay_time
          = m.eg2.decay_time := by
      split_ifs with hg
      · have hh : s.accentHigh = true := by
          cases hx : s.accentHigh with
          | true => rfl
          | false => exact absurd ⟨hg, hx⟩ hc
        obtain ⟨g1, g2, g3⟩ := AcidStation.gateRise_hold pow10 m1 s hh p1
        exact ⟨g1, g2.trans p2, g3.trans p3⟩
      · exact ⟨p1, p2, p3⟩
    generalize (if s.gateRising = true then AcidStation.gateRise pow10 m1 s else m1) = m2
      at hr ⊢
    obtain ⟨r1, r2, r3⟩ := hr
    split_ifs
    · obtain ⟨q1, q2, q3⟩ := AcidStation.gateFall_frame m2 s
      exact ⟨q1.trans r1, q2.trans r2, q3.trans r3⟩
    · exact ⟨r1, r2, r3⟩
  refine ⟨?_, ?_, ?_, ?_⟩
  · intro s hg hr hh ha
    obtain ⟨f1, f2, f3⟩ := AcidStation.process_frame pow10 m s
    rw [f1, f2, f3]
    unfold AcidStation.edges
    simp only [hg, if_true]
    have hp : (if s.paramDivider = true then AcidStation.updateParams pow10 m s else m).accent
        = false := by
      split_ifs
      · exact (AcidStation.updateParams_accent pow10 m s).trans ha
      · exact ha
    generalize (if s.paramDivider = true then AcidStation.updateParams pow10 m s else m) = m1
      at hp ⊢
    obtain ⟨g1, g2, g3⟩ := AcidStation.gateRise_latch pow10 m1 s hr hh hp
    split_ifs
    · obtain ⟨q1, q2, q3⟩ := AcidStation.gateFall_frame (AcidStation.gateRise pow10 m1 s) s
      exact ⟨q1.trans g1, q2.trans g2, q3.trans g3⟩
    · exact ⟨g1, g2, g3⟩
  · intro ss
    induction ss generalizing m with
    | nil =>
      intro ha _
      exact ⟨ha, rfl, rfl⟩
    | cons s ss ih =>
      intro ha hall
      obtain ⟨h1, h2, h3⟩ := hold1 m s ha (hall s (List.mem_cons_self _ _))
      obtain ⟨i1, i2, i3⟩ := ih (AcidStation.process pow10 m s) h1
        (fun t ht => hall t (List.mem_cons_of_mem _ ht))
      exact ⟨i1, i2.trans h2, i3.trans h3⟩
  · rintro s ha ⟨hg, hh⟩
    obtain ⟨f1, f2, f3⟩ := AcidStation.process_frame pow10 m s
    rw [f1, f2, f3]
    unfold AcidStation.edges
    simp only [hg, if_true]
    have hp : (if s.paramDivider = true then AcidStation.updateParams pow10 m s else m).accent
        = true := by
      split_ifs
      · exact (AcidStation.updateParams_accent pow10 m s).trans ha
      · exact ha
    generalize (if s.paramDivider = true then AcidStation.updateParams pow10 m s else m) = m1
      at hp ⊢
    obtain ⟨g1, g2, g3⟩ := AcidStation.gateRise_clear pow10 m1 s hh hp
    split_ifs
    · obtain ⟨q1, q2, q3⟩ := AcidStation.gateFall_frame (AcidStation.gateRise pow10 m1 s) s
      exact ⟨q1.trans g1, q2.trans g2, q3.trans g3⟩
    · exact ⟨g1, g2, g3⟩
  · intro s hg
    obtain ⟨f1, -, -⟩ := AcidStation.process_frame pow10 m s
    rw [f1]
    unfold AcidStation.edges
    simp only [hg, Bool.false_eq_true, if_false]
    have hp : (if s.paramDivider = true then AcidStation.updateParams pow10 m s else m).accent
        = m.accent := by
      split_ifs
      · exact AcidStation.updateParams_accent pow10 m s
      · rfl
    generalize (if s.paramDivider = true then AcidStation.updateParams pow10 m s else m) = m1
      at hp ⊢
    split_ifs
    · exact (AcidStation.gateFall_frame m1 s).1.trans hp
    · exact hp

/-- C17, on examples: from the initial module a gate edge with rising accent latches the
accent with exponent -0.7; a latched module keeps accent and exponent over a sample without
gate edge and a gate edge with the accent input high, the knob standing at 1/2; a gate edge
with the accent input low clears the accent and takes the exponent 1/2 from the knob. -/
theorem C17_witness :
    (AcidStation.process pow10Table {} (gateSample true true true 0)).accent = true ∧
    (AcidStation.process pow10Table {} (gateSample true true true 0)).eg2_decay = -7 / 10 ∧
    (AcidStation.processAll pow10Table { accent := true, eg2_decay := -7 / 10 }
      [gateSample false false false (1 / 2), gateSample true false true (1 / 2)]).accent
        = true ∧
    (AcidStation.processAll pow10Table { accent := true, eg2_decay := -7 / 10 }
      [gateSample false false false (1 / 2), gateSample true false true (1 / 2)]).eg2_decay
        = -7 / 10 ∧
    (AcidStation.process pow10Table { accent := true, eg2_decay := -7 / 10 }
      (gateSample true false false (1 / 2))).accent = false ∧
    (AcidStation.process pow10Table { accent := true, eg2_decay := -7 / 10 }
      (gateSample true false false (1 / 2))).eg2_decay = 1 / 2 :=
  ⟨((C17_accent_latch pow10Table {}).1 (gateSample true true true 0) rfl rfl rfl rfl).1,
    ((C17_accent_latch pow10Table {}).1 (gateSample true true true 0) rfl rfl rfl rfl).2.1,
    ((C17_accent_latch pow10Table { accent := true, eg2_decay := -7 / 10 }).2.1
      [gateSample false false false (1 / 2), gateSample true false true (1 / 2)] rfl
      (by decide)).1,
    ((C17_accent_latch pow10Table { accent := true, eg2_decay := -7 / 10 }).2.1
      [gateSample false false false (1 / 2), gateSample true false true (1 / 2)] rfl
      (by decide)).2.1,
    ((C17_accent_latch pow10Table { accent := true, eg2_decay := -7 / 10 }).2.2.1
      (gateSample true false false (1 / 2)) rfl (by decide)).1,
    ((C17_accent_latch pow10Table { accent := true, eg2_decay := -7 / 10 }).2.2.1
      (gateSample true false false (1 / 2)) rfl (by decide)).2.1⟩

/-! ## The implemented header expression against the spec's grammar -/

theorem transposeGroup_of_no_group :
    ∀ (r : List Char), grammarTranspose r = [] →
      ∀ (fuel : Nat) (last : List Char), transposeGroup fuel r last = last := by
  intro r h fuel last
  cases fuel with
  | zero => rfl
  | succ n =>
    match r, h with
    | [], _ => rfl
    | [_], _ => rfl
    | [s, d1], h =>
      simp only [grammarTranspose] at h
      by_cases hc : (isSign s && isDigit09 d1) = true
      · rw [if_pos hc] at h
        cases h
      · simp only [transposeGroup, hc, if_false, Bool.false_eq_true]
    | s :: d1 :: d2 :: tl, h =>
      simp only [grammarTranspose] at h
      by_cases hc : (isSign s && isDigit09 d1) = true
      · rw [if_pos hc] at h
        split_ifs at h
      · simp only [transposeGroup, hc, if_false, Bool.false_eq_true]

/-- Where no second signed number follows the first, the repeated group of the implemented
expression captures what the optional group of the grammar captures. -/
theorem transposeGroup_eq_grammarTranspose (l : List Char)
    (h : grammarTranspose (l.drop (grammarTranspose l).length) = []) :
    transposeGroup l.length l [] = grammarTranspose l := by
  match l, h with
  | [], _ => rfl
  | [_], _ => rfl
  | [s, d1], _ =>
    by_cases hc : (isSign s && isDigit09 d1) = true
    · simp only [List.length_cons, List.length_nil, transposeGroup, grammarTranspose, hc, if_true]
    · simp only [List.length_cons, List.length_nil, transposeGroup, grammarTranspose, hc,
        if_false, Bool.false_eq_true]
  | s :: d1 :: d2 :: tl, h =>
    by_cases hc : (isSign s && isDigit09 d1) = true
    · by_cases hd : isDigit09 d2 = true
      · have hg : grammarTranspose (s :: d1 :: d2 :: tl) = [s, d1, d2] := by
          simp only [grammarTranspose, hc, hd, if_true]
        rw [hg] at h ⊢
        simp only [List.length_cons, List.length_nil, transposeGroup, hc, hd, if_true]
        exact transposeGroup_of_no_group _ h _ _
      · have hg : grammarTranspose (s :: d1 :: d2 :: tl) = [s, d1] := by
          simp only [grammarTranspose, hc, hd, if_true, if_false, Bool.false_eq_true]
        rw [hg] at h ⊢
        simp only [List.length_cons, List.length_nil, transposeGroup, hc, hd, if_true, if_false]
        exact transposeGroup_of_no_group _ h _ _
    · simp only [List.length_cons, transposeGroup, grammarTranspose, hc, if_false,
        Bool.false_eq_true]

theorem header_search_eq (l : Char) (rest : List Char) :
    header_search (l :: rest) =
      if isUpperAZ l = true ∧ rest.takeWhile isSpaceClass ≠ [] ∧
          (rest.dropWhile isSpaceClass).takeWhile isDigit09 ≠ [] then
        some ⟨[l], (rest.dropWhile isSpaceClass).takeWhile isDigit09,
          transposeGroup (transposeInput (l :: rest)).length (transposeInput (l :: rest)) []⟩
      else none := by
  simp only [header_search, transposeInput, List.tail_cons]
  by_cases h1 : isUpperAZ l = true
  · by_cases h2 : rest.takeWhile isSpaceClass = []
    · simp [h1, h2]
    · by_cases h3 : (rest.dropWhile isSpaceClass).takeWhile isDigit09 = []
      · simp [h1, h2, h3]
      · simp [h1, h2, h3]
  · simp [h1]

theorem grammar_search_eq (l : Char) (rest : List Char) :
    grammar_search (l :: rest) =
      if isUpperAZ l = true ∧ rest.takeWhile isSpaceClass ≠ [] ∧
          (rest.dropWhile isSpaceClass).takeWhile isDigit09 ≠ [] then
        some ⟨[l], (rest.dropWhile isSpaceClass).takeWhile isDigit09,
          grammarTranspose (transposeInput (l :: rest))⟩
      else none := by
  simp only [grammar_search, transposeInput, List.tail_cons, List.span_eq_take_drop]
  by_cases h1 : isUpperAZ l = true
  · by_cases h2 : rest.takeWhile isSpaceClass = []
    · simp [h1, h2]
    · by_cases h3 : (rest.dropWhile isSpaceClass).takeWhile isDigit09 = []
      · simp [h1, h2, h3]
      · simp [h1, h2, h3]
  · simp [h1]

/-- C18, as stated, fails at the header `A 16 +1-2`: both expressions accept it with letter
`A` and length `16`, but the implemented expression, whose third group stands under `*`,
captures the last signed number `-2` where the grammar of the spec captures `+1`; the parsed
transposes are -2 and 1. -/
theorem C18_counterexample :
    header_search "A 16 +1-2".toList = some ⟨['A'], ['1', '6'], ['-', '2']⟩ ∧
    grammar_search "A 16 +1-2".toList = some ⟨['A'], ['1', '6'], ['+', '1']⟩ ∧
    stoi ['-', '2'] = .ok (-2) ∧ stoi ['+', '1'] = .ok 1 ∧
    ∃ m1, parseSeq (priorState (score "A 16 +1-2" "" "" "" "")) = .ok (0, m1) ∧
      m1.transposes = ((-2 : Int) : ℚ) * SEMITONE :=
  ⟨by decide, by decide, rfl, rfl, _, rfl, rfl⟩

/-- C18, amended: for every header string the implemented matcher accepts exactly when the
grammar of the spec matches; on acceptance the letter and length captures are the same (and
so the parsed letter and length), and the transpose capture (and so the parsed transpose)
is the same whenever the grammar's signed number is not directly followed by another sign
and digit. -/
theorem C18_matcher_against_grammar (str : List Char) :
    (header_search str).isSome = (grammar_search str).isSome ∧
    ∀ cm gm, header_search str = some cm → grammar_search str = some gm →
      cm.str1 = gm.str1 ∧ cm.str2 = gm.str2 ∧ stoi cm.str2 = stoi gm.str2 ∧
      (grammarTranspose ((transposeInput str).drop gm.str3.length) = [] →
        cm.str3 = gm.str3 ∧ transposeOf cm = transposeOf gm) := by
  cases str with
  | nil =>
    refine ⟨rfl, ?_⟩
    intro cm gm h
    simp [header_search] at h
  | cons l rest =>
    rw [header_search_eq, grammar_search_eq]
    by_cases hc : isUpperAZ l = true ∧ rest.takeWhile isSpaceClass ≠ [] ∧
        (rest.dropWhile isSpaceClass).takeWhile isDigit09 ≠ []
    · rw [if_pos hc, if_pos hc]
      refine ⟨rfl, ?_⟩
      intro cm gm h1 h2
      have e1 := (Option.some.inj h1).symm
      have e2 := (Option.some.inj h2).symm
      subst e1
      subst e2
      refine ⟨rfl, rfl, rfl, ?_⟩
      intro hno
      have e3 := transposeGroup_eq_grammarTranspose (transposeInput (l :: rest)) hno
      refine ⟨e3, ?_⟩
      unfold transposeOf
      simp only [e3]
    · rw [if_neg hc, if_neg hc]
      refine ⟨rfl, ?_⟩
      intro cm gm h
      cases h

/-- C18 amended, at the header `C 12 -5`: both accept, with the captures `C`, `12`, `-5`. -/
theorem C18_witness :
    ∃ cm gm, header_search "C 12 -5".toList = some cm ∧
      grammar_search "C 12 -5".toList = some gm ∧
      cm.str1 = gm.str1 ∧ cm.str2 = gm.str2 ∧ cm.str3 = gm.str3 ∧ gm.str3 = ['-', '5'] :=
  ⟨⟨['C'], ['1', '2'], ['-', '5']⟩, ⟨['C'], ['1', '2'], ['-', '5']⟩, by decide, by decide,
    ((C18_matcher_against_grammar "C 12 -5".toList).2 _ _ (by decide) (by decide)).1,
    ((C18_matcher_against_grammar "C 12 -5".toList).2 _ _ (by decide) (by decide)).2.1,
    (((C18_matcher_against_grammar "C 12 -5".toList).2 ⟨['C'], ['1', '2'], ['-', '5']⟩
      ⟨['C'], ['1', '2'], ['-', '5']⟩ (by decide) (by decide)).2.2.2 (by decide)).1,
    rfl⟩

/-! ## The worked scenario -/

/-- C13 fails at its first step: with the five strings as the scenario writes them,
`parseSeq` does not return. The notes loop runs while `step < length && step < line.size()`,
both 4, and reads two characters per step, so `line.at(4)` throws at step 2 on the
four-character notes track, whatever the pattern held before; `process`, which re-parses a
dirty score, ends the same way. -/
theorem C13_scenario_as_written_throws (m : ComposerModule) (s : Sample) :
    parseSeq { m.composer with sequence := scenarioAsWritten }
      = .error (.at_out_of_range 4 4) ∧
    ComposerModule.process
      { m with composer := { m.composer with sequence := scenarioAsWritten } } s
      = .error (.at_out_of_range 4 4) :=
  ⟨rfl, rfl⟩

/-- The padded score of the scenario parses: code 0, Gate alone on steps 0 and 2, empty
attributes on the other steps. -/
theorem scenarioPadded_parses :
    ∃ m1, parseSeq (priorState scenarioPadded) = .ok (0, m1) ∧
      (m1.attributes 0).getAttribute = 1 ∧ (m1.attributes 1).getAttribute = 0 ∧
      (m1.attributes 2).getAttribute = 1 ∧ (m1.attributes 3).getAttribute = 0 ∧
      m1.lengths = 4 :=
  ⟨_, rfl, rfl, rfl, rfl, rfl, rfl⟩

/-! ## The padded scenario, sample after sample -/

theorem toLong_pos {x : ℚ} (h : 1 ≤ x) : 1 ≤ toLong x := by
  unfold toLong
  rw [if_pos (by linarith)]
  exact Int.le_floor.mpr (by exact_mod_cast h)

namespace ComposerModule

/-- With at least one sample of ignore window, a sample leaves the resolver running either
because the module ran before and the run button was not touched, or with the cursor on
step 0. -/
theorem advance_running (m : ComposerModule) (s : Sample) (hrate : 1000 ≤ s.sampleRate)
    (h : (advance m s).running = true) :
    (m.running = true ∧ s.runningTrigger = false) ∨ (advance m s).stepIndexRun = 0 := by
  have hd : 1 ≤ toLong (clockIgnoreOnResetDuration * s.sampleRate) := by
    apply toLong_pos
    unfold clockIgnoreOnResetDuration
    linarith
  have hrun : (advance m s).running = (runButton m s).running := by
    unfold advance
    rw [(resetButton_frame _ s).2.2.2.2.2.2, (clock_frame _ s).2.2.2.2.2.2.1]
  by_cases ht : s.runningTrigger = true
  · right
    have hm : m.running = false := by
      rw [hrun] at h
      unfold runButton at h
      simp only [ht, if_true] at h
      cases hr : m.running with
      | false => rfl
      | true =>
        rw [hr] at h
        simp at h
    have hb : (runButton m s).stepIndexRun = 0 ∧
        (runButton m s).clockIgnoreOnReset
          = toLong (clockIgnoreOnResetDuration * s.sampleRate) := by
      unfold runButton initRun
      simp only [ht, hm, if_true, Bool.not_false]
      split_ifs <;> exact ⟨rfl, rfl⟩
    have hc : (clock (runButton m s) s).stepIndexRun = 0 := by
      rw [clock_step, if_neg, hb.1]
      rintro ⟨-, hk, -⟩
      rw [hb.2] at hk
      omega
    unfold advance resetButton initRun
    split_ifs
    · rfl
    · exact hc
  · left
    have ht' : s.runningTrigger = false := by
      cases hx : s.runningTrigger with
      | false => rfl
      | true => exact absurd hx ht
    rw [hrun, runButton_idle m s ht'] at h
    exact ⟨h, ht'⟩

theorem gateAt_scenario (m : ComposerModule) (hpat : ScenarioPattern m.composer) (i : Fin 16)
    (clock : Bool) :
    gateAt m i clock = if i.val = 0 ∨ i.val = 2 then clock else false := by
  obtain ⟨-, -, -, ha⟩ := hpat
  unfold gateAt
  by_cases hi : i.val = 0 ∨ i.val = 2
  · have hn : ¬ ((i + 1 : Fin 16).val = 0 ∨ (i + 1 : Fin 16).val = 2) := by
      rw [Fin.val_add]
      have h1 : ((1 : Fin 16).val) = 1 := rfl
      rw [h1]
      rcases hi with h | h <;> rw [h] <;> decide
    rw [ha i, ha (i + 1), if_pos hi, if_neg hn, if_pos hi]
    have e1 : StepAttributes.getGate ⟨1⟩ = true := by decide
    have e2 : StepAttributes.getTie ⟨1⟩ = false := by decide
    have e3 : StepAttributes.getTie ⟨0⟩ = false := by decide
    have e4 : StepAttributes.getSlide ⟨0⟩ = false := by decide
    rw [e1, e2, e3, e4, resolveGate_gate]
    simp
  · rw [ha i, if_neg hi, if_neg hi]
    have e1 : StepAttributes.getGate ⟨0⟩ = false := by decide
    have e2 : StepAttributes.getTie ⟨0⟩ = false := by decide
    have e3 : StepAttributes.getSlide ⟨0⟩ = false := by decide
    rw [e1, e2, e3, resolveGate_rest]

/-- The latch on the scenario: the latched values are those of a gated step of the scenario
whenever the step is gated or they were so before. -/
theorem latched_scenario (m : ComposerModule) (hpat : ScenarioPattern m.composer) (i : Fin 16)
    (h : (i.val = 0 ∨ i.val = 2) ∨
      (m.currentCv = 0 ∧ m.currentAccent = false ∧ m.currentSlide = false)) :
    (latched m i).currentCv = 0 ∧ (latched m i).currentAccent = false ∧
      (latched m i).currentSlide = false := by
  obtain ⟨hn, ho, ht, ha⟩ := hpat
  by_cases hi : i.val = 0 ∨ i.val = 2
  · have hg : (m.composer.attributes i).getGate = true := by
      rw [ha i, if_pos hi]
      decide
    rw [latched_of_gate m i hg]
    refine ⟨?_, ?_, ?_⟩
    · show m.composer.notes i + m.composer.octaves i + m.composer.transposes = 0
      rw [hn i, ho i, ht]
      norm_num
    · show (m.composer.attributes i).getAccent = false
      rw [ha i, if_pos hi]
      decide
    · show (m.composer.attributes i).getSlide = false
      rw [ha i, if_pos hi]
      decide
  · have hg : (m.composer.attributes i).getGate = false := by
      rw [ha i, if_neg hi]
      decide
    rw [latched_of_no_gate m i hg]
    rcases h with h | h
    · exact absurd h hi
    · exact h

/-- One sample on the scenario: from a module whose re-parse gives the scenario's pattern
and which, if it runs, holds the scenario's latched values, `process` returns, leaves such a
module again, and its outputs are the scenario's. -/
theorem scenario_sample {m m0 : ComposerModule} (s : Sample)
    (hparse : reparse m = .ok m0) (hclean : m0.composer.sequence.dirty = false)
    (hpat : ScenarioPattern m0.composer)
    (hlatch : m.running = true → 0 ≤ m.stepIndexRun ∧ m.stepIndexRun ≤ 15 ∧ m.currentCv = 0 ∧
      m.currentAccent = false ∧ m.currentSlide = false)
    (hrate : 1000 ≤ s.sampleRate) :
    ∃ m1, process m s = .ok m1 ∧ PlaysScenario m1 ∧
      ScenarioOutputs (advance m0 s).clockIgnoreOnReset s m1 := by
  obtain ⟨p1, p2, p3, p4, p5, -, -, -, -⟩ := reparse_frame hparse
  obtain ⟨a1, a2, a3, a4, -, -⟩ := advance_frame m0 s
  cases hrun : (advance m0 s).running with
  | false =>
    obtain ⟨c1, c2, -, -, -, -, -, -, -, -⟩ := countdown_frame
      { advance m0 s with cvOutput := 0, gateOutput := 0 }
    have hr1 : (countdown { advance m0 s with cvOutput := 0, gateOutput := 0 }).running
        = false := c2.trans hrun
    refine ⟨_, process_stopped s hparse hrun, ⟨?_, ?_, ?_⟩, ?_⟩
    · rw [c1]
      show (advance m0 s).composer.sequence.dirty = false
      rw [a1]
      exact hclean
    · rw [c1]
      show ScenarioPattern (advance m0 s).composer
      rw [a1]
      exact hpat
    · intro h
      rw [hr1] at h
      cases h
    · intro h
      rw [hr1] at h
      cases h
  | true =>
    have hcase := advance_running m0 s hrate hrun
    have hrange : 0 ≤ (advance m0 s).stepIndexRun ∧ (advance m0 s).stepIndexRun ≤ 15 := by
      rcases hcase with ⟨h, -⟩ | h
      · obtain ⟨l1, l2, -⟩ := hlatch (p4 ▸ h)
        exact advance_step_range m0 s (by rw [p5]; exact l1) (by rw [p5]; exact l2)
      · rw [h]
        exact ⟨le_refl _, by decide⟩
    obtain ⟨i, hi⟩ := exists_fin_of_range hrange.1 hrange.2
    have hpat' : ScenarioPattern (advance m0 s).composer := by
      rw [a1]
      exact hpat
    have hl := latched_scenario (advance m0 s) hpat' i (by
      rcases hcase with ⟨h, -⟩ | h
      · obtain ⟨-, -, l3, l4, l5⟩ := hlatch (p4 ▸ h)
        exact Or.inr ⟨a2.trans (p1.trans l3), a3.trans (p2.trans l4), a4.trans (p3.trans l5)⟩
      · left
        left
        rw [h] at hi
        exact_mod_cast hi.symm)
    obtain ⟨l1, l2, l3⟩ := hl
    obtain ⟨f1, -, f3, f4, -⟩ := latched_frame (advance m0 s) i
    obtain ⟨c1, c2, c3, c4, c5, c6, c7, c8, c9, -⟩ := countdown_frame
      { latched (advance m0 s) i with
        cvOutput := if (latched (advance m0 s) i).currentSlide then s.lastSample
          else (latched (advance m0 s) i).currentCv
        gateOutput :=
          if gateAt (advance m0 s) i (clockHigh s) && (advance m0 s).clockIgnoreOnReset == 0
          then 10 else 0
        accentOutput := if (latched (advance m0 s) i).currentAccent then 10 else 0 }
    refine ⟨_, process_running s i hparse hrun hi, ⟨?_, ?_, ?_⟩, ?_⟩
    · rw [c1]
      show (latched (advance m0 s) i).composer.sequence.dirty = false
      rw [f1, a1]
      exact hclean
    · rw [c1]
      show ScenarioPattern (latched (advance m0 s) i).composer
      rw [f1]
      exact hpat'
    · intro _
      rw [c3, c4, c5, c6]
      show 0 ≤ (latched (advance m0 s) i).stepIndexRun ∧
        (latched (advance m0 s) i).stepIndexRun ≤ 15 ∧
        (latched (advance m0 s) i).currentCv = 0 ∧
        (latched (advance m0 s) i).currentAccent = false ∧
        (latched (advance m0 s) i).currentSlide = false
      rw [f4]
      exact ⟨hrange.1, hrange.2, l1, l2, l3⟩
    · intro _
      rw [c3, c7, c8, c9]
      show (if (latched (advance m0 s) i).currentSlide = true then s.lastSample
          else (latched (advance m0 s) i).currentCv) = 0 ∧
        (if (latched (advance m0 s) i).currentAccent = true then (10 : ℚ) else 0) = 0 ∧
        ((if (gateAt (advance m0 s) i (clockHigh s)
            && (advance m0 s).clockIgnoreOnReset == 0) = true then (10 : ℚ) else 0) = 10 ∨
          (if (gateAt (advance m0 s) i (clockHigh s)
            && (advance m0 s).clockIgnoreOnReset == 0) = true then (10 : ℚ) else 0) = 0) ∧
        ((advance m0 s).clockIgnoreOnReset = 0 →
          ((if (gateAt (advance m0 s) i (clockHigh s)
            && (advance m0 s).clockIgnoreOnReset == 0) = true then (10 : ℚ) else 0) = 10 ↔
            ((latched (advance m0 s) i).stepIndexRun = 0 ∨
              (latched (advance m0 s) i).stepIndexRun = 2) ∧ s.clockVoltage > 1 / 10))
      rw [l1, l2, l3, f4, hi, gateAt_scenario _ hpat']
      refine ⟨by simp, by simp, ?_, ?_⟩
      · split_ifs <;> first | exact Or.inl rfl | exact Or.inr rfl
      · intro hw
        rw [hw]
        have hcast : ((i.val : Int) = 0 ∨ (i.val : Int) = 2) ↔ (i.val = 0 ∨ i.val = 2) := by
          constructor
          · rintro (h | h)
            · exact Or.inl (by exact_mod_cast h)
            · exact Or.inr (by exact_mod_cast h)
          · rintro (h | h)
            · exact Or.inl (by exact_mod_cast h)
            · exact Or.inr (by exact_mod_cast h)
        rw [hcast]
        by_cases hc : i.val = 0 ∨ i.val = 2
        · simp only [hc, if_true, true_and, beq_self_eq_true, Bool.and_true]
          unfold clockHigh
          simp
        · simp [hc]

end ComposerModule

theorem parseSeq_scenarioPadded_prior :
    ∃ c1, parseSeq (priorState scenarioPadded) = .ok (0, c1) ∧ ScenarioPattern c1 := by
  refine ⟨_, rfl, ?_, ?_, ?_, ?_⟩
  · intro i
    fin_cases i <;> rfl
  · intro i
    fin_cases i <;> rfl
  · show ((0 : Int) : ℚ) * SEMITONE = 0
    simp
  · intro i
    fin_cases i <;> rfl

/-- The padded scenario parses into the scenario's pattern, whatever the pattern was. -/
theorem parseSeq_scenarioPadded (c : AcidComposer) (h : c.sequence = scenarioPadded) :
    ∃ c1, parseSeq c = .ok (0, c1) ∧ ScenarioPattern c1 := by
  obtain ⟨c1, hp, hpat⟩ := parseSeq_scenarioPadded_prior
  have := parseSeq_ok_congr (show c.sequence = (priorState scenarioPadded).sequence from h) hp
  exact ⟨c1, this, hpat⟩

namespace ComposerModule

theorem reparse_scenarioPadded (m : ComposerModule)
    (h : m.composer.sequence = scenarioPadded) :
    ∃ m0, reparse m = .ok m0 ∧ m0.composer.sequence.dirty = false ∧
      ScenarioPattern m0.composer := by
  obtain ⟨c1, hp, hpat⟩ := parseSeq_scenarioPadded m.composer h
  have hd : m.composer.sequence.dirty = true := by
    rw [h]
    rfl
  refine ⟨{ m with composer := { c1 with sequence := { c1.sequence with dirty := false } } },
    ?_, rfl, hpat⟩
  unfold reparse
  rw [if_pos hd, hp]
  rfl

theorem reparse_playing (m : ComposerModule) (h : PlaysScenario m) :
    reparse m = .ok m ∧ m.composer.sequence.dirty = false ∧ ScenarioPattern m.composer :=
  ⟨reparse_clean m h.1, h.1, h.2.1⟩

theorem processAll_cons {m m1 : ComposerModule} {s : Sample} (ss : List Sample)
    (h : process m s = .ok m1) : processAll m (s :: ss) = processAll m1 ss := by
  show (match process m s with
    | .ok m1 => processAll m1 ss
    | .error e => .error e) = _
  rw [h]

/-- Any number of samples on a module that plays the scenario go through and leave a module
that plays the scenario. -/
theorem processAll_playing (ss : List Sample) :
    ∀ m : ComposerModule, PlaysScenario m → (∀ t ∈ ss, 1000 ≤ t.sampleRate) →
      ∃ m1, processAll m ss = .ok m1 ∧ PlaysScenario m1 := by
  induction ss with
  | nil =>
    intro m h _
    exact ⟨m, rfl, h⟩
  | cons s ss ih =>
    intro m h hr
    obtain ⟨r1, r2, r3⟩ := reparse_playing m h
    obtain ⟨m1, hp, hplay, -⟩ := scenario_sample s r1 r2 r3 h.2.2
      (hr s (List.mem_cons_self _ _))
    obtain ⟨m2, hp2, hplay2⟩ := ih m1 hplay (fun t ht => hr t (List.mem_cons_of_mem _ ht))
    exact ⟨m2, (processAll_cons ss hp).trans hp2, hplay2⟩

end ComposerModule

/-- The worked scenario on the padded score: a stopped module that holds the scenario's
score with its tracks padded to the fixed width, processing any samples at a sample rate of
at least 1000 Hz (run button, clock edges and levels, resets in any order), goes through
every one of them, and after every sample that leaves it running the CV output is 0, the
Accent output is 0 and, when the outputs were computed with `clockIgnoreOnReset = 0`, the
Gate output is 10 V exactly with the cursor on step 0 or 2 and the clock above 0.1 V, and 0
otherwise. -/
theorem scenarioPadded_plays (m : ComposerModule) (ss : List Sample) (s : Sample)
    (hseq : m.composer.sequence = scenarioPadded) (hstop : m.running = false)
    (hrates : ∀ t ∈ ss, 1000 ≤ t.sampleRate) (hrate : 1000 ≤ s.sampleRate) :
    ∃ m1 m0 m2, ComposerModule.processAll m ss = .ok m1 ∧ ComposerModule.reparse m1 = .ok m0 ∧
      ComposerModule.process m1 s = .ok m2 ∧
      ScenarioOutputs (ComposerModule.advance m0 s).clockIgnoreOnReset s m2 := by
  have hfirst : ∀ t : Sample, 1000 ≤ t.sampleRate →
      ∃ m0 m1, ComposerModule.reparse m = .ok m0 ∧ ComposerModule.process m t = .ok m1 ∧
        PlaysScenario m1 ∧ ScenarioOutputs (ComposerModule.advance m0 t).clockIgnoreOnReset t m1 := by
    intro t ht
    obtain ⟨m0, r1, r2, r3⟩ := ComposerModule.reparse_scenarioPadded m hseq
    obtain ⟨m1, hp, hplay, hout⟩ := ComposerModule.scenario_sample t r1 r2 r3
      (fun h => by rw [hstop] at h; cases h) ht
    exact ⟨m0, m1, r1, hp, hplay, hout⟩
  cases ss with
  | nil =>
    obtain ⟨m0, m1, r1, hp, -, hout⟩ := hfirst s hrate
    exact ⟨m, m0, m1, rfl, r1, hp, hout⟩
  | cons t ts =>
    obtain ⟨-, m1, -, hp, hplay, -⟩ := hfirst t (hrates t (List.mem_cons_self _ _))
    obtain ⟨m2, hp2, hplay2⟩ := ComposerModule.processAll_playing ts m1 hplay
      (fun u hu => hrates u (List.mem_cons_of_mem _ hu))
    obtain ⟨r1, r2, r3⟩ := ComposerModule.reparse_playing m2 hplay2
    obtain ⟨m3, hp3, -, hout⟩ := ComposerModule.scenario_sample s r1 r2 r3 hplay2.2.2 hrate
    exact ⟨m2, m2, m3, (ComposerModule.processAll_cons ts hp).trans hp2, r1, hp3, hout⟩

/-! ## The release from a decay -/

namespace Envelope3Generator

/-- One call of `process` in `RELEASE` that falls below 0. -/
theorem process_release_of_neg (e : Envelope3Generator) (dt : ℚ)
    (hs : e.stage = Stage.RELEASE)
    (h : e.value + COEFF * dt * (e.target - e.value) / (6 / 1000) < 0) :
    process e dt = { e with value := 0, stage := Stage.IDLE } := by
  unfold process
  simp only [hs, IDLE_EPS]
  simp only [reduceCtorEq, if_false, or_true, if_true]
  rw [if_pos h]

/-- A release towards the undershoot reaches `IDLE` with value 0 within `N + 1` calls when
the value starts at most `N` steps of `0.15 * COEFF * dt / 0.006` above 0. -/
theorem release_reaches_idle_within (dt : ℚ) (hdt : 0 < COEFF * dt)
    (hdt2 : COEFF * dt ≤ 6 / 1000) :
    ∀ (N : Nat) (e : Envelope3Generator), e.stage = Stage.RELEASE →
      e.target = 1 - OVERSHOOT → 0 ≤ e.value →
      e.value ≤ N * (15 / 100 * (COEFF * dt / (6 / 1000))) →
      ∃ n, n ≤ N + 1 ∧ (processN dt n e).stage = Stage.IDLE ∧ (processN dt n e).value = 0 := by
  have hk0 : 0 < COEFF * dt / (6 / 1000) := div_pos hdt (by norm_num)
  have hk1 : COEFF * dt / (6 / 1000) ≤ 1 := by
    rw [div_le_one (by norm_num)]
    exact hdt2
  have hstep : ∀ e : Envelope3Generator, e.target = 1 - OVERSHOOT →
      e.value + COEFF * dt * (e.target - e.value) / (6 / 1000)
        = (1 - COEFF * dt / (6 / 1000)) * e.value - 15 / 100 * (COEFF * dt / (6 / 1000)) := by
    intro e ht
    rw [ht]
    unfold OVERSHOOT
    ring
  intro N
  induction N with
  | zero =>
    intro e hs ht h0 h1
    have hv : e.value = 0 := by
      have : e.value ≤ 0 := by simpa using h1
      linarith
    refine ⟨1, le_refl _, ?_⟩
    have hneg : e.value + COEFF * dt * (e.target - e.value) / (6 / 1000) < 0 := by
      rw [hstep e ht, hv]
      linarith
    show (process e dt).stage = Stage.IDLE ∧ (process e dt).value = 0
    rw [process_release_of_neg e dt hs hneg]
    exact ⟨rfl, rfl⟩
  | succ N ih =>
    intro e hs ht h0 h1
    by_cases hneg : e.value + COEFF * dt * (e.target - e.value) / (6 / 1000) < 0
    · refine ⟨1, by omega, ?_⟩
      show (process e dt).stage = Stage.IDLE ∧ (process e dt).value = 0
      rw [process_release_of_neg e dt hs hneg]
      exact ⟨rfl, rfl⟩
    · have hnn := not_lt.mp hneg
      have hp := process_release_of_nonneg e dt hs hnn
      have hle : e.value + COEFF * dt * (e.target - e.value) / (6 / 1000)
          ≤ N * (15 / 100 * (COEFF * dt / (6 / 1000))) := by
        rw [hstep e ht]
        have h2 : (1 - COEFF * dt / (6 / 1000)) * e.value ≤ e.value := by
          have : 0 ≤ COEFF * dt / (6 / 1000) * e.value := mul_nonneg hk0.le h0
          linarith
        push_cast at h1
        linarith
      obtain ⟨n, hn, h3, h4⟩ := ih (process e dt) (by rw [hp]; exact hs) (by rw [hp]; exact ht)
        (by rw [hp]; exact hnn) (by rw [hp]; exact hle)
      exact ⟨n + 1, by omega, h3, h4⟩

/-- From a decay (target at the undershoot -0.15, value at or above 0) `release()` does
what the spec says: after finitely many calls of `process(dt)` the stage is `IDLE` and the
value 0. -/
theorem release_from_decay_reaches_idle (e : Envelope3Generator) (dt : ℚ)
    (ht : e.target = 1 - OVERSHOOT) (h0 : 0 ≤ e.value)
    (hdt : 0 < COEFF * dt) (hdt2 : COEFF * dt ≤ 6 / 1000) :
    ∃ n, (processN dt n e.release).stage = Stage.IDLE ∧
      (processN dt n e.release).value = 0 := by
  have hk0 : 0 < 15 / 100 * (COEFF * dt / (6 / 1000)) :=
    mul_pos (by norm_num) (div_pos hdt (by norm_num))
  obtain ⟨n, -, h1, h2⟩ := release_reaches_idle_within dt hdt hdt2
    ⌈e.value / (15 / 100 * (COEFF * dt / (6 / 1000)))⌉₊ e.release rfl ht h0
    (by
      have := Nat.le_ceil (e.value / (15 / 100 * (COEFF * dt / (6 / 1000))))
      rw [div_le_iff₀ hk0] at this
      exact this)
  exact ⟨n, h1, h2⟩

end Envelope3Generator

/-! ## `Envelope3Generator::process`: the stage transitions -/

namespace Envelope3Generator

end Envelope3Generator

namespace Envelope3Generator

end Envelope3Generator

namespace ComposerModule

/-- The look-ahead subscript is the next step of the bank, cyclically. -/
theorem nextIndex_mod (i : Fin 16) :
    nextIndex (i.val : Int) = (((i.val + 1) % 16 : Nat) : Int) := by
  have h := i.isLt
  unfold nextIndex
  split_ifs with hc <;> omega

/-- The look-behind subscript away from step 0 is the step before. -/
theorem previousIndex_mod (i : Fin 16) (h : 0 < i.val) :
    previousIndex (i.val : Int) = (((i.val + 15) % 16 : Nat) : Int) := by
  have hlt := i.isLt
  unfold previousIndex
  split_ifs with hc <;> omega

end ComposerModule

/-- C23, evaluated with the cursor on step 0: the look-behind subscript is 16, not 15, and the
read lands on `attributes[1][0]`, outside steps 0..15 of bank 0. On the pattern whose steps 0
and 1 are ties (0x10) and whose other steps, step 15 among them, are rests, with the clock low:
the Gate output is 10 V when `attributes[1][0]` has Gate set and 0 V when it is empty, while
the gate resolved with step 15 as the previous step is low. On the steps 1..15 the look-behind
subscript is `(s + 15) mod 16`, and on every step the look-ahead subscript is
`(s + 1) mod 16`. -/
theorem C23_look_behind_at_step_zero :
    ComposerModule.previousIndex 0 = 16 ∧
    (∀ m : ComposerModule,
      ComposerModule.readAttributes m (ComposerModule.previousIndex 0) = .ok m.attributes_1_0) ∧
    (∃ m1, ComposerModule.process (playing (patternOf [0x10, 0x10]) 0) (tick false 0) = .ok m1 ∧
      m1.gateOutput = 10) ∧
    (∃ m1, ComposerModule.process
        { playing (patternOf [0x10, 0x10]) 0 with attributes_1_0 := ⟨0⟩ } (tick false 0) = .ok m1 ∧
      m1.gateOutput = 0) ∧
    ComposerModule.resolveGate
      ((patternOf [0x10, 0x10]).attributes 0).getGate
      ((patternOf [0x10, 0x10]).attributes 0).getTie
      ((patternOf [0x10, 0x10]).attributes 0).getSlide
      ((patternOf [0x10, 0x10]).attributes 15).getGate
      ((patternOf [0x10, 0x10]).attributes 15).getTie
      ((patternOf [0x10, 0x10]).attributes 15).getSlide
      ((patternOf [0x10, 0x10]).attributes 1).getTie
      ((patternOf [0x10, 0x10]).attributes 1).getSlide false = false ∧
    (∀ i : Fin 16, 0 < i.val →
      ComposerModule.previousIndex (i.val : Int) = (((i.val + 15) % 16 : Nat) : Int)) ∧
    (∀ i : Fin 16,
      ComposerModule.nextIndex (i.val : Int) = (((i.val + 1) % 16 : Nat) : Int)) := by
  refine ⟨rfl, fun m => rfl, ?_, ?_, by decide, ComposerModule.previousIndex_mod,
    ComposerModule.nextIndex_mod⟩
  · obtain ⟨m1, h1, h2⟩ := @ComposerModule.process_gateOutput
      (playing (patternOf [0x10, 0x10]) 0) (playing (patternOf [0x10, 0x10]) 0)
      (tick false 0) 0 rfl rfl rfl rfl
    refine ⟨m1, h1, ?_⟩
    rw [h2]
    have hg : ComposerModule.gateAt (playing (patternOf [0x10, 0x10]) 0) 0
        (ComposerModule.clockHigh (tick false 0)) = true := by
      generalize ComposerModule.clockHigh (tick false 0) = c
      cases c <;> decide
    rw [if_pos hg]
  · obtain ⟨m1, h1, h2⟩ := @ComposerModule.process_gateOutput
      { playing (patternOf [0x10, 0x10]) 0 with attributes_1_0 := ⟨0⟩ }
      { playing (patternOf [0x10, 0x10]) 0 with attributes_1_0 := ⟨0⟩ }
      (tick false 0) 0 rfl rfl rfl rfl
    refine ⟨m1, h1, ?_⟩
    rw [h2]
    have hg : ComposerModule.gateAt
        { playing (patternOf [0x10, 0x10]) 0 with attributes_1_0 := ⟨0⟩ } 0
        (ComposerModule.clockHigh (tick false 0)) = false := by
      generalize ComposerModule.clockHigh (tick false 0) = c
      cases c <;> decide
    rw [if_neg (by rw [hg]; exact Bool.false_ne_true)]

/-! ## The shapes `parseSeq` leaves in the attributes -/

/-- The six attribute words of the three shapes. -/
theorem shape_of_word (x : StepAttributes)
    (h : x.attributes = 0 ∨ x.attributes = 0x10 ∨ x.attributes = 0x01 ∨ x.attributes = 0x05 ∨
      x.attributes = 0x09 ∨ x.attributes = 0x0D) :
    HasOneShape x ∧ FlagsConsistent x := by
  obtain ⟨w⟩ := x
  have hu : ∀ (s0 : StepShape), (⟨w⟩ : StepAttributes).getAttribute = s0.word →
      (∀ s : StepShape, s.word = s0.word → s = s0) → HasOneShape ⟨w⟩ := by
    intro s0 h0 huniq
    exact ⟨s0, h0, fun s hs => huniq s (hs.symm.trans h0)⟩
  have hinj : ∀ s s0 : StepShape, s.word = s0.word → s = s0 := by
    intro s s0
    cases s with
    | empty =>
      cases s0 with
      | empty => exact fun _ => rfl
      | tieOnly => decide
      | gate a b => cases a <;> cases b <;> decide
    | tieOnly =>
      cases s0 with
      | empty => decide
      | tieOnly => exact fun _ => rfl
      | gate a b => cases a <;> cases b <;> decide
    | gate c d =>
      cases s0 with
      | empty => cases c <;> cases d <;> decide
      | tieOnly => cases c <;> cases d <;> decide
      | gate a b => cases a <;> cases b <;> cases c <;> cases d <;> decide
  simp only at h
  rcases h with rfl | rfl | rfl | rfl | rfl | rfl
  · exact ⟨hu .empty rfl (fun s => hinj s _), by decide⟩
  · exact ⟨hu .tieOnly rfl (fun s => hinj s _), by decide⟩
  · exact ⟨hu (.gate false false) rfl (fun s => hinj s _), by decide⟩
  · exact ⟨hu (.gate true false) rfl (fun s => hinj s _), by decide⟩
  · exact ⟨hu (.gate false true) rfl (fun s => hinj s _), by decide⟩
  · exact ⟨hu (.gate true true) rfl (fun s => hinj s _), by decide⟩

/-- The slide/accent loop leaves on a cleared step the word 0, Accent, Slide or both. -/
theorem slideAccentCell_zero_word (c0 c1 : Char) :
    (slideAccentCell c0 c1 ⟨0⟩).attributes = 0 ∨ (slideAccentCell c0 c1 ⟨0⟩).attributes = 0x04 ∨
      (slideAccentCell c0 c1 ⟨0⟩).attributes = 0x08 ∨
      (slideAccentCell c0 c1 ⟨0⟩).attributes = 0x0C := by
  rw [slideAccentCell_eq]
  split_ifs
  · exact Or.inr (Or.inr (Or.inr rfl))
  · exact Or.inr (Or.inr (Or.inl rfl))
  · exact Or.inr (Or.inl rfl)
  · exact Or.inl rfl
  · exact Or.inl rfl

/-- The time loop turns a step that carries at most Accent and Slide into one of the six
words of the three shapes. -/
theorem timeCell_word (c : Char) (x : StepAttributes)
    (h : x.attributes = 0 ∨ x.attributes = 0x04 ∨ x.attributes = 0x08 ∨ x.attributes = 0x0C) :
    (timeCell c x).attributes = 0 ∨ (timeCell c x).attributes = 0x10 ∨
      (timeCell c x).attributes = 0x01 ∨ (timeCell c x).attributes = 0x05 ∨
      (timeCell c x).attributes = 0x09 ∨ (timeCell c x).attributes = 0x0D := by
  obtain ⟨w⟩ := x
  simp only at h
  unfold timeCell
  rcases h with rfl | rfl | rfl | rfl <;> split_ifs <;> decide

theorem loopCount_le_of_length_le {length : Int} (line : List Char) {i : Nat}
    (h : length ≤ (i : Int)) : loopCount length line ≤ i := by
  unfold loopCount
  omega

/-- The words the slide/accent stage leaves: at most Accent and Slide on every step, and
nothing on the steps from the header length on. -/
theorem slideAccent_stage_word {m : AcidComposer} {cm : cmatch} {length transpose : Int}
    {ns os : Fin 16 → ℚ} {as : Fin 16 → StepAttributes}
    {r : Option Int × (Fin 16 → StepAttributes)}
    (hst : Stages m cm length transpose ns os as r) (i : Fin 16) :
    ((as i).attributes = 0 ∨ (as i).attributes = 0x04 ∨ (as i).attributes = 0x08 ∨
      (as i).attributes = 0x0C) ∧ (length ≤ (i.val : Int) → as i = ⟨0⟩) := by
  rw [slideAccent_stage hst]
  by_cases hi : i.val < loopCount length m.sequence.slideAccentStr
  · rw [applyRange_apply_of_lt _ _ _ _ hi]
    refine ⟨slideAccentCell_zero_word _ _, fun h => ?_⟩
    have := loopCount_le_of_length_le m.sequence.slideAccentStr h
    omega
  · rw [applyRange_apply_of_ge _ _ _ _ (Nat.le_of_not_lt hi)]
    exact ⟨Or.inl rfl, fun _ => rfl⟩

/-- C24: after every `parseSeq` that returns 0 on a header of length `N ≤ 16` with a time track
of at least `N` characters, the attributes of every step `i < N` have exactly one of the three
shapes empty, Tie only, or Gate with a combination of Accent and Slide, so that no such step
has Tie together with Gate, Accent or Slide, or Accent or Slide without Gate; and every step
`i` with `N ≤ i < 16` has empty attributes, note 0 and octave 0. -/
theorem C24_parsed_step_shapes (m m1 : AcidComposer) (cm : cmatch) (N : Int)
    (hp : parseSeq m = .ok (0, m1))
    (hh : header_search (c_str m.sequence.headerStr) = some cm) (hN : stoi cm.str2 = .ok N)
    (h16 : N ≤ 16) (htime : N ≤ (m.sequence.timeStr.length : Int)) :
    (∀ i : Fin 16, (i.val : Int) < N →
      HasOneShape (m1.attributes i) ∧ FlagsConsistent (m1.attributes i)) ∧
    (∀ i : Fin 16, N ≤ (i.val : Int) →
      (m1.attributes i).getAttribute = 0 ∧ m1.notes i = 0 ∧ m1.octaves i = 0) := by
  obtain ⟨cm1, length, transpose, ns, os, as, r, hst⟩ :=
    stages_of_parseSeq hp (by rw [hh]; exact Option.some_ne_none _)
  obtain ⟨rfl, rfl⟩ := stages_header hst hh hN
  obtain ⟨hnotes, hoct, hattr, hcode⟩ := parseSeq_arrays hst hp
  obtain ⟨k, hkn, hk, hnone⟩ := timeLoop_result hst.time_eq
  have hkeq := hnone (hcode.mp rfl)
  subst hkeq
  refine ⟨fun i hi => ?_, fun i hi => ?_⟩
  · have hin : i.val < loopCount length m.sequence.timeStr := lt_loopCount hi (by omega)
    apply shape_of_word
    rw [hattr, hk, applyRange_apply_of_lt as _ _ i hin]
    exact timeCell_word _ _ (slideAccent_stage_word hst i).1
  · have hns := ((notesLoop_iff _ _ _ _).mp hst.notes_eq).2
    have hos := ((octaveLoop_iff _ _ _ _).mp hst.octaves_eq).2
    refine ⟨?_, ?_, ?_⟩
    · rw [hattr, hk, applyRange_apply_of_ge as _ _ i
        (loopCount_le_of_length_le m.sequence.timeStr hi), (slideAccent_stage_word hst i).2 hi]
      rfl
    · rw [hnotes, hns, applyRange_apply_of_ge _ _ _ i
        (loopCount_le_of_length_le m.sequence.notesStr hi)]
    · rw [hoct, hos, applyRange_apply_of_ge _ _ _ i
        (loopCount_le_of_length_le m.sequence.octaveStr hi)]

/-- C24, under the header `A 6` with the slide/accent cells blank, `A`, `S`, `SA`, `S`, `A` and
the time track `oooo_` and a blank: the six steps have one shape each, and step 6 is empty
with note 0 and octave 0. -/
theorem C24_witness :
    ∃ m1, parseSeq (priorState (score "A 6" "C D E F G A " "UD" "  A S SAS A " "oooo_ "))
        = .ok (0, m1) ∧
      (∀ i : Fin 16, (i.val : Int) < 6 →
        HasOneShape (m1.attributes i) ∧ FlagsConsistent (m1.attributes i)) ∧
      (m1.attributes 6).getAttribute = 0 ∧ m1.notes 6 = 0 ∧ m1.octaves 6 = 0 :=
  ⟨_, rfl,
    (C24_parsed_step_shapes
      (priorState (score "A 6" "C D E F G A " "UD" "  A S SAS A " "oooo_ ")) _
      ⟨['A'], ['6'], []⟩ 6 rfl (by decide) rfl (by decide) (by decide)).1,
    (C24_parsed_step_shapes
      (priorState (score "A 6" "C D E F G A " "UD" "  A S SAS A " "oooo_ ")) _
      ⟨['A'], ['6'], []⟩ 6 rfl (by decide) rfl (by decide) (by decide)).2 6 (by decide)⟩

/-- The words `parseSeq` leaves under the header `A 6` with the slide/accent cells blank, `A`,
`S`, `SA`, `S`, `A` and the time track `oooo_` and a blank: the four Gate words, Tie only and
empty. -/
theorem parseSeq_shapes_example :
    ∃ m1, parseSeq (priorState (score "A 6" "C D E F G A " "UD" "  A S SAS A " "oooo_ "))
        = .ok (0, m1) ∧
      (m1.attributes 0).getAttribute = 0x01 ∧ (m1.attributes 1).getAttribute = 0x05 ∧
      (m1.attributes 2).getAttribute = 0x09 ∧ (m1.attributes 3).getAttribute = 0x0D ∧
      (m1.attributes 4).getAttribute = 0x10 ∧ (m1.attributes 5).getAttribute = 0 :=
  ⟨_, rfl, by decide, by decide, by decide, by decide, by decide, by decide⟩

/-! ## Rounding to nearest, ties to even -/

theorem roundHalfEven_sub_le (y : ℚ) : ((roundHalfEven y : Int) : ℚ) - y ≤ 1 / 2 := by
  have h1 := Int.floor_le y
  have h2 := Int.lt_floor_add_one y
  unfold roundHalfEven
  split_ifs with ha hb hc
  · linarith
  · push_cast
    linarith
  · linarith
  · push_cast
    linarith

theorem sub_roundHalfEven_le (y : ℚ) : y - ((roundHalfEven y : Int) : ℚ) ≤ 1 / 2 := by
  have h1 := Int.floor_le y
  have h2 := Int.lt_floor_add_one y
  unfold roundHalfEven
  split_ifs with ha hb hc
  · linarith
  · push_cast
    linarith
  · linarith
  · push_cast
    linarith

/-- Rounding does not pass an integer above. -/
theorem roundHalfEven_le_of_le {y : ℚ} {n : Int} (h : y ≤ (n : ℚ)) : roundHalfEven y ≤ n := by
  have h1 : ((roundHalfEven y : Int) : ℚ) < (n : ℚ) + 1 := by
    have := roundHalfEven_sub_le y
    linarith
  have h2 : roundHalfEven y < n + 1 := by exact_mod_cast h1
  omega

/-- Rounding does not pass an integer below. -/
theorem le_roundHalfEven_of_le {y : ℚ} {n : Int} (h : (n : ℚ) ≤ y) : n ≤ roundHalfEven y := by
  have h1 : (n : ℚ) - 1 < ((roundHalfEven y : Int) : ℚ) := by
    have := sub_roundHalfEven_le y
    linarith
  have h2 : n - 1 < roundHalfEven y := by exact_mod_cast h1
  omega

/-- A value less than half a unit below an integer rounds below that integer. -/
theorem roundHalfEven_lt_of_lt {y : ℚ} {n : Int} (h : y < (n : ℚ) - 1 / 2) :
    roundHalfEven y ≤ n - 1 := by
  have h1 : ((roundHalfEven y : Int) : ℚ) < (n : ℚ) := by
    have := roundHalfEven_sub_le y
    linarith
  have h2 : roundHalfEven y < n := by exact_mod_cast h1
  omega

/-- A value less than half a unit above an integer rounds to that integer. -/
theorem roundHalfEven_eq_of_near {y : ℚ} {n : Int} (h1 : (n : ℚ) ≤ y) (h2 : y < (n : ℚ) + 1 / 2) :
    roundHalfEven y = n := by
  have h3 := le_roundHalfEven_of_le h1
  have h4 : ((roundHalfEven y : Int) : ℚ) < (n : ℚ) + 1 := by
    have := roundHalfEven_sub_le y
    linarith
  have h5 : roundHalfEven y < n + 1 := by exact_mod_cast h4
  omega

theorem spacingOf_pos (p : Nat) (emin : Int) (x : ℚ) : 0 < spacingOf p emin x := by
  unfold spacingOf
  positivity

/-- The rounding error is at most half the spacing. -/
theorem abs_roundTo_sub_le (p : Nat) (emin : Int) (x : ℚ) :
    |roundTo p emin x - x| ≤ spacingOf p emin x / 2 := by
  have hq := spacingOf_pos p emin x
  have h1 := roundHalfEven_sub_le (x / spacingOf p emin x)
  have h2 := sub_roundHalfEven_le (x / spacingOf p emin x)
  have hx : x = x / spacingOf p emin x * spacingOf p emin x := by
    field_simp
  unfold roundTo
  rw [abs_le]
  constructor
  · have := mul_le_mul_of_nonneg_right h2 (le_of_lt hq)
    rw [sub_mul, ← hx] at this
    linarith
  · have := mul_le_mul_of_nonneg_right h1 (le_of_lt hq)
    rw [sub_mul, ← hx] at this
    linarith

/-- On the normal range the binade of a positive `x` is `⌊log2 x⌋`, with `2^binade ≤ x`. -/
theorem two_zpow_binadeOf_le {emin : Int} {x : ℚ} (h : (2 : ℚ) ^ emin ≤ x) :
    (2 : ℚ) ^ binadeOf emin x ≤ x := by
  have hpos : 0 < x := lt_of_lt_of_le (by positivity) h
  have habs : |x| = x := abs_of_pos hpos
  have h1 : emin ≤ Int.log 2 x := by
    have := (Int.zpow_le_iff_le_log (b := 2) (by norm_num) hpos).mp (by
      show ((2 : ℕ) : ℚ) ^ emin ≤ x
      exact_mod_cast h)
    exact this
  unfold binadeOf
  rw [habs, max_eq_left h1]
  have := Int.zpow_log_le_self (b := 2) (by norm_num) hpos
  exact_mod_cast this

/-- The relative error of a rounding on the normal range is at most `2^(-p)`. -/
theorem abs_roundTo_sub_le_mul {p : Nat} {emin : Int} {x : ℚ} (h : (2 : ℚ) ^ emin ≤ x) :
    |roundTo p emin x - x| ≤ x / 2 ^ p := by
  have h1 := abs_roundTo_sub_le p emin x
  have h2 := two_zpow_binadeOf_le h
  have h3 : spacingOf p emin x / 2 = (2 : ℚ) ^ binadeOf emin x / 2 ^ p := by
    unfold spacingOf
    rw [zpow_sub₀ (by norm_num), zpow_sub₀ (by norm_num), zpow_natCast, zpow_one]
    field_simp
    ring
  rw [h3] at h1
  have h4 : (2 : ℚ) ^ binadeOf emin x / 2 ^ p ≤ x / 2 ^ p :=
    div_le_div_of_nonneg_right h2 (by positivity)
  linarith

/-- A `float` result on the normal range is at most `2^(-24)` of it below the exact one. -/
theorem binary32_ge {x : ℚ} (h : 1 / 2 ^ 126 ≤ x) : x * (1 - 1 / 2 ^ 24) ≤ binary32 x := by
  have h0 : (2 : ℚ) ^ (-126 : Int) ≤ x := by
    rw [zpow_neg, ← one_div]
    exact_mod_cast h
  have h1 := abs_roundTo_sub_le_mul (p := 24) h0
  rw [abs_le] at h1
  unfold binary32
  linarith [h1.1]

/-- A `float` result on the normal range is at most `2^(-24)` of it above the exact one. -/
theorem binary32_le {x : ℚ} (h : 1 / 2 ^ 126 ≤ x) : binary32 x ≤ x * (1 + 1 / 2 ^ 24) := by
  have h0 : (2 : ℚ) ^ (-126 : Int) ≤ x := by
    rw [zpow_neg, ← one_div]
    exact_mod_cast h
  have h1 := abs_roundTo_sub_le_mul (p := 24) h0
  rw [abs_le] at h1
  unfold binary32
  linarith [h1.2]

theorem binadeOf_of_half_le {y : ℚ} (h1 : 1 / 2 ≤ y) (h2 : y < 1) : binadeOf (-126) y = -1 := by
  have hpos : 0 < y := by linarith
  have habs : |y| = y := abs_of_pos hpos
  have ha : (-1 : Int) ≤ Int.log 2 y :=
    (Int.zpow_le_iff_le_log (b := 2) (by norm_num) hpos).mp (by
      rw [zpow_neg, zpow_one]
      norm_num
      linarith)
  have hb : Int.log 2 y < 0 :=
    (Int.lt_zpow_iff_log_lt (b := 2) (by norm_num) hpos).mp (by
      rw [zpow_zero]
      exact h2)
  unfold binadeOf
  rw [habs]
  omega

/-- Between 1/2 and 1 the `float` numbers are the multiples of `2^(-24)`. -/
theorem binary32_of_half_le {y : ℚ} (h1 : 1 / 2 ≤ y) (h2 : y < 1) :
    binary32 y = (roundHalfEven (y * 2 ^ 24) : ℚ) / 2 ^ 24 := by
  have hs : spacingOf 24 (-126) y = 1 / 2 ^ 24 := by
    unfold spacingOf
    rw [binadeOf_of_half_le h1 h2]
    norm_num
  unfold binary32 roundTo
  rw [hs]
  have : y / (1 / 2 ^ 24) = y * 2 ^ 24 := by
    field_simp
  rw [this]
  field_simp

/-- A value below 1/2 is rounded to a `float` that is at most 1/2. -/
theorem binary32_le_half {y : ℚ} (h : y < 1 / 2) : binary32 y ≤ 1 / 2 := by
  have hq := spacingOf_pos 24 (-126) y
  by_cases hy : y ≤ 0
  · have h1 : y / spacingOf 24 (-126) y ≤ ((0 : Int) : ℚ) := by
      rw [Int.cast_zero]
      exact div_nonpos_of_nonpos_of_nonneg hy (le_of_lt hq)
    have h2 := roundHalfEven_le_of_le h1
    have h3 : ((roundHalfEven (y / spacingOf 24 (-126) y) : Int) : ℚ) ≤ 0 := by
      exact_mod_cast h2
    unfold binary32 roundTo
    have := mul_nonpos_of_nonpos_of_nonneg h3 (le_of_lt hq)
    linarith
  · have hpos : 0 < y := lt_of_not_le hy
    have habs : |y| = y := abs_of_pos hpos
    have hlog : Int.log 2 y < -1 :=
      (Int.lt_zpow_iff_log_lt (b := 2) (by norm_num) hpos).mp (by
        rw [zpow_neg, zpow_one]
        norm_num
        linarith)
    have hlt := Int.lt_zpow_succ_log_self (b := 2) (by norm_num) y
    have hb1 : Int.log 2 y + 1 ≤ binadeOf (-126) y + 1 := by
      unfold binadeOf
      rw [habs]
      have := le_max_left (Int.log 2 y) (-126)
      omega
    have hb2 : binadeOf (-126) y + 1 ≤ -1 := by
      unfold binadeOf
      rw [habs]
      have : max (Int.log 2 y) (-126) ≤ -2 := max_le (by omega) (by norm_num)
      omega
    have hy2 : y < (2 : ℚ) ^ (binadeOf (-126) y + 1) := by
      have h1 : ((2 : ℕ) : ℚ) ^ (Int.log 2 y + 1) ≤ ((2 : ℕ) : ℚ) ^ (binadeOf (-126) y + 1) :=
        zpow_le_zpow_right₀ (by norm_num) hb1
      have : y < ((2 : ℕ) : ℚ) ^ (binadeOf (-126) y + 1) := lt_of_lt_of_le hlt h1
      exact_mod_cast this
    have hsp : (16777216 : ℚ) * spacingOf 24 (-126) y = (2 : ℚ) ^ (binadeOf (-126) y + 1) := by
      unfold spacingOf
      rw [zpow_sub₀ (by norm_num), zpow_add₀ (by norm_num)]
      norm_num
      field_simp
      ring
    have h1 : y / spacingOf 24 (-126) y ≤ ((16777216 : Int) : ℚ) := by
      rw [div_le_iff₀ hq]
      push_cast
      rw [hsp]
      exact le_of_lt hy2
    have h2 := roundHalfEven_le_of_le h1
    have h3 : ((roundHalfEven (y / spacingOf 24 (-126) y) : Int) : ℚ) ≤ 16777216 := by
      exact_mod_cast h2
    have h4 : (2 : ℚ) ^ (binadeOf (-126) y + 1) ≤ (2 : ℚ) ^ (-1 : Int) :=
      zpow_le_zpow_right₀ (by norm_num) hb2
    unfold binary32 roundTo
    calc ((roundHalfEven (y / spacingOf 24 (-126) y) : Int) : ℚ) * spacingOf 24 (-126) y
        ≤ 16777216 * spacingOf 24 (-126) y := mul_le_mul_of_nonneg_right h3 (le_of_lt hq)
      _ = (2 : ℚ) ^ (binadeOf (-126) y + 1) := hsp
      _ ≤ (2 : ℚ) ^ (-1 : Int) := h4
      _ = 1 / 2 := by norm_num

/-- Rounding keeps a nonnegative value nonnegative. -/
theorem binary32_nonneg {x : ℚ} (h : 0 ≤ x) : 0 ≤ binary32 x := by
  have hq := spacingOf_pos 24 (-126) x
  have h1 : (((0 : Int) : ℚ)) ≤ x / spacingOf 24 (-126) x := by
    rw [Int.cast_zero]
    exact div_nonneg h (le_of_lt hq)
  have h2 := le_roundHalfEven_of_le h1
  have h3 : (0 : ℚ) ≤ ((roundHalfEven (x / spacingOf 24 (-126) x) : Int) : ℚ) := by
    exact_mod_cast h2
  unfold binary32 roundTo
  exact mul_nonneg h3 (le_of_lt hq)

/-! ## The two `float` constants of the envelope -/

theorem binadeOf_eq {y : ℚ} {b : Int} (hb : -126 ≤ b) (h1 : (2 : ℚ) ^ b ≤ y)
    (h2 : y < (2 : ℚ) ^ (b + 1)) : binadeOf (-126) y = b := by
  have hpos : 0 < y := lt_of_lt_of_le (by positivity) h1
  have habs : |y| = y := abs_of_pos hpos
  have ha : b ≤ Int.log 2 y :=
    (Int.zpow_le_iff_le_log (b := 2) (by norm_num) hpos).mp (by exact_mod_cast h1)
  have hc : Int.log 2 y < b + 1 :=
    (Int.lt_zpow_iff_log_lt (b := 2) (by norm_num) hpos).mp (by exact_mod_cast h2)
  unfold binadeOf
  rw [habs]
  omega

/-- The constant `OVERSHOOT = 1.15f` is the `float` 9646899 / 2^23. -/
theorem binary32_OVERSHOOT : binary32 Envelope3Generator.OVERSHOOT = 9646899 / 8388608 := by
  have hb : binadeOf (-126) Envelope3Generator.OVERSHOOT = 0 :=
    binadeOf_eq (by norm_num) (by norm_num [Envelope3Generator.OVERSHOOT])
      (by norm_num [Envelope3Generator.OVERSHOOT])
  have hs : spacingOf 24 (-126) Envelope3Generator.OVERSHOOT = 1 / 8388608 := by
    unfold spacingOf
    rw [hb]
    norm_num
  have hr : roundHalfEven (Envelope3Generator.OVERSHOOT / (1 / 8388608)) = 9646899 :=
    roundHalfEven_eq_of_near (by norm_num [Envelope3Generator.OVERSHOOT])
      (by norm_num [Envelope3Generator.OVERSHOOT])
  unfold binary32 roundTo
  rw [hs, hr]
  norm_num

/-- The constant `COEFF = 2.03688192726f` is the `float` 4271651 / 2^21. -/
theorem binary32_COEFF : binary32 Envelope3Generator.COEFF = 4271651 / 2097152 := by
  have hb : binadeOf (-126) Envelope3Generator.COEFF = 1 :=
    binadeOf_eq (by norm_num) (by norm_num [Envelope3Generator.COEFF])
      (by norm_num [Envelope3Generator.COEFF])
  have hs : spacingOf 24 (-126) Envelope3Generator.COEFF = 1 / 4194304 := by
    unfold spacingOf
    rw [hb]
    norm_num
  have hr : roundHalfEven (Envelope3Generator.COEFF / (1 / 4194304)) = 8543302 :=
    roundHalfEven_eq_of_near (by norm_num [Envelope3Generator.COEFF])
      (by norm_num [Envelope3Generator.COEFF])
  unfold binary32 roundTo
  rw [hs, hr]
  norm_num

/-! ## The attack in binary32: the increment of one call -/

namespace Envelope3Generator

theorem processN32_succ (dt : ℚ) (n : Nat) (e : Envelope3Generator) :
    processN32 dt (n + 1) e = process32 (processN32 dt n e) dt := by
  induction n generalizing e with
  | zero => rfl
  | succ n ih =>
    show processN32 dt (n + 1) (process32 e dt) = _
    rw [ih]
    rfl

/-- The increment `COEFF * delta_time * (target - value) / attack_time` as the program
computes it, for `w = target - value`. -/
theorem increment32_bounds {w T dt : ℚ} (hdt : 1 / 2 ^ 100 ≤ dt) (hT : 0 < T)
    (hk : 1 / 2 ^ 100 ≤ COEFF * dt / T) (hw : 1 / 8 ≤ w) :
    COEFF * dt / T * w * (1 - 1 / 2 ^ 24) ^ 5
        ≤ binary32 (binary32 (binary32 (binary32 COEFF * dt) * binary32 w) / T) ∧
      binary32 (binary32 (binary32 (binary32 COEFF * dt) * binary32 w) / T)
        ≤ COEFF * dt / T * w * (1 + 1 / 2 ^ 24) ^ 5 := by
  have hdt0 : 0 < dt := lt_of_lt_of_le (by norm_num) hdt
  have hw0 : 0 < w := lt_of_lt_of_le (by norm_num) hw
  have hC0 : 0 < COEFF := COEFF_pos
  have hC2 : 2 ≤ COEFF := by
    unfold COEFF
    norm_num
  obtain ⟨ρ, hρ⟩ : ∃ ρ : ℚ, ρ = 1 - 1 / 2 ^ 24 := ⟨_, rfl⟩
  obtain ⟨σ, hσ⟩ : ∃ σ : ℚ, σ = 1 + 1 / 2 ^ 24 := ⟨_, rfl⟩
  have hρ0 : 0 < ρ := by rw [hρ]; norm_num
  have hρ1 : 3 / 4 ≤ ρ := by rw [hρ]; norm_num
  have hρ2 : ρ ≤ 1 := by rw [hρ]; norm_num
  have hσ0 : 0 < σ := by rw [hσ]; norm_num
  rw [← hρ, ← hσ]
  -- the constant
  have c1 : COEFF * ρ ≤ binary32 COEFF := by
    rw [hρ]
    exact binary32_ge (le_trans (by norm_num) hC2)
  have c2 : binary32 COEFF ≤ COEFF * σ := by
    rw [hσ]
    exact binary32_le (le_trans (by norm_num) hC2)
  have c0 : 1 ≤ binary32 COEFF := by nlinarith
  -- the product with the time step
  have a0 : 1 / 2 ^ 126 ≤ binary32 COEFF * dt := by
    have : 1 * (1 / 2 ^ 100 : ℚ) ≤ binary32 COEFF * dt :=
      mul_le_mul c0 hdt (by norm_num) (by linarith)
    linarith [show (1 / 2 ^ 126 : ℚ) ≤ 1 * (1 / 2 ^ 100) by norm_num]
  have a1 : COEFF * dt * ρ ^ 2 ≤ binary32 (binary32 COEFF * dt) := by
    have h1 := binary32_ge a0
    rw [← hρ] at h1
    have h2 : COEFF * ρ * dt * ρ ≤ binary32 COEFF * dt * ρ := by gcongr
    calc COEFF * dt * ρ ^ 2 = COEFF * ρ * dt * ρ := by ring
      _ ≤ _ := h2
      _ ≤ _ := h1
  have a2 : binary32 (binary32 COEFF * dt) ≤ COEFF * dt * σ ^ 2 := by
    have h1 := binary32_le a0
    rw [← hσ] at h1
    have h2 : binary32 COEFF * dt * σ ≤ COEFF * σ * dt * σ := by gcongr
    calc binary32 (binary32 COEFF * dt) ≤ _ := h1
      _ ≤ _ := h2
      _ = COEFF * dt * σ ^ 2 := by ring
  have a3 : 1 / 2 ^ 100 ≤ binary32 (binary32 COEFF * dt) := by
    have h1 : (1 : ℚ) ≤ COEFF * ρ ^ 2 := by nlinarith
    have h2 : 1 * dt ≤ COEFF * ρ ^ 2 * dt := mul_le_mul_of_nonneg_right h1 (le_of_lt hdt0)
    have h3 : COEFF * ρ ^ 2 * dt = COEFF * dt * ρ ^ 2 := by ring
    linarith
  have a4 : 0 < binary32 (binary32 COEFF * dt) := lt_of_lt_of_le (by norm_num) a3
  -- the difference
  have b1 : w * ρ ≤ binary32 w := by
    rw [hρ]
    exact binary32_ge (le_trans (by norm_num) hw)
  have b2 : binary32 w ≤ w * σ := by
    rw [hσ]
    exact binary32_le (le_trans (by norm_num) hw)
  have b3 : 1 / 16 ≤ binary32 w := by nlinarith
  have b4 : 0 < binary32 w := lt_of_lt_of_le (by norm_num) b3
  -- the product of the two
  have p0 : 1 / 2 ^ 126 ≤ binary32 (binary32 COEFF * dt) * binary32 w := by
    have : (1 / 2 ^ 100 : ℚ) * (1 / 16) ≤ binary32 (binary32 COEFF * dt) * binary32 w :=
      mul_le_mul a3 b3 (by norm_num) (le_of_lt a4)
    linarith [show (1 / 2 ^ 126 : ℚ) ≤ 1 / 2 ^ 100 * (1 / 16) by norm_num]
  have p1 : COEFF * dt * w * ρ ^ 4
      ≤ binary32 (binary32 (binary32 COEFF * dt) * binary32 w) := by
    have h1 := binary32_ge p0
    rw [← hρ] at h1
    have h2 : COEFF * dt * ρ ^ 2 * (w * ρ) * ρ
        ≤ binary32 (binary32 COEFF * dt) * binary32 w * ρ := by gcongr
    calc COEFF * dt * w * ρ ^ 4 = COEFF * dt * ρ ^ 2 * (w * ρ) * ρ := by ring
      _ ≤ _ := h2
      _ ≤ _ := h1
  have p2 : binary32 (binary32 (binary32 COEFF * dt) * binary32 w)
      ≤ COEFF * dt * w * σ ^ 4 := by
    have h1 := binary32_le p0
    rw [← hσ] at h1
    have h2 : binary32 (binary32 COEFF * dt) * binary32 w * σ
        ≤ COEFF * dt * σ ^ 2 * (w * σ) * σ := by gcongr
    calc binary32 (binary32 (binary32 COEFF * dt) * binary32 w) ≤ _ := h1
      _ ≤ _ := h2
      _ = COEFF * dt * w * σ ^ 4 := by ring
  -- the quotient
  have q1 : COEFF * dt / T * w * ρ ^ 4
      ≤ binary32 (binary32 (binary32 COEFF * dt) * binary32 w) / T := by
    have := div_le_div_of_nonneg_right p1 (le_of_lt hT)
    calc COEFF * dt / T * w * ρ ^ 4 = COEFF * dt * w * ρ ^ 4 / T := by ring
      _ ≤ _ := this
  have q2 : binary32 (binary32 (binary32 COEFF * dt) * binary32 w) / T
      ≤ COEFF * dt / T * w * σ ^ 4 := by
    have := div_le_div_of_nonneg_right p2 (le_of_lt hT)
    calc binary32 (binary32 (binary32 COEFF * dt) * binary32 w) / T ≤ _ := this
      _ = COEFF * dt / T * w * σ ^ 4 := by ring
  have q0 : 1 / 2 ^ 126 ≤ binary32 (binary32 (binary32 COEFF * dt) * binary32 w) / T := by
    have h1 : (1 / 2 ^ 100 : ℚ) * (1 / 8) ≤ COEFF * dt / T * w :=
      mul_le_mul hk hw (by norm_num) (le_trans (by norm_num) hk)
    have h2 : (81 / 256 : ℚ) ≤ ρ ^ 4 := by
      have : (3 / 4 : ℚ) ^ 4 ≤ ρ ^ 4 := pow_le_pow_left₀ (by norm_num) hρ1 4
      linarith [show (81 / 256 : ℚ) = (3 / 4) ^ 4 by norm_num]
    have h3 : (1 / 2 ^ 100 : ℚ) * (1 / 8) * (81 / 256) ≤ COEFF * dt / T * w * ρ ^ 4 :=
      mul_le_mul h1 h2 (by norm_num) (le_trans (by norm_num) h1)
    linarith [show (1 / 2 ^ 126 : ℚ) ≤ 1 / 2 ^ 100 * (1 / 8) * (81 / 256) by norm_num]
  have d1 := binary32_ge q0
  have d2 := binary32_le q0
  rw [← hρ] at d1
  rw [← hσ] at d2
  constructor
  · have h2 : COEFF * dt / T * w * ρ ^ 4 * ρ
        ≤ binary32 (binary32 (binary32 COEFF * dt) * binary32 w) / T * ρ := by gcongr
    calc COEFF * dt / T * w * ρ ^ 5 = COEFF * dt / T * w * ρ ^ 4 * ρ := by ring
      _ ≤ _ := h2
      _ ≤ _ := d1
  · have h2 : binary32 (binary32 (binary32 COEFF * dt) * binary32 w) / T * σ
        ≤ COEFF * dt / T * w * σ ^ 4 * σ := by gcongr
    calc binary32 (binary32 (binary32 (binary32 COEFF * dt) * binary32 w) / T) ≤ _ := d2
      _ ≤ _ := h2
      _ = COEFF * dt / T * w * σ ^ 5 := by ring

end Envelope3Generator

namespace Envelope3Generator

/-- One call of `process` in binary32, in `ATTACK`, that stays at or below 1.0. -/
theorem process32_attack_below (e : Envelope3Generator) (dt : ℚ) (hs : e.stage = Stage.ATTACK)
    (h : binary32 (e.value + binary32 (binary32 (binary32 (binary32 COEFF * dt)
        * binary32 (e.target - e.value)) / e.attack_time)) ≤ 1) :
    process32 e dt
      = { e with value := binary32 (e.value + binary32 (binary32 (binary32 (binary32 COEFF * dt)
          * binary32 (e.target - e.value)) / e.attack_time)) } := by
  unfold process32
  simp only [hs]
  simp only [reduceCtorEq, if_false, if_true]
  rw [if_neg (not_lt.mpr h)]

/-- One call of `process` in binary32, in `ATTACK`, that crosses 1.0. -/
theorem process32_attack_crossing (e : Envelope3Generator) (dt : ℚ)
    (hs : e.stage = Stage.ATTACK)
    (h : 1 < binary32 (e.value + binary32 (binary32 (binary32 (binary32 COEFF * dt)
        * binary32 (e.target - e.value)) / e.attack_time))) :
    process32 e dt
      = { e with
          value := 1
          target := binary32 (1 - binary32 OVERSHOOT)
          stage := Stage.DECAY
          decay_triggered := true } := by
  unfold process32
  simp only [hs]
  simp only [reduceCtorEq, if_false, if_true]
  rw [if_pos h]

/-- The `float` constant `1.15f` is within `2^(-24)` of 1.15, relatively. -/
theorem overshoot32_bounds :
    OVERSHOOT * (1 - 1 / 2 ^ 24) ≤ binary32 OVERSHOOT ∧
      binary32 OVERSHOOT ≤ OVERSHOOT * (1 + 1 / 2 ^ 24) := by
  have h : (1 / 2 ^ 126 : ℚ) ≤ OVERSHOOT := by
    unfold OVERSHOOT
    norm_num
  exact ⟨binary32_ge h, binary32_le h⟩

theorem trigger32_reset (e : Envelope3Generator) :
    e.reset.trigger32.stage = Stage.ATTACK ∧ e.reset.trigger32.target = binary32 OVERSHOOT ∧
      e.reset.trigger32.value = 0 ∧ e.reset.trigger32.attack_time = e.attack_time := by
  have h : e.reset.trigger32
      = { e.reset with
          target := binary32 OVERSHOOT, stage := Stage.ATTACK, attack_triggered := true } := by
    unfold trigger32
    rw [if_neg (by
      show ¬ Stage.IDLE = Stage.ATTACK
      decide)]
  rw [h]
  exact ⟨rfl, rfl, rfl, rfl⟩

/-- The progress of one call in `ATTACK` from a value in `[0, 1]`, when `COEFF * dt` is
between `attack_time / 2^17` and `attack_time`: the rounded new value is above the old one,
and its distance to the target has shrunk by the factor `1 - 0.94 * COEFF * dt / attack_time`
at least. -/
theorem attack32_progress {v T dt : ℚ} (hdt : 1 / 2 ^ 100 ≤ dt)
    (hk17 : T ≤ 2 ^ 17 * (COEFF * dt)) (hk1 : COEFF * dt ≤ T) (hv0 : 0 ≤ v) (hv1 : v ≤ 1) :
    v < binary32 (v + binary32 (binary32 (binary32 (binary32 COEFF * dt)
        * binary32 (binary32 OVERSHOOT - v)) / T)) ∧
      binary32 OVERSHOOT - binary32 (v + binary32 (binary32 (binary32 (binary32 COEFF * dt)
        * binary32 (binary32 OVERSHOOT - v)) / T))
        ≤ (1 - 94 / 100 * (COEFF * dt / T)) * (binary32 OVERSHOOT - v) := by
  have hdt0 : 0 < dt := lt_of_lt_of_le (by norm_num) hdt
  have hcd : 0 < COEFF * dt := mul_pos COEFF_pos hdt0
  have hT : 0 < T := lt_of_lt_of_le hcd hk1
  have hklo : 1 / 2 ^ 17 ≤ COEFF * dt / T := by
    rw [le_div_iff₀ hT]
    linarith
  have hto := overshoot32_bounds
  have hw : 1499 / 10000 ≤ binary32 OVERSHOOT - v := by
    have : (11499 / 10000 : ℚ) ≤ OVERSHOOT * (1 - 1 / 2 ^ 24) := by
      unfold OVERSHOOT
      norm_num
    linarith [hto.1]
  obtain ⟨d1, -⟩ := increment32_bounds (w := binary32 OVERSHOOT - v) hdt hT
    (le_trans (by norm_num) hklo) (le_trans (by norm_num) hw)
  obtain ⟨k, hkdef⟩ : ∃ k : ℚ, k = COEFF * dt / T := ⟨_, rfl⟩
  obtain ⟨w, hwdef⟩ : ∃ w : ℚ, w = binary32 OVERSHOOT - v := ⟨_, rfl⟩
  obtain ⟨d, hddef⟩ : ∃ d : ℚ, d = binary32 (binary32 (binary32 (binary32 COEFF * dt)
        * binary32 (binary32 OVERSHOOT - v)) / T) := ⟨_, rfl⟩
  rw [← hddef, ← hkdef, ← hwdef] at d1
  rw [← hddef, ← hkdef, ← hwdef]
  rw [← hkdef] at hklo
  rw [← hwdef] at hw
  -- the increment is at least `k * w * ρ^5`, far above the rounding unit
  have hρ5 : (9999 / 10000 : ℚ) ≤ (1 - 1 / 2 ^ 24) ^ 5 := by norm_num
  have hkw : (1 / 2 ^ 17 : ℚ) * (1499 / 10000) ≤ k * w :=
    mul_le_mul hklo hw (by norm_num) (le_trans (by norm_num) hklo)
  have hkw0 : 0 < k * w := lt_of_lt_of_le (by norm_num) hkw
  have hd : k * w * (9999 / 10000) ≤ d :=
    le_trans (mul_le_mul_of_nonneg_left hρ5 (le_of_lt hkw0)) d1
  have hd0 : 1 / 2 ^ 126 ≤ v + d := by
    linarith [show (1 / 2 ^ 126 : ℚ) ≤ 1 / 2 ^ 17 * (1499 / 10000) * (9999 / 10000) by norm_num]
  have hy := binary32_ge hd0
  have hu : (1 / 2 ^ 24 : ℚ) ≤ k * w * (59 / 1000) := by
    have : (1 / 2 ^ 17 : ℚ) * (1499 / 10000) * (59 / 1000) ≤ k * w * (59 / 1000) :=
      mul_le_mul_of_nonneg_right hkw (by norm_num)
    linarith [show (1 / 2 ^ 24 : ℚ) ≤ 1 / 2 ^ 17 * (1499 / 10000) * (59 / 1000) by norm_num]
  have hexp : (v + d) * (1 - 1 / 2 ^ 24) = v + d - v * (1 / 2 ^ 24) - d * (1 / 2 ^ 24) := by ring
  have hvu : v * (1 / 2 ^ 24) ≤ 1 / 2 ^ 24 := by
    have := mul_le_mul_of_nonneg_right hv1 (show (0 : ℚ) ≤ 1 / 2 ^ 24 by norm_num)
    linarith
  have hdpos : 0 < d := lt_of_lt_of_le (by positivity) hd
  have hdu : d * (1 / 2 ^ 24) ≤ d * (1 / 10000) :=
    mul_le_mul_of_nonneg_left (by norm_num) (le_of_lt hdpos)
  constructor
  · -- strictly above the old value
    nlinarith
  · -- the distance to the target shrinks
    nlinarith

end Envelope3Generator

/-! ## The attack in binary32: convergence to 1.0 -/

/-- The bound `exp(-1.034 * COEFF) < 13/100`, through `(1 + c/64)^64 ≤ exp c`. -/
theorem exp_neg_coeff_bound32 :
    Real.exp (-(1034 / 1000 * (203688192726 / 100000000000 : ℝ))) < 13 / 100 := by
  have h1 : 1 + 1034 / 1000 * (203688192726 / 100000000000 : ℝ) / 64
      ≤ Real.exp (1034 / 1000 * (203688192726 / 100000000000 : ℝ) / 64) := by
    have := Real.add_one_le_exp (1034 / 1000 * (203688192726 / 100000000000 : ℝ) / 64)
    linarith
  have h2 : (1 + 1034 / 1000 * (203688192726 / 100000000000 : ℝ) / 64) ^ 64
      ≤ Real.exp (1034 / 1000 * (203688192726 / 100000000000 : ℝ) / 64) ^ 64 :=
    pow_le_pow_left₀ (by norm_num) h1 64
  have h3 : Real.exp (1034 / 1000 * (203688192726 / 100000000000 : ℝ) / 64) ^ 64
      = Real.exp (1034 / 1000 * (203688192726 / 100000000000 : ℝ)) := by
    rw [← Real.exp_nat_mul]
    congr 1
    ring
  have h4 : (100 / 13 : ℝ) < (1 + 1034 / 1000 * (203688192726 / 100000000000 : ℝ) / 64) ^ 64 := by
    norm_num
  have h5 : (100 / 13 : ℝ) < Real.exp (1034 / 1000 * (203688192726 / 100000000000 : ℝ)) := by
    calc (100 / 13 : ℝ) < _ := h4
      _ ≤ _ := h2
      _ = _ := h3
  rw [Real.exp_neg]
  have hpos : (0 : ℝ) < Real.exp (1034 / 1000 * (203688192726 / 100000000000 : ℝ)) :=
    Real.exp_pos _
  rw [inv_lt_comm₀ hpos (by norm_num)]
  calc (13 / 100 : ℝ)⁻¹ = 100 / 13 := by norm_num
    _ < _ := h5

/-- Once `n * κ` exceeds `1.034 * COEFF`, the factor `(1 - κ)^n` is below 13/100. -/
theorem pow_one_sub_lt (κ : ℚ) (n : Nat) (hk1 : κ ≤ 1)
    (hn : 1034 / 1000 * Envelope3Generator.COEFF < n * κ) : (1 - κ) ^ n < 13 / 100 := by
  have hkr1 : (κ : ℝ) ≤ 1 := by exact_mod_cast hk1
  have hnr : 1034 / 1000 * (203688192726 / 100000000000 : ℝ) < (n : ℝ) * (κ : ℝ) := by
    have : ((1034 / 1000 * Envelope3Generator.COEFF : ℚ) : ℝ) < ((n * κ : ℚ) : ℝ) := by
      exact_mod_cast hn
    simpa [Envelope3Generator.COEFF] using this
  have h1 : (1 - (κ : ℝ)) ≤ Real.exp (-(κ : ℝ)) := by
    have := Real.add_one_le_exp (-(κ : ℝ))
    linarith
  have h2 : (1 - (κ : ℝ)) ^ n ≤ Real.exp (-(κ : ℝ)) ^ n :=
    pow_le_pow_left₀ (by linarith) h1 n
  have h3 : Real.exp (-(κ : ℝ)) ^ n = Real.exp ((n : ℝ) * -(κ : ℝ)) :=
    (Real.exp_nat_mul _ _).symm
  have h4 : Real.exp ((n : ℝ) * -(κ : ℝ))
      < Real.exp (-(1034 / 1000 * (203688192726 / 100000000000 : ℝ))) :=
    Real.exp_lt_exp.mpr (by linarith)
  have h5 : (1 - (κ : ℝ)) ^ n < 13 / 100 := by
    calc (1 - (κ : ℝ)) ^ n ≤ _ := h2
      _ = _ := h3
      _ < _ := h4
      _ < 13 / 100 := exp_neg_coeff_bound32
  have : (((1 - κ) ^ n : ℚ) : ℝ) < ((13 / 100 : ℚ) : ℝ) := by
    push_cast
    exact h5
  exact_mod_cast this

namespace Envelope3Generator

/-- One call of `process` in binary32 on an attack with its value in `[0, 1]`, when
`COEFF * dt` is between `attack_time / 2^17` and `attack_time`: either the call crosses 1.0
and enters `DECAY` at exactly 1.0, or the attack goes on with a larger value, at most 1.0,
whose distance to the target has shrunk by the factor
`1 - 0.94 * COEFF * dt / attack_time` at least. -/
theorem attack32_step (x : Envelope3Generator) (dt : ℚ) (hs : x.stage = Stage.ATTACK)
    (ht : x.target = binary32 OVERSHOOT) (hdt : 1 / 2 ^ 100 ≤ dt)
    (hk17 : x.attack_time ≤ 2 ^ 17 * (COEFF * dt)) (hk1 : COEFF * dt ≤ x.attack_time)
    (hv0 : 0 ≤ x.value) (hv1 : x.value ≤ 1) :
    ((process32 x dt).stage = Stage.DECAY ∧ (process32 x dt).value = 1) ∨
    ((process32 x dt).stage = Stage.ATTACK ∧ (process32 x dt).target = binary32 OVERSHOOT ∧
      (process32 x dt).attack_time = x.attack_time ∧ x.value < (process32 x dt).value ∧
      (process32 x dt).value ≤ 1 ∧
      binary32 OVERSHOOT - (process32 x dt).value
        ≤ (1 - 94 / 100 * (COEFF * dt / x.attack_time)) * (binary32 OVERSHOOT - x.value)) := by
  obtain ⟨p1, p2⟩ := attack32_progress hdt hk17 hk1 hv0 hv1
  rw [← ht] at p1
  by_cases hc : 1 < binary32 (x.value + binary32 (binary32 (binary32 (binary32 COEFF * dt)
        * binary32 (x.target - x.value)) / x.attack_time))
  · left
    rw [process32_attack_crossing x dt hs hc]
    exact ⟨rfl, rfl⟩
  · right
    rw [process32_attack_below x dt hs (not_lt.mp hc)]
    refine ⟨hs, ht, rfl, p1, not_lt.mp hc, ?_⟩
    show binary32 OVERSHOOT - binary32 (x.value + binary32 (binary32 (binary32
      (binary32 COEFF * dt) * binary32 (x.target - x.value)) / x.attack_time)) ≤ _
    rw [ht]
    exact p2

/-- While no call has left `ATTACK`, the attack from value 0 keeps its value in `[0, 1]` and
its distance to the target under `1.15f * (1 - 0.94 * COEFF * dt / attack_time)^n`. -/
theorem processN32_attack (e0 : Envelope3Generator) (dt : ℚ) (hs : e0.stage = Stage.ATTACK)
    (ht : e0.target = binary32 OVERSHOOT) (hv : e0.value = 0) (hdt : 1 / 2 ^ 100 ≤ dt)
    (hk17 : e0.attack_time ≤ 2 ^ 17 * (COEFF * dt)) (hk1 : COEFF * dt ≤ e0.attack_time) :
    ∀ n : Nat, (∀ j, j < n → (processN32 dt (j + 1) e0).stage = Stage.ATTACK) →
      (processN32 dt n e0).stage = Stage.ATTACK ∧
      (processN32 dt n e0).target = binary32 OVERSHOOT ∧
      (processN32 dt n e0).attack_time = e0.attack_time ∧
      0 ≤ (processN32 dt n e0).value ∧ (processN32 dt n e0).value ≤ 1 ∧
      binary32 OVERSHOOT - (processN32 dt n e0).value
        ≤ binary32 OVERSHOOT * (1 - 94 / 100 * (COEFF * dt / e0.attack_time)) ^ n := by
  have hdt0 : 0 < dt := lt_of_lt_of_le (by norm_num) hdt
  have hcd : 0 < COEFF * dt := mul_pos COEFF_pos hdt0
  have hT : 0 < e0.attack_time := lt_of_lt_of_le hcd hk1
  have hkle : COEFF * dt / e0.attack_time ≤ 1 := (div_le_one hT).mpr hk1
  have hfac : 0 ≤ 1 - 94 / 100 * (COEFF * dt / e0.attack_time) := by linarith
  intro n
  induction n with
  | zero =>
    intro _
    refine ⟨hs, ht, rfl, ?_, ?_, ?_⟩
    · show 0 ≤ e0.value
      rw [hv]
    · show e0.value ≤ 1
      rw [hv]
      norm_num
    · show binary32 OVERSHOOT - e0.value ≤ _
      rw [hv, pow_zero]
      linarith
  | succ n ih =>
    intro h
    obtain ⟨i1, i2, i3, i4, i5, i6⟩ := ih (fun j hj => h j (Nat.lt_succ_of_lt hj))
    have hstage := h n (Nat.lt_succ_self n)
    rw [processN32_succ] at hstage
    rw [processN32_succ]
    rcases attack32_step (processN32 dt n e0) dt i1 i2 hdt (by rw [i3]; exact hk17)
      (by rw [i3]; exact hk1) i4 i5 with ⟨q1, -⟩ | ⟨q1, q2, q3, q4, q5, q6⟩
    · rw [q1] at hstage
      exact absurd hstage (by decide)
    · refine ⟨q1, q2, q3.trans i3, le_trans i4 (le_of_lt q4), q5, ?_⟩
      rw [i3] at q6
      calc binary32 OVERSHOOT - (process32 (processN32 dt n e0) dt).value
          ≤ (1 - 94 / 100 * (COEFF * dt / e0.attack_time))
              * (binary32 OVERSHOOT - (processN32 dt n e0).value) := q6
        _ ≤ (1 - 94 / 100 * (COEFF * dt / e0.attack_time))
              * (binary32 OVERSHOOT * (1 - 94 / 100 * (COEFF * dt / e0.attack_time)) ^ n) :=
            mul_le_mul_of_nonneg_left i6 hfac
        _ = binary32 OVERSHOOT * (1 - 94 / 100 * (COEFF * dt / e0.attack_time)) ^ (n + 1) := by
            rw [pow_succ]
            ring

/-- Within `⌊1.1 * attack_time / dt⌋ + 1` calls the attack has left `ATTACK`. -/
theorem attack32_leaves (e0 : Envelope3Generator) (dt : ℚ) (hs : e0.stage = Stage.ATTACK)
    (ht : e0.target = binary32 OVERSHOOT) (hv : e0.value = 0) (hdt : 1 / 2 ^ 100 ≤ dt)
    (hk17 : e0.attack_time ≤ 2 ^ 17 * (COEFF * dt)) (hk1 : COEFF * dt ≤ e0.attack_time) :
    ∃ n, n ≤ ⌊11 / 10 * e0.attack_time / dt⌋₊ + 1 ∧
      (processN32 dt n e0).stage ≠ Stage.ATTACK := by
  have hdt0 : 0 < dt := lt_of_lt_of_le (by norm_num) hdt
  have hcd : 0 < COEFF * dt := mul_pos COEFF_pos hdt0
  have hT : 0 < e0.attack_time := lt_of_lt_of_le hcd hk1
  have hk0 : 0 < COEFF * dt / e0.attack_time := div_pos hcd hT
  have hkle : COEFF * dt / e0.attack_time ≤ 1 := (div_le_one hT).mpr hk1
  by_contra hno
  have hall : ∀ n, n ≤ ⌊11 / 10 * e0.attack_time / dt⌋₊ + 1 →
      (processN32 dt n e0).stage = Stage.ATTACK := by
    intro n hn
    by_contra hne
    exact hno ⟨n, hn, hne⟩
  obtain ⟨-, -, -, -, i5, i6⟩ := processN32_attack e0 dt hs ht hv hdt hk17 hk1
    (⌊11 / 10 * e0.attack_time / dt⌋₊ + 1) (fun j hj => hall (j + 1) (by omega))
  have hM : 1034 / 1000 * COEFF
      < ((⌊11 / 10 * e0.attack_time / dt⌋₊ + 1 : Nat) : ℚ)
        * (94 / 100 * (COEFF * dt / e0.attack_time)) := by
    have h1 : 11 / 10 * e0.attack_time / dt
        < ((⌊11 / 10 * e0.attack_time / dt⌋₊ + 1 : Nat) : ℚ) := by
      push_cast
      exact Nat.lt_floor_add_one _
    have h2 : 1034 / 1000 * COEFF
        = (11 / 10 * e0.attack_time / dt) * (94 / 100 * (COEFF * dt / e0.attack_time)) := by
      field_simp
      ring
    rw [h2]
    exact mul_lt_mul_of_pos_right h1 (by linarith)
  have hpow := pow_one_sub_lt (94 / 100 * (COEFF * dt / e0.attack_time))
    (⌊11 / 10 * e0.attack_time / dt⌋₊ + 1) (by linarith) hM
  have hto := overshoot32_bounds
  have hlo : (11499 / 10000 : ℚ) ≤ binary32 OVERSHOOT := by
    have : (11499 / 10000 : ℚ) ≤ OVERSHOOT * (1 - 1 / 2 ^ 24) := by
      unfold OVERSHOOT
      norm_num
    linarith [hto.1]
  have hlt : binary32 OVERSHOOT
      * (1 - 94 / 100 * (COEFF * dt / e0.attack_time)) ^ (⌊11 / 10 * e0.attack_time / dt⌋₊ + 1)
      < binary32 OVERSHOOT * (13 / 100) :=
    mul_lt_mul_of_pos_left hpow (by linarith)
  linarith

end Envelope3Generator

/-- C16, amended: in binary32 arithmetic, for every attack time `T ≤ 2^100` and every
`dt ≥ 2^(-100)` with `T / 2^17 ≤ COEFF*dt ≤ T`, from the reset envelope after `trigger()`
there is an `n ≤ 1.1*T/dt + 1` such that after `n` calls of `process(dt)` the value is exactly
1.0 and the stage is `DECAY`; after every smaller number of calls the stage is `ATTACK` and
the value is at most 1.0, and these values increase strictly from call to call. -/
theorem C16_attack_reaches_one (e : Envelope3Generator) (dt : ℚ)
    (hdt : 1 / 2 ^ 100 ≤ dt) (_hT : e.attack_time ≤ 2 ^ 100)
    (hk17 : e.attack_time ≤ 2 ^ 17 * (Envelope3Generator.COEFF * dt))
    (hk : Envelope3Generator.COEFF * dt ≤ e.attack_time) :
    ∃ n : Nat, (n : ℚ) ≤ 11 / 10 * e.attack_time / dt + 1 ∧
      (Envelope3Generator.processN32 dt n e.reset.trigger32).value = 1 ∧
      (Envelope3Generator.processN32 dt n e.reset.trigger32).stage = Stage.DECAY ∧
      (∀ j, j < n →
        (Envelope3Generator.processN32 dt j e.reset.trigger32).stage = Stage.ATTACK ∧
        (Envelope3Generator.processN32 dt j e.reset.trigger32).value ≤ 1) ∧
      (∀ j, j + 1 < n →
        (Envelope3Generator.processN32 dt j e.reset.trigger32).value
          < (Envelope3Generator.processN32 dt (j + 1) e.reset.trigger32).value) := by
  obtain ⟨s1, s2, s3, s4⟩ := Envelope3Generator.trigger32_reset e
  have hdt0 : 0 < dt := lt_of_lt_of_le (by norm_num) hdt
  have hT0 : 0 < e.attack_time :=
    lt_of_lt_of_le (mul_pos Envelope3Generator.COEFF_pos hdt0) hk
  have hk17' : e.reset.trigger32.attack_time ≤ 2 ^ 17 * (Envelope3Generator.COEFF * dt) := by
    rw [s4]
    exact hk17
  have hk' : Envelope3Generator.COEFF * dt ≤ e.reset.trigger32.attack_time := by
    rw [s4]
    exact hk
  have hx : 0 ≤ 11 / 10 * e.attack_time / dt :=
    div_nonneg (mul_nonneg (by norm_num) (le_of_lt hT0)) (le_of_lt hdt0)
  have hM1 : ((⌊11 / 10 * e.attack_time / dt⌋₊ + 1 : Nat) : ℚ)
      ≤ 11 / 10 * e.attack_time / dt + 1 := by
    push_cast
    have := Nat.floor_le hx
    linarith
  obtain ⟨n0, hn0, hleave⟩ :=
    Envelope3Generator.attack32_leaves e.reset.trigger32 dt s1 s2 s3 hdt hk17' hk'
  rw [s4] at hn0
  have hex : ∃ n, (Envelope3Generator.processN32 dt n e.reset.trigger32).stage
      ≠ Stage.ATTACK := ⟨n0, hleave⟩
  have hspec := Nat.find_spec hex
  have hmin : ∀ i, i < Nat.find hex →
      (Envelope3Generator.processN32 dt i e.reset.trigger32).stage = Stage.ATTACK :=
    fun i hi => not_not.mp (Nat.find_min hex hi)
  have hle : Nat.find hex ≤ ⌊11 / 10 * e.attack_time / dt⌋₊ + 1 :=
    le_trans (Nat.find_min' hex hleave) hn0
  have hne : Nat.find hex ≠ 0 := by
    intro h0
    rw [h0] at hspec
    exact hspec s1
  obtain ⟨p, hp⟩ := Nat.exists_eq_succ_of_ne_zero hne
  have hfollow : ∀ j, j < Nat.find hex →
      (Envelope3Generator.processN32 dt j e.reset.trigger32).stage = Stage.ATTACK ∧
      (Envelope3Generator.processN32 dt j e.reset.trigger32).target
        = binary32 Envelope3Generator.OVERSHOOT ∧
      (Envelope3Generator.processN32 dt j e.reset.trigger32).attack_time
        = e.reset.trigger32.attack_time ∧
      0 ≤ (Envelope3Generator.processN32 dt j e.reset.trigger32).value ∧
      (Envelope3Generator.processN32 dt j e.reset.trigger32).value ≤ 1 := by
    intro j hj
    obtain ⟨i1, i2, i3, i4, i5, -⟩ :=
      Envelope3Generator.processN32_attack e.reset.trigger32 dt s1 s2 s3 hdt hk17' hk' j
        (fun i hi => hmin (i + 1) (by omega))
    exact ⟨i1, i2, i3, i4, i5⟩
  have hstep : ∀ j, j < Nat.find hex →
      ((Envelope3Generator.processN32 dt (j + 1) e.reset.trigger32).stage = Stage.DECAY ∧
        (Envelope3Generator.processN32 dt (j + 1) e.reset.trigger32).value = 1) ∨
      ((Envelope3Generator.processN32 dt (j + 1) e.reset.trigger32).stage = Stage.ATTACK ∧
        (Envelope3Generator.processN32 dt j e.reset.trigger32).value
          < (Envelope3Generator.processN32 dt (j + 1) e.reset.trigger32).value) := by
    intro j hj
    obtain ⟨i1, i2, i3, i4, i5⟩ := hfollow j hj
    rw [Envelope3Generator.processN32_succ]
    rcases Envelope3Generator.attack32_step
      (Envelope3Generator.processN32 dt j e.reset.trigger32) dt i1 i2 hdt
      (by rw [i3]; exact hk17') (by rw [i3]; exact hk') i4 i5 with h | ⟨q1, -, -, q4, -, -⟩
    · exact Or.inl h
    · exact Or.inr ⟨q1, q4⟩
  have hlast : (Envelope3Generator.processN32 dt (Nat.find hex) e.reset.trigger32).stage
        = Stage.DECAY ∧
      (Envelope3Generator.processN32 dt (Nat.find hex) e.reset.trigger32).value = 1 := by
    rcases hstep p (by omega) with h | ⟨h, -⟩
    · rw [hp]
      exact h
    · rw [hp] at hspec
      exact absurd h hspec
  refine ⟨Nat.find hex, le_trans (by exact_mod_cast hle) hM1, hlast.2, hlast.1, ?_, ?_⟩
  · intro j hj
    obtain ⟨i1, -, -, -, i5⟩ := hfollow j hj
    exact ⟨i1, i5⟩
  · intro j hj
    rcases hstep j (by omega) with ⟨h, -⟩ | ⟨-, h⟩
    · have := hmin (j + 1) hj
      rw [this] at h
      exact absurd h (by decide)
    · exact h

/-- C16 amended, at the default attack time 0.5 s on the sample period `2^(-15)` s. -/
theorem C16_witness :
    ∃ n : Nat, (n : ℚ) ≤ 11 / 10 * (1 / 2) / (1 / 32768) + 1 ∧
      (Envelope3Generator.processN32 (1 / 32768) n
        (Envelope3Generator.trigger32 (Envelope3Generator.reset { attack_time := 1 / 2 }))).value
          = 1 ∧
      (Envelope3Generator.processN32 (1 / 32768) n
        (Envelope3Generator.trigger32 (Envelope3Generator.reset { attack_time := 1 / 2 }))).stage
          = Stage.DECAY :=
  (C16_attack_reaches_one { attack_time := 1 / 2 } (1 / 32768)
    (by norm_num)
    (show (1 / 2 : ℚ) ≤ 2 ^ 100 by norm_num)
    (show (1 / 2 : ℚ) ≤ 2 ^ 17 * (Envelope3Generator.COEFF * (1 / 32768)) by
      norm_num [Envelope3Generator.COEFF])
    (show Envelope3Generator.COEFF * (1 / 32768) ≤ 1 / 2 by
      norm_num [Envelope3Generator.COEFF])).elim
    fun n hn => ⟨n, hn.1, hn.2.1, hn.2.2.1⟩

/-! ## The attack in binary32: a long attack stalls -/

namespace Envelope3Generator

/-- With attack time 512 s on the sample period `2^(-16)` s, a call of `process` in binary32
keeps an attack whose value is a `float` of at most 3/4 at a value of at most 3/4: near 3/4
the increment is less than half the spacing `2^(-24)` of the `float` numbers there. -/
theorem stall32_step (x : Envelope3Generator) (hs : x.stage = Stage.ATTACK)
    (ht : x.target = binary32 OVERSHOOT) (hT : x.attack_time = 512) (hv0 : 0 ≤ x.value)
    (hv : x.value ≤ 3 / 4 - 1 / 2 ^ 24 ∨ x.value = 3 / 4) :
    (process32 x (1 / 65536)).stage = Stage.ATTACK ∧
      (process32 x (1 / 65536)).target = binary32 OVERSHOOT ∧
      (process32 x (1 / 65536)).attack_time = 512 ∧
      0 ≤ (process32 x (1 / 65536)).value ∧
      ((process32 x (1 / 65536)).value ≤ 3 / 4 - 1 / 2 ^ 24 ∨
        (process32 x (1 / 65536)).value = 3 / 4) := by
  have hto := overshoot32_bounds
  have hlo : (11499 / 10000 : ℚ) ≤ binary32 OVERSHOOT := by
    have : (11499 / 10000 : ℚ) ≤ OVERSHOOT * (1 - 1 / 2 ^ 24) := by
      unfold OVERSHOOT
      norm_num
    linarith [hto.1]
  have hhi : binary32 OVERSHOOT ≤ 11501 / 10000 := by
    have : OVERSHOOT * (1 + 1 / 2 ^ 24) ≤ (11501 / 10000 : ℚ) := by
      unfold OVERSHOOT
      norm_num
    linarith [hto.2]
  have hv34 : x.value ≤ 3 / 4 := by
    rcases hv with h | h
    · linarith [show (0 : ℚ) ≤ 1 / 2 ^ 24 by norm_num]
    · rw [h]
  have hw : 1 / 8 ≤ binary32 OVERSHOOT - x.value := by linarith
  obtain ⟨d1, d2⟩ := @increment32_bounds (binary32 OVERSHOOT - x.value) 512 (1 / 65536)
    (by norm_num) (by norm_num)
    (by
      unfold COEFF
      norm_num) hw
  obtain ⟨d, hddef⟩ : ∃ d : ℚ, d = binary32 (binary32 (binary32 (binary32 COEFF * (1 / 65536))
        * binary32 (binary32 OVERSHOOT - x.value)) / 512) := ⟨_, rfl⟩
  rw [← hddef] at d1 d2
  -- the increment is positive and below 0.82 of the half spacing
  have hk : COEFF * (1 / 65536) / 512 * (1 + 1 / 2 ^ 24) ^ 5 ≤ 204 / 100 / 2 ^ 25 := by
    unfold COEFF
    norm_num
  have hk0 : 0 < COEFF * (1 / 65536) / 512 * (1 - 1 / 2 ^ 24) ^ 5 := by
    unfold COEFF
    norm_num
  have hd0 : 0 < d := by
    have : 0 < COEFF * (1 / 65536) / 512 * (binary32 OVERSHOOT - x.value)
        * (1 - 1 / 2 ^ 24) ^ 5 := by
      have h1 : 0 < binary32 OVERSHOOT - x.value := by linarith
      have h2 := mul_pos hk0 h1
      linarith [show COEFF * (1 / 65536) / 512 * (binary32 OVERSHOOT - x.value)
          * (1 - 1 / 2 ^ 24) ^ 5
        = COEFF * (1 / 65536) / 512 * (1 - 1 / 2 ^ 24) ^ 5 * (binary32 OVERSHOOT - x.value) by
        ring]
    linarith
  have hd2 : d ≤ 204 / 100 / 2 ^ 25 * (binary32 OVERSHOOT - x.value) := by
    have h1 : 0 ≤ binary32 OVERSHOOT - x.value := by linarith
    have h2 := mul_le_mul_of_nonneg_right hk h1
    linarith [show COEFF * (1 / 65536) / 512 * (binary32 OVERSHOOT - x.value)
          * (1 + 1 / 2 ^ 24) ^ 5
        = COEFF * (1 / 65536) / 512 * (1 + 1 / 2 ^ 24) ^ 5 * (binary32 OVERSHOOT - x.value) by
        ring]
  have hy0 : 0 ≤ x.value + d := by linarith
  have hnew : binary32 (x.value + d) ≤ 3 / 4 - 1 / 2 ^ 24 ∨ binary32 (x.value + d) = 3 / 4 := by
    rcases hv with h | h
    · left
      have hy : x.value + d < 3 / 4 - 1 / 2 ^ 24 + 1 / 2 ^ 25 := by
        have h3 : 204 / 100 / 2 ^ 25 * (binary32 OVERSHOOT - x.value)
            = 204 / 100 / 2 ^ 25 * binary32 OVERSHOOT - 204 / 100 / 2 ^ 25 * x.value := by ring
        have h4 : (1 - 204 / 100 / 2 ^ 25) * x.value
            ≤ (1 - 204 / 100 / 2 ^ 25) * (3 / 4 - 1 / 2 ^ 24) :=
          mul_le_mul_of_nonneg_left h (by norm_num)
        have h5 : 204 / 100 / 2 ^ 25 * binary32 OVERSHOOT
            ≤ 204 / 100 / 2 ^ 25 * (11501 / 10000) :=
          mul_le_mul_of_nonneg_left hhi (by norm_num)
        have h6 : (1 - 204 / 100 / 2 ^ 25) * (3 / 4 - 1 / 2 ^ 24)
            + 204 / 100 / 2 ^ 25 * (11501 / 10000) < (3 / 4 - 1 / 2 ^ 24 + 1 / 2 ^ 25 : ℚ) := by
          norm_num
        have h7 : x.value + d ≤ (1 - 204 / 100 / 2 ^ 25) * x.value
            + 204 / 100 / 2 ^ 25 * binary32 OVERSHOOT := by
          have : (1 - 204 / 100 / 2 ^ 25) * x.value + 204 / 100 / 2 ^ 25 * binary32 OVERSHOOT
              = x.value + (204 / 100 / 2 ^ 25 * binary32 OVERSHOOT
                - 204 / 100 / 2 ^ 25 * x.value) := by ring
          rw [this, ← h3]
          linarith
        linarith
      by_cases hhalf : x.value + d < 1 / 2
      · have := binary32_le_half hhalf
        linarith [show (1 / 2 : ℚ) ≤ 3 / 4 - 1 / 2 ^ 24 by norm_num]
      · have hlt1 : x.value + d < 1 := by
          linarith [show (3 / 4 - 1 / 2 ^ 24 + 1 / 2 ^ 25 : ℚ) < 1 by norm_num]
        rw [binary32_of_half_le (not_lt.mp hhalf) hlt1]
        have h8 : (x.value + d) * 2 ^ 24 < ((12582912 : Int) : ℚ) - 1 / 2 := by
          have := mul_lt_mul_of_pos_right hy (show (0 : ℚ) < 2 ^ 24 by norm_num)
          have e1 : (3 / 4 - 1 / 2 ^ 24 + 1 / 2 ^ 25 : ℚ) * 2 ^ 24
              = ((12582912 : Int) : ℚ) - 1 / 2 := by
            norm_num
          rw [e1] at this
          exact this
        have h9 := roundHalfEven_lt_of_lt h8
        have h10 : ((roundHalfEven ((x.value + d) * 2 ^ 24) : Int) : ℚ) ≤ 12582911 := by
          exact_mod_cast h9
        have h11 : ((roundHalfEven ((x.value + d) * 2 ^ 24) : Int) : ℚ) / 2 ^ 24
            ≤ 12582911 / 2 ^ 24 := div_le_div_of_nonneg_right h10 (by norm_num)
        linarith [show (12582911 / 2 ^ 24 : ℚ) = 3 / 4 - 1 / 2 ^ 24 by norm_num]
    · right
      rw [h] at hd2 hy0 ⊢
      have hdlt : d < 1 / 2 ^ 25 := by
        have h5 : 204 / 100 / 2 ^ 25 * (binary32 OVERSHOOT - 3 / 4)
            ≤ 204 / 100 / 2 ^ 25 * (11501 / 10000 - 3 / 4) :=
          mul_le_mul_of_nonneg_left (by linarith) (by norm_num)
        linarith [show (204 / 100 / 2 ^ 25 * (11501 / 10000 - 3 / 4) : ℚ) < 1 / 2 ^ 25 by
          norm_num]
      have hge : (1 / 2 : ℚ) ≤ 3 / 4 + d := by linarith
      have hlt1 : 3 / 4 + d < 1 := by
        linarith [show (1 / 2 ^ 25 : ℚ) < 1 / 4 by norm_num]
      rw [binary32_of_half_le hge hlt1]
      have e1 : (3 / 4 + d) * 2 ^ 24 = ((12582912 : Int) : ℚ) + d * 2 ^ 24 := by
        push_cast
        ring
      have h8 : ((12582912 : Int) : ℚ) ≤ (3 / 4 + d) * 2 ^ 24 := by
        rw [e1]
        have := mul_pos hd0 (show (0 : ℚ) < 2 ^ 24 by norm_num)
        linarith
      have h9 : (3 / 4 + d) * 2 ^ 24 < ((12582912 : Int) : ℚ) + 1 / 2 := by
        rw [e1]
        have := mul_lt_mul_of_pos_right hdlt (show (0 : ℚ) < 2 ^ 24 by norm_num)
        linarith [show (1 / 2 ^ 25 * 2 ^ 24 : ℚ) = 1 / 2 by norm_num]
      rw [roundHalfEven_eq_of_near h8 h9]
      norm_num
  have hle1 : binary32 (x.value + d) ≤ 1 := by
    rcases hnew with h | h
    · linarith [show (3 / 4 - 1 / 2 ^ 24 : ℚ) ≤ 1 by norm_num]
    · rw [h]
      norm_num
  have hb := process32_attack_below x (1 / 65536) hs (by
    rw [ht, hT, ← hddef]
    exact hle1)
  rw [hb]
  refine ⟨hs, ht, hT, ?_, ?_⟩
  · show 0 ≤ binary32 (x.value + binary32 (binary32 (binary32 (binary32 COEFF * (1 / 65536))
        * binary32 (x.target - x.value)) / x.attack_time))
    rw [ht, hT, ← hddef]
    exact binary32_nonneg hy0
  · show binary32 (x.value + binary32 (binary32 (binary32 (binary32 COEFF * (1 / 65536))
        * binary32 (x.target - x.value)) / x.attack_time)) ≤ 3 / 4 - 1 / 2 ^ 24 ∨
      binary32 (x.value + binary32 (binary32 (binary32 (binary32 COEFF * (1 / 65536))
        * binary32 (x.target - x.value)) / x.attack_time)) = 3 / 4
    rw [ht, hT, ← hddef]
    exact hnew

/-- With attack time 512 s on the sample period `2^(-16)` s, the attack from value 0 never
leaves `ATTACK` in binary32, and its value never passes 3/4. -/
theorem stall32 (e0 : Envelope3Generator) (hs : e0.stage = Stage.ATTACK)
    (ht : e0.target = binary32 OVERSHOOT) (hT : e0.attack_time = 512) (hv : e0.value = 0) :
    ∀ n : Nat, (processN32 (1 / 65536) n e0).stage = Stage.ATTACK ∧
      (processN32 (1 / 65536) n e0).target = binary32 OVERSHOOT ∧
      (processN32 (1 / 65536) n e0).attack_time = 512 ∧
      0 ≤ (processN32 (1 / 65536) n e0).value ∧
      ((processN32 (1 / 65536) n e0).value ≤ 3 / 4 - 1 / 2 ^ 24 ∨
        (processN32 (1 / 65536) n e0).value = 3 / 4) := by
  intro n
  induction n with
  | zero =>
    refine ⟨hs, ht, hT, ?_, Or.inl ?_⟩
    · show 0 ≤ e0.value
      rw [hv]
    · show e0.value ≤ 3 / 4 - 1 / 2 ^ 24
      rw [hv]
      norm_num
  | succ n ih =>
    obtain ⟨i1, i2, i3, i4, i5⟩ := ih
    rw [processN32_succ]
    exact stall32_step _ i1 i2 i3 i4 i5

end Envelope3Generator

/-- C16, as stated, fails in the arithmetic of the program: with the attack time 512 s and
`dt = 2^(-16)` s, which satisfy `T > 0`, `dt > 0` and `COEFF*dt ≤ T`, after every number of
calls of `process(dt)` in binary32 the stage is still `ATTACK` and the value is at most 3/4,
so the value 1.0 and the stage `DECAY` are never reached. -/
theorem C16_counterexample :
    (0 : ℚ) < 512 ∧ (0 : ℚ) < 1 / 65536 ∧ Envelope3Generator.COEFF * (1 / 65536) ≤ 512 ∧
      ∀ n : Nat,
        (Envelope3Generator.processN32 (1 / 65536) n
          (Envelope3Generator.trigger32 (Envelope3Generator.reset { attack_time := 512 }))).stage
            = Stage.ATTACK ∧
        (Envelope3Generator.processN32 (1 / 65536) n
          (Envelope3Generator.trigger32 (Envelope3Generator.reset { attack_time := 512 }))).value
            ≤ 3 / 4 := by
  obtain ⟨s1, s2, s3, s4⟩ := Envelope3Generator.trigger32_reset { attack_time := 512 }
  refine ⟨by norm_num, by norm_num, by norm_num [Envelope3Generator.COEFF], fun n => ?_⟩
  obtain ⟨i1, -, -, -, i5⟩ := Envelope3Generator.stall32 _ s1 s2 s4 s3 n
  refine ⟨i1, ?_⟩
  rcases i5 with h | h
  · linarith [show (0 : ℚ) ≤ 1 / 2 ^ 24 by norm_num]
  · rw [h]

end AcidKit
